import Mathlib

/-!
Lot catalogue chaincode (`assetTransfer.js`).

A shallow embedding of the `AssetTransfer` contract: the world state it runs
against, the `JSON.stringify` / `JSON.parse` pair it serialises records with,
and its eight transaction functions.
-/

namespace AssetTransfer

/-! ## World state -/

/-- Order of ledger keys: code point by code point, which is the byte order of
the keys in UTF-8. -/
def keyLt (a b : String) : Prop := a.data < b.data

instance keyLtDecidable : DecidableRel keyLt :=
  fun a b => inferInstanceAs (Decidable (a.data < b.data))

/-- One key of the world state with the bytes stored under it (as text). -/
abbrev Entry := String × String

/-- Strictly ascending keys. -/
def Ascending (l : List Entry) : Prop := l.Pairwise (fun a b => keyLt a.1 b.1)

/-- Write `v` under `k` in an ascending entry list. -/
def putEntries (k v : String) : List Entry → List Entry
  | [] => [(k, v)]
  | (k', v') :: t =>
    if keyLt k k' then (k, v) :: (k', v') :: t
    else if k = k' then (k, v) :: t
    else (k', v') :: putEntries k v t

/-- Remove `k` from an entry list. -/
def delEntries (k : String) (l : List Entry) : List Entry :=
  l.filter (fun e => decide (e.1 ≠ k))

/-- The value stored under `k`, if any. -/
def findEntry (k : String) : List Entry → Option String
  | [] => none
  | (k', v') :: t => if k = k' then some v' else findEntry k t

theorem putEntries_fst_mem (k v : String) (l : List Entry) (e : Entry)
    (h : e ∈ putEntries k v l) : e.1 = k ∨ e ∈ l := by
  induction l with
  | nil =>
    simp only [putEntries, List.mem_singleton] at h
    exact Or.inl (by rw [h])
  | cons hd t ih =>
    obtain ⟨k', v'⟩ := hd
    unfold putEntries at h
    split at h
    · rcases List.mem_cons.1 h with h | h
      · exact Or.inl (by rw [h])
      · exact Or.inr h
    · split at h
      · rcases List.mem_cons.1 h with h | h
        · exact Or.inl (by rw [h])
        · exact Or.inr (List.mem_cons_of_mem _ h)
      · rcases List.mem_cons.1 h with h | h
        · exact Or.inr (by rw [h]; exact List.mem_cons_self _ _)
        · rcases ih h with h | h
          · exact Or.inl h
          · exact Or.inr (List.mem_cons_of_mem _ h)

theorem keyLt_trans {a b c : String} (h₁ : keyLt a b) (h₂ : keyLt b c) : keyLt a c :=
  lt_trans (α := List Char) h₁ h₂

theorem keyLt_of_not {a b : String} (h₁ : ¬ keyLt a b) (h₂ : a ≠ b) : keyLt b a := by
  rcases lt_trichotomy a.data b.data with h | h | h
  · exact absurd h h₁
  · exact absurd (String.ext h) h₂
  · exact h

theorem keyLt_irrefl (a : String) : ¬ keyLt a a := lt_irrefl (α := List Char) a.data

theorem putEntries_ascending (k v : String) (l : List Entry) (h : Ascending l) :
    Ascending (putEntries k v l) := by
  induction l with
  | nil => simp [putEntries, Ascending]
  | cons hd t ih =>
    obtain ⟨k', v'⟩ := hd
    have ht : Ascending t := (List.pairwise_cons.1 h).2
    have hhd := (List.pairwise_cons.1 h).1
    unfold putEntries
    split
    · rename_i hlt
      refine List.pairwise_cons.2 ⟨?_, h⟩
      intro e he
      rcases List.mem_cons.1 he with he | he
      · rw [he]; exact hlt
      · exact keyLt_trans hlt (hhd e he)
    · split
      · rename_i _ heq
        subst heq
        exact List.pairwise_cons.2 ⟨hhd, ht⟩
      · rename_i hnlt hne
        refine List.pairwise_cons.2 ⟨?_, ih ht⟩
        intro e he
        rcases putEntries_fst_mem k v t e he with he | he
        · rw [he]; exact keyLt_of_not hnlt hne
        · exact hhd e he

theorem delEntries_ascending (k : String) (l : List Entry) (h : Ascending l) :
    Ascending (delEntries k l) :=
  List.Pairwise.filter _ h

/-- The world state of the chaincode namespace: a finite map from keys to
stored values, kept in ascending key order (the order a range query walks).
Values are texts, the buffers the contract reads being decoded as UTF-8; a key
may hold the empty value. -/
structure Store where
  entries : List Entry
  ascending : Ascending entries

namespace Store

/-- The world state with no key. -/
def empty : Store := ⟨[], List.Pairwise.nil⟩

/-- The entry of `k`, if it has one. -/
def find (s : Store) (k : String) : Option String := findEntry k s.entries

/-- Stub `getState`: the value under `k`.  The ledger answers a key that has
no entry with an empty buffer, so a missing key and an empty value read alike. -/
def getState (s : Store) (k : String) : String := (s.find k).getD ""

/-- Stub `putState`: write `v` under `k`, replacing what was there. -/
def putState (s : Store) (k v : String) : Store :=
  ⟨putEntries k v s.entries, putEntries_ascending k v s.entries s.ascending⟩

/-- Stub `deleteState`: remove `k`. -/
def deleteState (s : Store) (k : String) : Store :=
  ⟨delEntries k s.entries, delEntries_ascending k s.entries s.ascending⟩

/-- Stub `getStateByRange('', '')`: the open-ended query of the source, every
entry of the namespace in key order. -/
def getStateByRange (s : Store) : List Entry := s.entries

end Store

/-! ## Strings of the runtime

Transaction arguments, ledger keys and stored values are well-formed text
(`String`).  The string values inside a parsed JSON document are sequences of
UTF-16 code units: a `\uXXXX` escape can put a lone surrogate there. -/

/-- A UTF-16 code unit. -/
abbrev CodeUnit := Fin 65536

/-- The code unit with number `n` (taken modulo 2^16). -/
def mkUnit (n : Nat) : CodeUnit := ⟨n % 65536, Nat.mod_lt _ (by decide)⟩

/-- A string value of the runtime. -/
abbrev JSString := List CodeUnit

/-- UTF-16 form of one code point. -/
def charUnits (c : Char) : List CodeUnit :=
  if c.toNat < 0x10000 then [mkUnit c.toNat]
  else [mkUnit (0xD800 + (c.toNat - 0x10000) / 0x400),
        mkUnit (0xDC00 + (c.toNat - 0x10000) % 0x400)]

/-- UTF-16 form of a text. -/
def utf16 : List Char → JSString
  | [] => []
  | c :: cs => charUnits c ++ utf16 cs

/-- The runtime string holding the text `s`. -/
def jsString (s : String) : JSString := utf16 s.data

/-- Leading surrogate. -/
def isHigh (u : CodeUnit) : Bool := decide (0xD800 ≤ u.val) && decide (u.val < 0xDC00)

/-- Trailing surrogate. -/
def isLow (u : CodeUnit) : Bool := decide (0xDC00 ≤ u.val) && decide (u.val < 0xE000)

/-- Lowercase hexadecimal digit of `n < 16`. -/
def hexDigit (n : Nat) : Char := if n < 10 then Char.ofNat (48 + n) else Char.ofNat (87 + n)

/-- Four lowercase hexadecimal digits of a code unit. -/
def hex4 (n : Nat) : List Char :=
  [hexDigit (n / 4096 % 16), hexDigit (n / 256 % 16), hexDigit (n / 16 % 16), hexDigit (n % 16)]

/-- Value of a hexadecimal digit, either case. -/
def hexVal (c : Char) : Option Nat :=
  if 48 ≤ c.toNat ∧ c.toNat ≤ 57 then some (c.toNat - 48)
  else if 97 ≤ c.toNat ∧ c.toNat ≤ 102 then some (c.toNat - 87)
  else if 65 ≤ c.toNat ∧ c.toNat ≤ 70 then some (c.toNat - 55)
  else none

/-- `UnicodeEscape`: backslash, `u`, four hex digits. -/
def unicodeEscape (n : Nat) : List Char := '\\' :: 'u' :: hex4 n

/-- `QuoteJSONString` on one code point of the basic plane that is no surrogate. -/
def quoteCodePoint (n : Nat) : List Char :=
  if n = 8 then ['\\', 'b']
  else if n = 9 then ['\\', 't']
  else if n = 10 then ['\\', 'n']
  else if n = 12 then ['\\', 'f']
  else if n = 13 then ['\\', 'r']
  else if n = 34 then ['\\', '"']
  else if n = 92 then ['\\', '\\']
  else if n < 32 then unicodeEscape n
  else [Char.ofNat n]

/-- `QuoteJSONString` on a code unit that is not half of a surrogate pair:
a lone surrogate is written as a `\u` escape. -/
def quoteUnit (u : CodeUnit) : List Char :=
  if isHigh u || isLow u then unicodeEscape u.val else quoteCodePoint u.val

/-- `QuoteJSONString` without the surrounding quotes: a surrogate pair is
written as the code point it encodes. -/
def quoteUnits : JSString → List Char
  | [] => []
  | [u] => quoteUnit u
  | u :: l :: rest =>
    if isHigh u && isLow l then
      Char.ofNat (0x10000 + (u.val - 0xD800) * 0x400 + (l.val - 0xDC00)) :: quoteUnits rest
    else quoteUnit u ++ quoteUnits (l :: rest)

/-- `QuoteJSONString`. -/
def quote (s : JSString) : List Char := '"' :: (quoteUnits s ++ ['"'])

/-! ## JSON values -/

/-- A value `JSON.parse` can return.  A number is kept as the literal it was
read from; an object is its own properties in enumeration order. -/
inductive JSON where
  | null
  | bool (b : Bool)
  | num (lit : List Char)
  | str (s : JSString)
  | arr (xs : List JSON)
  | obj (ps : List (JSString × JSON))

/-- Digits of a decimal literal. -/
def isDigit (c : Char) : Bool := decide (48 ≤ c.toNat) && decide (c.toNat ≤ 57)

/-- Value of a string of decimal digits. -/
def digitsVal : List CodeUnit → Nat → Nat
  | [], acc => acc
  | u :: us, acc => digitsVal us (acc * 10 + (u.val - 48))

/-- The array index a property key denotes, if it is one: a canonical decimal
numeral below 2^32 - 1. -/
def arrayIndex (k : JSString) : Option Nat :=
  match k with
  | [] => none
  | u :: us =>
    if (u :: us).all (fun d => decide (48 ≤ d.val) && decide (d.val ≤ 57)) then
      if u.val = 48 ∧ us ≠ [] then none
      else if (u :: us).length ≤ 10 ∧ digitsVal (u :: us) 0 < 4294967295 then
        some (digitsVal (u :: us) 0)
      else none
    else none

/-- Whether an object has an own property `k`. -/
def hasProp (k : JSString) : List (JSString × JSON) → Bool
  | [] => false
  | (k', _) :: t => decide (k = k') || hasProp k t

/-- Value of the own property `k`. -/
def getProp (k : JSString) : List (JSString × JSON) → Option JSON
  | [] => none
  | (k', v') :: t => if k = k' then some v' else getProp k t

/-- Overwrite the value of the existing property `k`, keeping its place. -/
def replaceProp (k : JSString) (v : JSON) : List (JSString × JSON) → List (JSString × JSON)
  | [] => []
  | (k', v') :: t => if k = k' then (k', v) :: t else (k', v') :: replaceProp k v t

/-- Add a new property whose key is the array index `i`: array indices
enumerate first, in ascending order. -/
def insertIndexProp (i : Nat) (k : JSString) (v : JSON) :
    List (JSString × JSON) → List (JSString × JSON)
  | [] => [(k, v)]
  | (k', v') :: t =>
    match arrayIndex k' with
    | some j => if i < j then (k, v) :: (k', v') :: t else (k', v') :: insertIndexProp i k v t
    | none => (k, v) :: (k', v') :: t

/-- Define or assign the own data property `k` of an ordinary object:
an existing property keeps its place, a new array index goes among the
indices, any other new key goes last. -/
def setProp (ps : List (JSString × JSON)) (k : JSString) (v : JSON) : List (JSString × JSON) :=
  if hasProp k ps then replaceProp k v ps
  else match arrayIndex k with
    | some i => insertIndexProp i k v ps
    | none => ps ++ [(k, v)]

/-- Enumeration order of two own keys: array indices by number, and before
every other key. -/
def keyBefore (a b : JSString) : Prop :=
  match arrayIndex a, arrayIndex b with
  | some i, some j => i ≤ j
  | some _, none => True
  | none, some _ => False
  | none, none => True

/-- The keys of an ordinary object as they enumerate: no key twice, array
indices first and ascending. -/
def CanonKeys (ks : List JSString) : Prop := ks.Nodup ∧ ks.Pairwise keyBefore

mutual
/-- Every object inside the value lists its keys the way an ordinary object
enumerates them. -/
def JSON.canonical : JSON → Prop
  | .arr xs => canonicalList xs
  | .obj ps => CanonKeys (ps.map Prod.fst) ∧ canonicalProps ps
  | _ => True
/-- `JSON.canonical` for every element. -/
def canonicalList : List JSON → Prop
  | [] => True
  | x :: xs => x.canonical ∧ canonicalList xs
/-- `JSON.canonical` for every property value. -/
def canonicalProps : List (JSString × JSON) → Prop
  | [] => True
  | (_, v) :: ps => v.canonical ∧ canonicalProps ps
end

mutual
/-- No number anywhere inside the value. -/
def JSON.numberFree : JSON → Bool
  | .num _ => false
  | .arr xs => numberFreeList xs
  | .obj ps => numberFreeProps ps
  | _ => true
/-- `JSON.numberFree` for every element. -/
def numberFreeList : List JSON → Bool
  | [] => true
  | x :: xs => x.numberFree && numberFreeList xs
/-- `JSON.numberFree` for every property value. -/
def numberFreeProps : List (JSString × JSON) → Bool
  | [] => true
  | (_, v) :: ps => v.numberFree && numberFreeProps ps
end

/-! ## `JSON.stringify` -/

mutual
/-- `SerializeJSONProperty` on a parsed value; `fmt` prints the Number a
literal denotes (`Number::toString`, or `null` when it is not finite). -/
def stringifyValue (fmt : List Char → List Char) : JSON → List Char
  | .null => ['n', 'u', 'l', 'l']
  | .bool true => ['t', 'r', 'u', 'e']
  | .bool false => ['f', 'a', 'l', 's', 'e']
  | .num lit => fmt lit
  | .str s => quote s
  | .arr [] => ['[', ']']
  | .arr (x :: xs) => '[' :: (stringifyValue fmt x ++ stringifyElems fmt xs)
  | .obj [] => ['{', '}']
  | .obj ((k, v) :: ps) =>
    '{' :: (quote k ++ ':' :: (stringifyValue fmt v ++ stringifyMembers fmt ps))
/-- The elements after the first, each behind a comma, and the closing bracket. -/
def stringifyElems (fmt : List Char → List Char) : List JSON → List Char
  | [] => [']']
  | x :: xs => ',' :: (stringifyValue fmt x ++ stringifyElems fmt xs)
/-- The members after the first, each behind a comma, and the closing brace. -/
def stringifyMembers (fmt : List Char → List Char) : List (JSString × JSON) → List Char
  | [] => ['}']
  | (k, v) :: ps => ',' :: (quote k ++ ':' :: (stringifyValue fmt v ++ stringifyMembers fmt ps))
end

/-- `JSON.stringify(value)` for a parsed value. -/
def JSON.stringify (fmt : List Char → List Char) (v : JSON) : String :=
  String.mk (stringifyValue fmt v)

/-! ## `JSON.parse` -/

/-- Outcome of a parsing function: a value and the unread rest of the text, a
syntax error, or an exhausted recursion budget. -/
inductive PResult (α : Type) where
  | ok (v : α) (rest : List Char)
  | syntaxError
  | outOfFuel

/-- Continue with the value and the rest of a successful outcome. -/
def PResult.bind {α β : Type} (x : PResult α) (f : α → List Char → PResult β) : PResult β :=
  match x with
  | .ok v rest => f v rest
  | .syntaxError => .syntaxError
  | .outOfFuel => .outOfFuel

/-- JSON white space: tab, line feed, carriage return, space. -/
def isWs (c : Char) : Bool :=
  decide (c = ' ') || decide (c = '\t') || decide (c = '\n') || decide (c = '\r')

/-- Drop leading white space. -/
def skipWs : List Char → List Char
  | [] => []
  | c :: cs => if isWs c then skipWs cs else c :: cs

/-- The code unit a one-letter escape stands for. -/
def escapeUnit (e : Char) : Option CodeUnit :=
  if e = '"' then some (mkUnit 34)
  else if e = '\\' then some (mkUnit 92)
  else if e = '/' then some (mkUnit 47)
  else if e = 'b' then some (mkUnit 8)
  else if e = 'f' then some (mkUnit 12)
  else if e = 'n' then some (mkUnit 10)
  else if e = 'r' then some (mkUnit 13)
  else if e = 't' then some (mkUnit 9)
  else none

/-- A string literal after its opening quote: the string and the text behind
the closing quote.  A raw control character or a bad escape is an error. -/
def parseString : List Char → Option (JSString × List Char)
  | [] => none
  | c :: r =>
    if c = '"' then some ([], r)
    else if c = '\\' then
      match r with
      | [] => none
      | e :: r1 =>
        if e = 'u' then
          match r1 with
          | a :: b :: c' :: d :: r2 =>
            match hexVal a, hexVal b, hexVal c', hexVal d with
            | some x, some y, some z, some w =>
              (parseString r2).map
                (fun p => (mkUnit (x * 4096 + y * 256 + z * 16 + w) :: p.1, p.2))
            | _, _, _, _ => none
          | _ => none
        else
          match escapeUnit e with
          | some u => (parseString r1).map (fun p => (u :: p.1, p.2))
          | none => none
    else if c.toNat < 32 then none
    else (parseString r).map (fun p => (charUnits c ++ p.1, p.2))

/-- Longest run of digits and what follows it. -/
def takeDigits : List Char → List Char × List Char
  | [] => ([], [])
  | c :: cs =>
    if isDigit c then (c :: (takeDigits cs).1, (takeDigits cs).2) else ([], c :: cs)

/-- Integer part of a number: `0`, or a non-zero digit and more digits. -/
def parseInt : List Char → Option (List Char × List Char)
  | [] => none
  | d :: r =>
    if d = '0' then some (['0'], r)
    else if isDigit d then some (d :: (takeDigits r).1, (takeDigits r).2)
    else none

/-- Optional fraction: a point and at least one digit. -/
def parseFrac : List Char → Option (List Char × List Char)
  | [] => some ([], [])
  | c :: r =>
    if c = '.' then
      if (takeDigits r).1 = [] then none else some (c :: (takeDigits r).1, (takeDigits r).2)
    else some ([], c :: r)

/-- Digits of an exponent behind its optional sign. -/
def parseExpDigits (pre r : List Char) : Option (List Char × List Char) :=
  if (takeDigits r).1 = [] then none else some (pre ++ (takeDigits r).1, (takeDigits r).2)

/-- Optional exponent: `e` or `E`, an optional sign, at least one digit. -/
def parseExp : List Char → Option (List Char × List Char)
  | [] => some ([], [])
  | e :: r =>
    if e = 'e' ∨ e = 'E' then
      match r with
      | [] => none
      | s :: r1 =>
        if s = '+' ∨ s = '-' then parseExpDigits [e, s] r1 else parseExpDigits [e] (s :: r1)
    else some ([], e :: r)

/-- A number literal without its sign. -/
def parseUnsigned (cs : List Char) : Option (List Char × List Char) :=
  match parseInt cs with
  | none => none
  | some (i, r1) =>
    match parseFrac r1 with
    | none => none
    | some (f, r2) =>
      match parseExp r2 with
      | none => none
      | some (e, r3) => some (i ++ f ++ e, r3)

/-- A number literal: the literal and the text behind it. -/
def parseNumber : List Char → Option (List Char × List Char)
  | [] => none
  | c :: r =>
    if c = '-' then (parseUnsigned r).map (fun p => (c :: p.1, p.2))
    else parseUnsigned (c :: r)

/-- Strip the expected characters `p` from the front of the text. -/
def dropPrefix : List Char → List Char → Option (List Char)
  | [], cs => some cs
  | _ :: _, [] => none
  | p :: ps, c :: cs => if p = c then dropPrefix ps cs else none

/-- The object `JSON.parse` builds from members in source order: each member
defines its key, so a repeated key keeps its first place and its last value. -/
def buildObject (ms : List (JSString × JSON)) : JSON :=
  .obj (ms.foldl (fun o m => setProp o m.1 m.2) [])

mutual
/-- One JSON value at the front of the text (no leading white space). -/
def parseValue : Nat → List Char → PResult JSON
  | 0, _ => .outOfFuel
  | _ + 1, [] => .syntaxError
  | n + 1, c :: r =>
    if c = '"' then
      match parseString r with
      | some (s, r1) => .ok (.str s) r1
      | none => .syntaxError
    else if c = '[' then
      match skipWs r with
      | [] => .syntaxError
      | c1 :: r1 =>
        if c1 = ']' then .ok (.arr []) r1
        else (parseValue n (c1 :: r1)).bind fun v r2 =>
          (parseElems n r2).bind fun vs r3 => .ok (.arr (v :: vs)) r3
    else if c = '{' then
      match skipWs r with
      | [] => .syntaxError
      | c1 :: r1 =>
        if c1 = '}' then .ok (.obj []) r1
        else (parseMember n (c1 :: r1)).bind fun m r2 =>
          (parseMembers n r2).bind fun ms r3 => .ok (buildObject (m :: ms)) r3
    else if c = 't' then
      match dropPrefix ['r', 'u', 'e'] r with
      | some r1 => .ok (.bool true) r1
      | none => .syntaxError
    else if c = 'f' then
      match dropPrefix ['a', 'l', 's', 'e'] r with
      | some r1 => .ok (.bool false) r1
      | none => .syntaxError
    else if c = 'n' then
      match dropPrefix ['u', 'l', 'l'] r with
      | some r1 => .ok .null r1
      | none => .syntaxError
    else
      match parseNumber (c :: r) with
      | some (lit, r1) => .ok (.num lit) r1
      | none => .syntaxError
/-- The rest of an array behind a value: `]`, or `,` and a value and the rest. -/
def parseElems : Nat → List Char → PResult (List JSON)
  | 0, _ => .outOfFuel
  | n + 1, cs =>
    match skipWs cs with
    | [] => .syntaxError
    | c :: r =>
      if c = ']' then .ok [] r
      else if c = ',' then
        (parseValue n (skipWs r)).bind fun v r1 =>
          (parseElems n r1).bind fun vs r2 => .ok (v :: vs) r2
      else .syntaxError
/-- One member: a string, a colon, a value. -/
def parseMember : Nat → List Char → PResult (JSString × JSON)
  | 0, _ => .outOfFuel
  | _ + 1, [] => .syntaxError
  | n + 1, c :: r =>
    if c = '"' then
      match parseString r with
      | none => .syntaxError
      | some (k, r1) =>
        match skipWs r1 with
        | [] => .syntaxError
        | c1 :: r2 =>
          if c1 = ':' then (parseValue n (skipWs r2)).bind fun v r3 => .ok (k, v) r3
          else .syntaxError
    else .syntaxError
/-- The rest of an object behind a member: `}`, or `,` and a member and the rest. -/
def parseMembers : Nat → List Char → PResult (List (JSString × JSON))
  | 0, _ => .outOfFuel
  | n + 1, cs =>
    match skipWs cs with
    | [] => .syntaxError
    | c :: r =>
      if c = '}' then .ok [] r
      else if c = ',' then
        (parseMember n (skipWs r)).bind fun m r1 =>
          (parseMembers n r1).bind fun ms r2 => .ok (m :: ms) r2
      else .syntaxError
end

/-- What a transaction function can throw. -/
inductive JSError where
  | error (message : String)
  | syntaxError
  | typeError
  | rangeError
  deriving DecidableEq, Repr

/-- `JSON.parse(text)`: one value between optional white space, nothing else.
Each call of the parser reads at least one character, so a budget of the
length of the text plus one is never exhausted. -/
def JSON.parse (text : String) : Except JSError JSON :=
  match parseValue (text.data.length + 1) (skipWs text.data) with
  | .ok v rest => if skipWs rest = [] then .ok v else .error .syntaxError
  | .syntaxError => .error .syntaxError
  | .outOfFuel => .error .syntaxError

/-! ## The call stack of `JSON.stringify`

`JSON.stringify` descends once for every array or object nested in its
argument, and throws a `RangeError` when the call stack is exhausted.  The
object literals the contract serialises are one level deep; a value read back
from the world state can nest without bound, and `GetAllAssets` serialises
every value of the world state, so its `JSON.stringify` is taken on a call
stack.  `TransferAsset` serialises the one record it read, which is flat on
every world state the contract itself has written; its `JSON.stringify` is
taken without the limit, and what is proved of a successful transfer is stated
for a transfer that succeeds. -/

mutual
/-- How many arrays and objects are nested in one another in a value. -/
def JSON.depth : JSON → Nat
  | .arr xs => depthList xs + 1
  | .obj ps => depthProps ps + 1
  | _ => 0
/-- The deepest element. -/
def depthList : List JSON → Nat
  | [] => 0
  | x :: xs => max x.depth (depthList xs)
/-- The deepest property value. -/
def depthProps : List (JSString × JSON) → Nat
  | [] => 0
  | (_, v) :: ps => max v.depth (depthProps ps)
end

/-- The call stack `JSON.stringify` runs on: how many levels of nesting it
can descend before the stack is exhausted.  The number depends on the
runtime; every runtime holds the three levels of a listing of flat records
(the array, an entry, its record). -/
structure CallStack where
  depth : Nat
  roomy : 3 ≤ depth

/-- The smallest call stack. -/
def CallStack.least : CallStack := ⟨3, Nat.le_refl 3⟩

/-- `JSON.stringify(value)` on a given call stack: the text, or a
`RangeError` when the value nests deeper than the stack holds. -/
def JSON.stringifyOn (fmt : List Char → List Char) (stack : CallStack) (v : JSON) :
    Except JSError String :=
  if v.depth ≤ stack.depth then .ok (JSON.stringify fmt v) else .error .rangeError

/-- Arrays nested in one another, `n + 1` of them. -/
def nest : Nat → JSON
  | 0 => .arr []
  | n + 1 => .arr [nest n]

/-! ## The contract

A transaction function takes the world state and returns what it resolves to
(or the error it throws) together with the world state it leaves. -/

/-- The error the contract throws for a missing lot. -/
def notExist (lotId : String) : JSError :=
  .error ("The asset " ++ lotId ++ " does not exist")

/-- The four fields of an asset literal. -/
structure Asset where
  LotID : String
  PropagationMethod : String
  PropagationDate : String
  PropagationQuantity : String

/-- The object an asset literal evaluates to. -/
def Asset.toObject (a : Asset) : List (JSString × JSON) :=
  [(jsString "LotID", .str (jsString a.LotID)),
   (jsString "PropagationMethod", .str (jsString a.PropagationMethod)),
   (jsString "PropagationDate", .str (jsString a.PropagationDate)),
   (jsString "PropagationQuantity", .str (jsString a.PropagationQuantity))]

/-- The `assets` array of `InitLedger`. -/
def seedAssets : List Asset :=
  [⟨"001", "Seed", "2021-03-05", "1 gram"⟩,
   ⟨"002", "Propagated Cuttings", "2025-04-05", "25 plants"⟩,
   ⟨"003", "Seed", "2050-06-09", "2 grams"⟩,
   ⟨"004", "Propagated Cuttings", "2100-01-10", "10 plants"⟩,
   ⟨"005", "Seed", "2121-09-05", "1.5 grams"⟩]

/-- One turn of the loop of `InitLedger`: tag the asset and put it under its `LotID`. -/
def initAsset (fmt : List Char → List Char) (s : Store) (a : Asset) : Store :=
  s.putState a.LotID
    (JSON.stringify fmt (.obj (setProp a.toObject (jsString "docType") (.str (jsString "asset")))))

/-- `InitLedger(ctx)`. -/
def InitLedger (fmt : List Char → List Char) (s : Store) : Except JSError Unit × Store :=
  (.ok (), seedAssets.foldl (initAsset fmt) s)

/-- `CreateAsset(ctx, lotId, propagationMethod, propagationDate, propagationQuantity)`:
the put is issued (not awaited) without any check of the key, and the serialised
asset is returned. -/
def CreateAsset (fmt : List Char → List Char) (s : Store)
    (lotId propagationMethod propagationDate propagationQuantity : String) :
    Except JSError String × Store :=
  let asset : Asset := ⟨lotId, propagationMethod, propagationDate, propagationQuantity⟩
  (.ok (JSON.stringify fmt (.obj asset.toObject)),
   s.putState lotId (JSON.stringify fmt (.obj asset.toObject)))

/-- `ReadAsset(ctx, lotId)`.  The stub hands back a buffer, never a falsy
value, so `!assetJSON || assetJSON.length === 0` is the test on its length. -/
def ReadAsset (s : Store) (lotId : String) : Except JSError String × Store :=
  let assetJSON := s.getState lotId
  if assetJSON.length = 0 then (.error (notExist lotId), s) else (.ok assetJSON, s)

/-- `AssetExists(ctx, lotId)`: `assetJSON && assetJSON.length > 0` on a buffer
is the boolean `assetJSON.length > 0`. -/
def AssetExists (s : Store) (lotId : String) : Except JSError Bool × Store :=
  let assetJSON := s.getState lotId
  (.ok (decide (assetJSON.length > 0)), s)

/-- `UpdateAsset(ctx, lotId, propagationMethod, propagationDate, propagationQuantity)`. -/
def UpdateAsset (fmt : List Char → List Char) (s : Store)
    (lotId propagationMethod propagationDate propagationQuantity : String) :
    Except JSError Unit × Store :=
  match AssetExists s lotId with
  | (.error e, s1) => (.error e, s1)
  | (.ok exists', s1) =>
    if !exists' then (.error (notExist lotId), s1)
    else
      let updatedAsset : Asset := ⟨lotId, propagationMethod, propagationDate, propagationQuantity⟩
      (.ok (), s1.putState lotId (JSON.stringify fmt (.obj updatedAsset.toObject)))

/-- `DeleteAsset(ctx, lotId)`. -/
def DeleteAsset (s : Store) (lotId : String) : Except JSError Unit × Store :=
  match AssetExists s lotId with
  | (.error e, s1) => (.error e, s1)
  | (.ok exists', s1) =>
    if !exists' then (.error (notExist lotId), s1)
    else (.ok (), s1.deleteState lotId)

/-- Strict-mode assignment `target.key = value` on a parsed value: an object
gets the property; an array gets it too, but outside its elements, where
`JSON.stringify` does not look; `null` and the primitives throw. -/
def assignProp (target : JSON) (k : JSString) (v : JSON) : Except JSError JSON :=
  match target with
  | .obj ps => .ok (.obj (setProp ps k v))
  | .arr xs => .ok (.arr xs)
  | _ => .error .typeError

/-- `TransferAsset(ctx, lotId, newOwner)`. -/
def TransferAsset (fmt : List Char → List Char) (s : Store) (lotId newOwner : String) :
    Except JSError Unit × Store :=
  match ReadAsset s lotId with
  | (.error e, s1) => (.error e, s1)
  | (.ok assetString, s1) =>
    match JSON.parse assetString with
    | .error e => (.error e, s1)
    | .ok asset =>
      match assignProp asset (jsString "Owner") (.str (jsString newOwner)) with
      | .error e => (.error e, s1)
      | .ok asset' => (.ok (), s1.putState lotId (JSON.stringify fmt asset'))

/-- The `Record` of one range-query result: the parsed value, or the text
itself when `JSON.parse` throws. -/
def recordOf (strValue : String) : JSON :=
  match JSON.parse strValue with
  | .ok record => record
  | .error _ => .str (jsString strValue)

/-- The loop of `GetAllAssets`: walk the iterator, pushing one
`{Key, Record}` object per result onto `allResults`. -/
def collectResults : List Entry → List JSON → List JSON
  | [], allResults => allResults
  | (key, value) :: rest, allResults =>
    collectResults rest
      (allResults ++ [.obj [(jsString "Key", .str (jsString key)),
                            (jsString "Record", recordOf value)]])

/-- `GetAllAssets(ctx)`: the loop, then `JSON.stringify(allResults)`, which is
outside the `try` of the loop, so its `RangeError` is thrown to the caller. -/
def GetAllAssets (fmt : List Char → List Char) (stack : CallStack) (s : Store) :
    Except JSError String × Store :=
  match JSON.stringifyOn fmt stack (.arr (collectResults s.getStateByRange [])) with
  | .ok text => (.ok text, s)
  | .error e => (.error e, s)

/-! ## The wording of the specification -/

/-- A Lot record as the data model of the specification has it: an object
whose `LotID`, `PropagationMethod`, `PropagationDate` and
`PropagationQuantity` are strings. -/
def isLotRecord : JSON → Bool
  | .obj ps =>
    [jsString "LotID", jsString "PropagationMethod", jsString "PropagationDate",
      jsString "PropagationQuantity"].all fun k =>
        match getProp k ps with
        | some (.str _) => true
        | _ => false
  | _ => false

/-- The `Record` the specification words: the decoded value when the stored
text decodes as a Lot record, the raw text otherwise. -/
def specRecordOf (strValue : String) : JSON :=
  match JSON.parse strValue with
  | .ok record => if isLotRecord record then record else .str (jsString strValue)
  | .error _ => .str (jsString strValue)

/-! ## The writes the contract issues

The mutating transaction functions once more, against a ledger that keeps the
list of the writes issued to the stub and that may reject a write.  A rejected
write rejects the promise the stub returned; what that does to the transaction
depends on whether the function awaits or returns the promise. -/

/-- A write the contract asks of the stub. -/
inductive Write where
  | put (key value : String)
  | delete (key : String)
  deriving DecidableEq

/-- How the ledger answers a write, given its world state: `none` commits
it, `some e` rejects the promise with `e`. -/
abbrev Answer := Store → Write → Option JSError

/-- The ledger that commits every write. -/
def accept : Answer := fun _ _ => none

/-- The ledger that rejects every write with `e`. -/
def reject (e : JSError) : Answer := fun _ _ => some e

/-- The ledger behind the stub: the world state and the writes issued so
far, oldest first. -/
structure Ledger where
  state : Store
  issued : List Write

namespace OnLedger

/-- Stub `putState`: the settled promise and the ledger after the call. -/
def putState (answer : Answer) (l : Ledger) (k v : String) : Except JSError Unit × Ledger :=
  match answer l.state (.put k v) with
  | none => (.ok (), ⟨l.state.putState k v, l.issued ++ [.put k v]⟩)
  | some e => (.error e, ⟨l.state, l.issued ++ [.put k v]⟩)

/-- Stub `deleteState`: the settled promise and the ledger after the call. -/
def deleteState (answer : Answer) (l : Ledger) (k : String) : Except JSError Unit × Ledger :=
  match answer l.state (.delete k) with
  | none => (.ok (), ⟨l.state.deleteState k, l.issued ++ [.delete k]⟩)
  | some e => (.error e, ⟨l.state, l.issued ++ [.delete k]⟩)

/-- The text `InitLedger` puts for one asset. -/
def seedText (fmt : List Char → List Char) (a : Asset) : String :=
  JSON.stringify fmt (.obj (setProp a.toObject (jsString "docType") (.str (jsString "asset"))))

/-- The loop of `InitLedger`: every put is awaited, so a rejected put throws
and ends the loop. -/
def initLoop (answer : Answer) (fmt : List Char → List Char) :
    List Asset → Ledger → Except JSError Unit × Ledger
  | [], l => (.ok (), l)
  | a :: rest, l =>
    match putState answer l a.LotID (seedText fmt a) with
    | (.ok _, l1) => initLoop answer fmt rest l1
    | (.error e, l1) => (.error e, l1)

/-- `InitLedger(ctx)`. -/
def InitLedger (answer : Answer) (fmt : List Char → List Char) (l : Ledger) :
    Except JSError Unit × Ledger :=
  initLoop answer fmt seedAssets l

/-- `CreateAsset(...)`: the promise of `putState` is neither awaited nor
returned, so its outcome is dropped and the serialised asset is returned. -/
def CreateAsset (answer : Answer) (fmt : List Char → List Char) (l : Ledger)
    (lotId propagationMethod propagationDate propagationQuantity : String) :
    Except JSError String × Ledger :=
  let asset : Asset := ⟨lotId, propagationMethod, propagationDate, propagationQuantity⟩
  (.ok (JSON.stringify fmt (.obj asset.toObject)),
   (putState answer l lotId (JSON.stringify fmt (.obj asset.toObject))).2)

/-- `UpdateAsset(...)`: the promise of `putState` is returned. -/
def UpdateAsset (answer : Answer) (fmt : List Char → List Char) (l : Ledger)
    (lotId propagationMethod propagationDate propagationQuantity : String) :
    Except JSError Unit × Ledger :=
  match AssetExists l.state lotId with
  | (.error e, _) => (.error e, l)
  | (.ok exists', _) =>
    if !exists' then (.error (notExist lotId), l)
    else
      let updatedAsset : Asset := ⟨lotId, propagationMethod, propagationDate, propagationQuantity⟩
      putState answer l lotId (JSON.stringify fmt (.obj updatedAsset.toObject))

/-- `DeleteAsset(ctx, lotId)`: the promise of `deleteState` is returned. -/
def DeleteAsset (answer : Answer) (l : Ledger) (lotId : String) : Except JSError Unit × Ledger :=
  match AssetExists l.state lotId with
  | (.error e, _) => (.error e, l)
  | (.ok exists', _) =>
    if !exists' then (.error (notExist lotId), l)
    else deleteState answer l lotId

/-- `TransferAsset(ctx, lotId, newOwner)`: the promise of `putState` is returned. -/
def TransferAsset (answer : Answer) (fmt : List Char → List Char) (l : Ledger)
    (lotId newOwner : String) : Except JSError Unit × Ledger :=
  match ReadAsset l.state lotId with
  | (.error e, _) => (.error e, l)
  | (.ok assetString, _) =>
    match JSON.parse assetString with
    | .error e => (.error e, l)
    | .ok asset =>
      match assignProp asset (jsString "Owner") (.str (jsString newOwner)) with
      | .error e => (.error e, l)
      | .ok asset' => putState answer l lotId (JSON.stringify fmt asset')

end OnLedger

/-! ## Sequences of transactions -/

/-- One invocation of a mutating transaction function. -/
inductive Op where
  | InitLedger
  | CreateAsset (lotId propagationMethod propagationDate propagationQuantity : String)
  | UpdateAsset (lotId propagationMethod propagationDate propagationQuantity : String)
  | DeleteAsset (lotId : String)
  | TransferAsset (lotId newOwner : String)

/-- The world state an invocation leaves. -/
def Op.run (fmt : List Char → List Char) (s : Store) : Op → Store
  | .InitLedger => (AssetTransfer.InitLedger fmt s).2
  | .CreateAsset lotId m d q => (AssetTransfer.CreateAsset fmt s lotId m d q).2
  | .UpdateAsset lotId m d q => (AssetTransfer.UpdateAsset fmt s lotId m d q).2
  | .DeleteAsset lotId => (AssetTransfer.DeleteAsset s lotId).2
  | .TransferAsset lotId newOwner => (AssetTransfer.TransferAsset fmt s lotId newOwner).2

/-- The world states the service can bring about from the empty one. -/
inductive Reachable (fmt : List Char → List Char) : Store → Prop where
  | empty : Reachable fmt Store.empty
  | step (s : Store) (op : Op) : Reachable fmt s → Reachable fmt (op.run fmt s)

/-- The stored value `v` is a record filed under its own `LotID`: it parses
to an object, holding no number, whose `LotID` is the key `k`. -/
def GoodEntry (k v : String) : Prop :=
  ∃ ps, JSON.parse v = .ok (.obj ps) ∧ numberFreeProps ps = true ∧
    getProp (jsString "LotID") ps = some (.str (jsString k))

/-- Every entry of the world state is a record filed under its own `LotID`. -/
def KeyedByLotID (s : Store) : Prop := ∀ k v, s.find k = some v → GoodEntry k v

/-- The key a write goes to. -/
def Write.key : Write → String
  | .put k _ => k
  | .delete k => k

/-- A put files a record under the key that is the record's `LotID`. -/
def Write.ownKey : Write → Prop
  | .put k v => GoodEntry k v
  | .delete _ => True

/-! ## Facts about the world state -/

theorem Store.ext {a b : Store} (h : a.entries = b.entries) : a = b := by
  cases a; cases b
  simp only at h
  subst h
  rfl

theorem findEntry_putEntries_same (k v : String) (l : List Entry) :
    findEntry k (putEntries k v l) = some v := by
  induction l with
  | nil => simp [putEntries, findEntry]
  | cons hd t ih =>
    obtain ⟨k', v'⟩ := hd
    unfold putEntries
    split
    · simp [findEntry]
    · split
      · simp [findEntry]
      · rename_i _ hne
        simp [findEntry, hne, ih]

theorem findEntry_putEntries_other (k v k₀ : String) (l : List Entry) (h : k₀ ≠ k) :
    findEntry k₀ (putEntries k v l) = findEntry k₀ l := by
  induction l with
  | nil => simp [putEntries, findEntry, h]
  | cons hd t ih =>
    obtain ⟨k', v'⟩ := hd
    unfold putEntries
    split
    · simp [findEntry, h]
    · split
      · rename_i _ heq
        subst heq
        simp [findEntry, h]
      · simp [findEntry, ih]

theorem delEntries_cons (k k' v' : String) (t : List Entry) :
    delEntries k ((k', v') :: t) =
      if k' = k then delEntries k t else (k', v') :: delEntries k t := by
  by_cases hk : k' = k <;> simp [delEntries, List.filter_cons, hk]

theorem findEntry_delEntries_same (k : String) (l : List Entry) :
    findEntry k (delEntries k l) = none := by
  induction l with
  | nil => rfl
  | cons hd t ih =>
    obtain ⟨k', v'⟩ := hd
    rw [delEntries_cons]
    by_cases hk : k' = k
    · rw [if_pos hk]; exact ih
    · have hk' : ¬ k = k' := fun e => hk e.symm
      rw [if_neg hk]
      simp [findEntry, hk', ih]

theorem findEntry_delEntries_other (k k₀ : String) (l : List Entry) (h : k₀ ≠ k) :
    findEntry k₀ (delEntries k l) = findEntry k₀ l := by
  induction l with
  | nil => rfl
  | cons hd t ih =>
    obtain ⟨k', v'⟩ := hd
    rw [delEntries_cons]
    by_cases hk : k' = k
    · have hk' : ¬ k₀ = k' := fun e => h (e.trans hk)
      rw [if_pos hk, ih]
      simp [findEntry, hk']
    · rw [if_neg hk]
      simp [findEntry, ih]

theorem putEntries_putEntries (k a b : String) (l : List Entry) :
    putEntries k b (putEntries k a l) = putEntries k b l := by
  induction l with
  | nil => simp [putEntries, keyLt_irrefl]
  | cons hd t ih =>
    obtain ⟨k', v'⟩ := hd
    by_cases h₁ : keyLt k k'
    · simp [putEntries, h₁, keyLt_irrefl]
    · by_cases h₂ : k = k'
      · subst h₂
        simp [putEntries, keyLt_irrefl]
      · simp [putEntries, h₁, h₂, ih]

theorem Store.find_putState_same (s : Store) (k v : String) :
    (s.putState k v).find k = some v :=
  findEntry_putEntries_same k v s.entries

theorem Store.find_putState_other (s : Store) (k v k₀ : String) (h : k₀ ≠ k) :
    (s.putState k v).find k₀ = s.find k₀ :=
  findEntry_putEntries_other k v k₀ s.entries h

theorem Store.find_deleteState_same (s : Store) (k : String) :
    (s.deleteState k).find k = none :=
  findEntry_delEntries_same k s.entries

theorem Store.find_deleteState_other (s : Store) (k k₀ : String) (h : k₀ ≠ k) :
    (s.deleteState k).find k₀ = s.find k₀ :=
  findEntry_delEntries_other k k₀ s.entries h

theorem Store.putState_putState (s : Store) (k a b : String) :
    (s.putState k a).putState k b = s.putState k b :=
  Store.ext (putEntries_putEntries k a b s.entries)

theorem Store.getState_putState_same (s : Store) (k v : String) :
    (s.putState k v).getState k = v := by
  simp [Store.getState, Store.find_putState_same]

theorem string_length_eq_zero (v : String) : v.length = 0 ↔ v = "" := by
  constructor
  · intro h
    apply String.ext
    have : v.data.length = 0 := h
    exact List.length_eq_zero.1 this
  · intro h
    subst h
    rfl

theorem getState_length_eq_zero (s : Store) (k : String) :
    (s.getState k).length = 0 ↔ (s.find k = none ∨ s.find k = some "") := by
  unfold Store.getState
  cases h : s.find k with
  | none => simp
  | some v => simp [string_length_eq_zero]

/-! ## Facts about `JSON.stringify` and `JSON.parse` -/

theorem toNat_ofNat_valid (n : Nat) (h : n.isValidChar) : (Char.ofNat n).toNat = n := by
  unfold Char.ofNat
  rw [dif_pos h]
  rfl

theorem hexVal_hexDigit : ∀ d, d < 16 → hexVal (hexDigit d) = some d := by decide

theorem mkUnit_val (u : CodeUnit) : mkUnit u.val = u := by
  apply Fin.ext
  show u.val % 65536 = u.val
  exact Nat.mod_eq_of_lt u.isLt

theorem mkUnit_of_lt (n : Nat) (u : CodeUnit) (h : n = u.val) : mkUnit n = u := by
  subst h; exact mkUnit_val u

theorem parseString_unicodeEscape (u : CodeUnit) (tl : List Char) :
    parseString (unicodeEscape u.val ++ tl) =
      (parseString tl).map (fun p => (u :: p.1, p.2)) := by
  have h1 := hexVal_hexDigit (u.val / 4096 % 16) (Nat.mod_lt _ (by decide))
  have h2 := hexVal_hexDigit (u.val / 256 % 16) (Nat.mod_lt _ (by decide))
  have h3 := hexVal_hexDigit (u.val / 16 % 16) (Nat.mod_lt _ (by decide))
  have h4 := hexVal_hexDigit (u.val % 16) (Nat.mod_lt _ (by decide))
  have hu : mkUnit (u.val / 4096 % 16 * 4096 + u.val / 256 % 16 * 256 + u.val / 16 % 16 * 16
      + u.val % 16) = u := by
    apply mkUnit_of_lt
    have := u.isLt
    omega
  simp only [unicodeEscape, hex4, List.cons_append, List.nil_append]
  rw [parseString]
  simp only [show ('\\' = '"') = False from by decide, if_false, if_true]
  simp only [h1, h2, h3, h4, hu]

theorem parseString_escape (e : Char) (u : CodeUnit) (tl : List Char)
    (h : escapeUnit e = some u) (he : e ≠ 'u') :
    parseString ('\\' :: e :: tl) = (parseString tl).map (fun p => (u :: p.1, p.2)) := by
  rw [parseString.eq_def]
  simp only [show ('\\' = '"') = False from by decide, if_false, if_true, he, h]

theorem parseString_plain (c : Char) (tl : List Char)
    (h1 : c ≠ '"') (h2 : c ≠ '\\') (h3 : ¬ c.toNat < 32) :
    parseString (c :: tl) = (parseString tl).map (fun p => (charUnits c ++ p.1, p.2)) := by
  rw [parseString.eq_def]
  simp only [h1, h2, h3, if_false]

theorem parseString_quote (tl : List Char) : parseString ('"' :: tl) = some ([], tl) := by
  rw [parseString.eq_def]
  simp only [if_true]

theorem char_ne_of_toNat_ne {c : Char} {n : Nat} (d : Char) (hc : c.toNat = n) (h : n ≠ d.toNat) :
    c ≠ d := by
  intro e
  subst e
  exact h hc.symm

theorem parseString_quoteCodePoint (u : CodeUnit) (tl : List Char)
    (hs : ¬ (0xD800 ≤ u.val ∧ u.val < 0xE000)) :
    parseString (quoteCodePoint u.val ++ tl) =
      (parseString tl).map (fun p => (u :: p.1, p.2)) := by
  unfold quoteCodePoint
  split
  · rename_i h
    exact parseString_escape 'b' u tl (by rw [← mkUnit_val u, h]; rfl) (by decide)
  split
  · rename_i h
    exact parseString_escape 't' u tl (by rw [← mkUnit_val u, h]; rfl) (by decide)
  split
  · rename_i h
    exact parseString_escape 'n' u tl (by rw [← mkUnit_val u, h]; rfl) (by decide)
  split
  · rename_i h
    exact parseString_escape 'f' u tl (by rw [← mkUnit_val u, h]; rfl) (by decide)
  split
  · rename_i h
    exact parseString_escape 'r' u tl (by rw [← mkUnit_val u, h]; rfl) (by decide)
  split
  · rename_i h
    exact parseString_escape '"' u tl (by rw [← mkUnit_val u, h]; rfl) (by decide)
  split
  · rename_i h
    exact parseString_escape '\\' u tl (by rw [← mkUnit_val u, h]; rfl) (by decide)
  split
  · exact parseString_unicodeEscape u tl
  · rename_i h34 h92 h32
    have hlt := u.isLt
    have hv : (u.val).isValidChar := by
      unfold Nat.isValidChar
      omega
    have hn := toNat_ofNat_valid u.val hv
    have hcu : charUnits (Char.ofNat u.val) = [u] := by
      unfold charUnits
      rw [hn, if_pos (by omega), mkUnit_val]
    have := parseString_plain (Char.ofNat u.val) tl
      (char_ne_of_toNat_ne '"' hn h34) (char_ne_of_toNat_ne '\\' hn h92) (by rw [hn]; exact h32)
    rw [hcu] at this
    exact this

theorem parseString_quoteUnit (u : CodeUnit) (tl : List Char) :
    parseString (quoteUnit u ++ tl) = (parseString tl).map (fun p => (u :: p.1, p.2)) := by
  unfold quoteUnit
  split
  · exact parseString_unicodeEscape u tl
  · rename_i h
    apply parseString_quoteCodePoint
    intro hs
    apply h
    simp only [isHigh, isLow, Bool.or_eq_true, Bool.and_eq_true, decide_eq_true_eq]
    omega

theorem parseString_pair (u l : CodeUnit) (tl : List Char)
    (h : (isHigh u && isLow l) = true) :
    parseString (Char.ofNat (0x10000 + (u.val - 0xD800) * 0x400 + (l.val - 0xDC00)) :: tl) =
      (parseString tl).map (fun p => (u :: l :: p.1, p.2)) := by
  simp only [isHigh, isLow, Bool.and_eq_true, decide_eq_true_eq] at h
  have hv : (0x10000 + (u.val - 0xD800) * 0x400 + (l.val - 0xDC00)).isValidChar := by
    unfold Nat.isValidChar
    omega
  have hn := toNat_ofNat_valid _ hv
  have hcu : charUnits (Char.ofNat (0x10000 + (u.val - 0xD800) * 0x400 + (l.val - 0xDC00)))
      = [u, l] := by
    unfold charUnits
    have e1 : mkUnit (0xD800 + (0x10000 + (u.val - 0xD800) * 0x400 + (l.val - 0xDC00)
        - 0x10000) / 0x400) = u := mkUnit_of_lt _ u (by omega)
    have e2 : mkUnit (0xDC00 + (0x10000 + (u.val - 0xD800) * 0x400 + (l.val - 0xDC00)
        - 0x10000) % 0x400) = l := mkUnit_of_lt _ l (by omega)
    rw [hn, if_neg (by omega), e1, e2]
  have := parseString_plain _ tl
    (char_ne_of_toNat_ne '"' hn (by show _ ≠ 34; omega))
    (char_ne_of_toNat_ne '\\' hn (by show _ ≠ 92; omega))
    (by rw [hn]; omega)
  rw [hcu] at this
  exact this

theorem parseString_quoteUnits (s : JSString) (tl : List Char) :
    parseString (quoteUnits s ++ '"' :: tl) = some (s, tl) := by
  induction s using quoteUnits.induct with
  | case1 => exact parseString_quote tl
  | case2 u =>
    rw [quoteUnits, parseString_quoteUnit, parseString_quote]
    rfl
  | case3 u l rest h ih =>
    rw [quoteUnits, if_pos h, List.cons_append, parseString_pair u l _ h, ih]
    rfl
  | case4 u l rest h ih =>
    rw [quoteUnits, if_neg h, List.append_assoc, parseString_quoteUnit, ih]
    rfl

theorem parseString_quote_append (s : JSString) (tl : List Char) :
    parseString (quoteUnits s ++ ['"'] ++ tl) = some (s, tl) := by
  rw [List.append_assoc]
  exact parseString_quoteUnits s tl

theorem hasProp_eq_false {k : JSString} {ps : List (JSString × JSON)}
    (h : k ∉ ps.map Prod.fst) : hasProp k ps = false := by
  induction ps with
  | nil => rfl
  | cons hd t ih =>
    obtain ⟨k', v'⟩ := hd
    simp only [List.map_cons, List.mem_cons, not_or] at h
    simp [hasProp, h.1, ih h.2]

theorem hasProp_eq_true {k : JSString} {ps : List (JSString × JSON)}
    (h : k ∈ ps.map Prod.fst) : hasProp k ps = true := by
  induction ps with
  | nil => simp at h
  | cons hd t ih =>
    obtain ⟨k', v'⟩ := hd
    simp only [List.map_cons, List.mem_cons] at h
    rcases h with h | h
    · simp [hasProp, h]
    · simp [hasProp, ih h]

theorem hasProp_iff {k : JSString} {ps : List (JSString × JSON)} :
    hasProp k ps = true ↔ k ∈ ps.map Prod.fst := by
  constructor
  · intro h
    by_contra hn
    rw [hasProp_eq_false hn] at h
    exact absurd h (by decide)
  · exact hasProp_eq_true

theorem replaceProp_keys (k : JSString) (v : JSON) (ps : List (JSString × JSON)) :
    (replaceProp k v ps).map Prod.fst = ps.map Prod.fst := by
  induction ps with
  | nil => rfl
  | cons hd t ih =>
    obtain ⟨k', v'⟩ := hd
    unfold replaceProp
    split
    · rfl
    · simp [ih]

theorem insertIndexProp_end (i : Nat) (k : JSString) (v : JSON) (ps : List (JSString × JSON))
    (h : ∀ a ∈ ps.map Prod.fst, ∃ j, arrayIndex a = some j ∧ j ≤ i) :
    insertIndexProp i k v ps = ps ++ [(k, v)] := by
  induction ps with
  | nil => rfl
  | cons hd t ih =>
    obtain ⟨k', v'⟩ := hd
    obtain ⟨j, hj, hji⟩ := h k' (by simp)
    have ht := ih (fun a ha => h a (by simp only [List.map_cons, List.mem_cons]; exact Or.inr ha))
    simp only [insertIndexProp, hj, if_neg (Nat.not_lt.2 hji), ht, List.cons_append]

theorem keyBefore_index {a k : JSString} {i : Nat} (hk : arrayIndex k = some i)
    (h : keyBefore a k) : ∃ j, arrayIndex a = some j ∧ j ≤ i := by
  unfold keyBefore at h
  rw [hk] at h
  cases ha : arrayIndex a with
  | none => rw [ha] at h; exact absurd h id
  | some j => rw [ha] at h; exact ⟨j, rfl, h⟩

theorem keyBefore_of_not_index (a : JSString) {k : JSString} (hk : arrayIndex k = none) :
    keyBefore a k := by
  unfold keyBefore
  rw [hk]
  cases arrayIndex a <;> trivial

theorem setProp_new_last (acc : List (JSString × JSON)) (k : JSString) (v : JSON)
    (h : CanonKeys ((acc ++ [(k, v)]).map Prod.fst)) :
    setProp acc k v = acc ++ [(k, v)] := by
  obtain ⟨hnd, hpw⟩ := h
  rw [List.map_append] at hnd hpw
  have hk : k ∉ acc.map Prod.fst := by
    intro hm
    exact (List.nodup_append.1 hnd).2.2 hm (by simp)
  have hbefore : ∀ a ∈ acc.map Prod.fst, keyBefore a k := fun a ha =>
    (List.pairwise_append.1 hpw).2.2 a ha k (by simp)
  unfold setProp
  rw [hasProp_eq_false hk]
  simp only [Bool.false_eq_true, if_false]
  cases hi : arrayIndex k with
  | none => rfl
  | some i => exact insertIndexProp_end i k v acc (fun a ha => keyBefore_index hi (hbefore a ha))

theorem canonKeys_prefix {l₁ l₂ : List JSString} (h : CanonKeys (l₁ ++ l₂)) : CanonKeys l₁ :=
  ⟨(List.nodup_append.1 h.1).1, (List.pairwise_append.1 h.2).1⟩

theorem foldl_setProp_canon (ps acc : List (JSString × JSON))
    (h : CanonKeys ((acc ++ ps).map Prod.fst)) :
    ps.foldl (fun o m => setProp o m.1 m.2) acc = acc ++ ps := by
  induction ps generalizing acc with
  | nil => simp
  | cons hd t ih =>
    obtain ⟨k, v⟩ := hd
    have h' : CanonKeys (((acc ++ [(k, v)]) ++ t).map Prod.fst) := by
      rw [List.append_assoc]; exact h
    have hpre : CanonKeys ((acc ++ [(k, v)]).map Prod.fst) := by
      rw [List.map_append] at h'
      exact canonKeys_prefix h'
    rw [List.foldl_cons]
    show List.foldl (fun o m => setProp o m.1 m.2) (setProp acc k v) t = _
    rw [setProp_new_last acc k v hpre, ih _ h', List.append_assoc]
    rfl

theorem buildObject_canon (ps : List (JSString × JSON)) (h : CanonKeys (ps.map Prod.fst)) :
    buildObject ps = .obj ps := by
  unfold buildObject
  rw [foldl_setProp_canon ps [] (by simpa using h)]
  rfl

theorem insertIndexProp_keys_mem (i : Nat) (k : JSString) (v : JSON)
    (ps : List (JSString × JSON)) (a : JSString) :
    a ∈ (insertIndexProp i k v ps).map Prod.fst ↔ a = k ∨ a ∈ ps.map Prod.fst := by
  induction ps with
  | nil => simp [insertIndexProp]
  | cons hd t ih =>
    obtain ⟨k', v'⟩ := hd
    unfold insertIndexProp
    split
    · split
      · simp
      · simp only [List.map_cons, List.mem_cons, ih]
        tauto
    · simp

theorem keyBefore_trans_index {a b : JSString} {i j : Nat} (ha : arrayIndex a = some i)
    (hb : arrayIndex b = some j) (h : i ≤ j) : keyBefore a b := by
  unfold keyBefore
  rw [ha, hb]
  exact h

theorem insertIndexProp_canon (i : Nat) (k : JSString) (v : JSON) (ps : List (JSString × JSON))
    (hi : arrayIndex k = some i) (hk : k ∉ ps.map Prod.fst) (h : CanonKeys (ps.map Prod.fst)) :
    CanonKeys ((insertIndexProp i k v ps).map Prod.fst) := by
  induction ps with
  | nil =>
    simp [insertIndexProp, CanonKeys]
  | cons hd t ih =>
    obtain ⟨k', v'⟩ := hd
    obtain ⟨hnd, hpw⟩ := h
    simp only [List.map_cons, List.mem_cons, not_or] at hk
    simp only [List.map_cons] at hnd hpw
    have hnd' := List.nodup_cons.1 hnd
    have hpw' := List.pairwise_cons.1 hpw
    have iht := ih hk.2 ⟨hnd'.2, hpw'.2⟩
    unfold insertIndexProp
    split
    · rename_i j hj
      split
      · rename_i hlt
        refine ⟨?_, ?_⟩
        · simp only [List.map_cons]
          refine List.nodup_cons.2 ⟨?_, hnd⟩
          simp only [List.mem_cons, not_or]
          exact hk
        · simp only [List.map_cons]
          refine List.pairwise_cons.2 ⟨?_, hpw⟩
          intro a ha
          rcases List.mem_cons.1 ha with ha | ha
          · rw [ha]; exact keyBefore_trans_index hi hj (Nat.le_of_lt hlt)
          · have hka := hpw'.1 a ha
            unfold keyBefore at hka ⊢
            rw [hj] at hka
            rw [hi]
            cases haa : arrayIndex a with
            | none => trivial
            | some m =>
              rw [haa] at hka
              show i ≤ m
              have : j ≤ m := hka
              omega
      · rename_i hnlt
        refine ⟨?_, ?_⟩
        · simp only [List.map_cons]
          refine List.nodup_cons.2 ⟨?_, iht.1⟩
          intro hm
          rcases (insertIndexProp_keys_mem i k v t k').1 hm with hm | hm
          · exact hk.1 hm.symm
          · exact hnd'.1 hm
        · simp only [List.map_cons]
          refine List.pairwise_cons.2 ⟨?_, iht.2⟩
          intro a ha
          rcases (insertIndexProp_keys_mem i k v t a).1 ha with ha | ha
          · rw [ha]; exact keyBefore_trans_index hj hi (Nat.not_lt.1 hnlt)
          · exact hpw'.1 a ha
    · rename_i hj
      refine ⟨?_, ?_⟩
      · simp only [List.map_cons]
        refine List.nodup_cons.2 ⟨?_, hnd⟩
        simp only [List.mem_cons, not_or]
        exact hk
      · simp only [List.map_cons]
        refine List.pairwise_cons.2 ⟨?_, hpw⟩
        intro a ha
        rcases List.mem_cons.1 ha with ha | ha
        · rw [ha]
          unfold keyBefore
          rw [hi, hj]
          trivial
        · have hka := hpw'.1 a ha
          unfold keyBefore at hka ⊢
          rw [hj] at hka
          rw [hi]
          cases haa : arrayIndex a with
          | none => trivial
          | some m => rw [haa] at hka; exact absurd hka id

theorem setProp_canonKeys (ps : List (JSString × JSON)) (k : JSString) (v : JSON)
    (h : CanonKeys (ps.map Prod.fst)) : CanonKeys ((setProp ps k v).map Prod.fst) := by
  unfold setProp
  split
  · rw [replaceProp_keys]; exact h
  · rename_i hh
    have hk : k ∉ ps.map Prod.fst := fun hm => hh (hasProp_eq_true hm)
    split
    · rename_i i hi
      exact insertIndexProp_canon i k v ps hi hk h
    · rename_i hi
      rw [List.map_append]
      refine ⟨?_, ?_⟩
      · refine List.nodup_append.2 ⟨h.1, by simp, ?_⟩
        intro a ha hb
        simp only [List.map_cons, List.map_nil, List.mem_singleton] at hb
        exact hk (hb ▸ ha)
      · refine List.pairwise_append.2 ⟨h.2, by simp, ?_⟩
        intro a _ b hb
        simp only [List.map_cons, List.map_nil, List.mem_singleton] at hb
        rw [hb]
        exact keyBefore_of_not_index a hi

theorem canonicalProps_iff (ps : List (JSString × JSON)) :
    canonicalProps ps ↔ ∀ p ∈ ps, p.2.canonical := by
  induction ps with
  | nil => simp [canonicalProps]
  | cons hd t ih =>
    obtain ⟨k, v⟩ := hd
    simp [canonicalProps, ih]

theorem canonicalList_iff (xs : List JSON) :
    canonicalList xs ↔ ∀ x ∈ xs, x.canonical := by
  induction xs with
  | nil => simp [canonicalList]
  | cons hd t ih => simp [canonicalList, ih]

theorem numberFreeProps_iff (ps : List (JSString × JSON)) :
    numberFreeProps ps = true ↔ ∀ p ∈ ps, p.2.numberFree = true := by
  induction ps with
  | nil => simp [numberFreeProps]
  | cons hd t ih =>
    obtain ⟨k, v⟩ := hd
    simp [numberFreeProps, ih]

theorem mem_replaceProp {k : JSString} {v : JSON} {ps : List (JSString × JSON)}
    {p : JSString × JSON} (h : p ∈ replaceProp k v ps) : p = (k, v) ∨ p ∈ ps := by
  induction ps with
  | nil => simp [replaceProp] at h
  | cons hd t ih =>
    obtain ⟨k', v'⟩ := hd
    unfold replaceProp at h
    split at h
    · rename_i hk
      rcases List.mem_cons.1 h with h | h
      · exact Or.inl (by rw [h, hk])
      · exact Or.inr (List.mem_cons_of_mem _ h)
    · rcases List.mem_cons.1 h with h | h
      · exact Or.inr (by rw [h]; exact List.mem_cons_self _ _)
      · rcases ih h with h | h
        · exact Or.inl h
        · exact Or.inr (List.mem_cons_of_mem _ h)

theorem mem_insertIndexProp {i : Nat} {k : JSString} {v : JSON} {ps : List (JSString × JSON)}
    {p : JSString × JSON} (h : p ∈ insertIndexProp i k v ps) : p = (k, v) ∨ p ∈ ps := by
  induction ps with
  | nil =>
    simp only [insertIndexProp, List.mem_singleton] at h
    exact Or.inl h
  | cons hd t ih =>
    obtain ⟨k', v'⟩ := hd
    unfold insertIndexProp at h
    split at h
    · split at h
      · exact List.mem_cons.1 h
      · rcases List.mem_cons.1 h with h | h
        · exact Or.inr (by rw [h]; exact List.mem_cons_self _ _)
        · rcases ih h with h | h
          · exact Or.inl h
          · exact Or.inr (List.mem_cons_of_mem _ h)
    · exact List.mem_cons.1 h

theorem mem_setProp {k : JSString} {v : JSON} {ps : List (JSString × JSON)}
    {p : JSString × JSON} (h : p ∈ setProp ps k v) : p = (k, v) ∨ p ∈ ps := by
  unfold setProp at h
  split at h
  · exact mem_replaceProp h
  · split at h
    · exact mem_insertIndexProp h
    · rcases List.mem_append.1 h with h | h
      · exact Or.inr h
      · exact Or.inl (List.mem_singleton.1 h)

theorem setProp_canonicalProps (ps : List (JSString × JSON)) (k : JSString) (v : JSON)
    (h : canonicalProps ps) (hv : v.canonical) : canonicalProps (setProp ps k v) := by
  rw [canonicalProps_iff] at h ⊢
  intro p hp
  rcases mem_setProp hp with hp | hp
  · rw [hp]; exact hv
  · exact h p hp

theorem setProp_numberFreeProps (ps : List (JSString × JSON)) (k : JSString) (v : JSON)
    (h : numberFreeProps ps = true) (hv : v.numberFree = true) :
    numberFreeProps (setProp ps k v) = true := by
  rw [numberFreeProps_iff] at h ⊢
  intro p hp
  rcases mem_setProp hp with hp | hp
  · rw [hp]; exact hv
  · exact h p hp

theorem foldl_setProp_canonical (ms acc : List (JSString × JSON))
    (hk : CanonKeys (acc.map Prod.fst)) (hc : canonicalProps acc)
    (hm : canonicalProps ms) :
    JSON.canonical (.obj (ms.foldl (fun o m => setProp o m.1 m.2) acc)) := by
  induction ms generalizing acc with
  | nil => exact ⟨hk, hc⟩
  | cons hd t ih =>
    obtain ⟨k, v⟩ := hd
    exact ih (setProp acc k v) (setProp_canonKeys acc k v hk)
      (setProp_canonicalProps acc k v hc hm.1) hm.2

theorem buildObject_canonical (ms : List (JSString × JSON)) (hm : canonicalProps ms) :
    (buildObject ms).canonical :=
  foldl_setProp_canonical ms [] ⟨List.nodup_nil, List.Pairwise.nil⟩ trivial hm

theorem bind_eq_ok {α β : Type} {x : PResult α} {f : α → List Char → PResult β}
    {v : β} {r : List Char} (h : x.bind f = .ok v r) :
    ∃ a r1, x = .ok a r1 ∧ f a r1 = .ok v r := by
  cases x with
  | ok a r1 => exact ⟨a, r1, rfl, h⟩
  | syntaxError => simp [PResult.bind] at h
  | outOfFuel => simp [PResult.bind] at h

theorem parse_canonical : ∀ n : Nat,
    (∀ cs v r, parseValue n cs = .ok v r → v.canonical) ∧
    (∀ cs vs r, parseElems n cs = .ok vs r → canonicalList vs) ∧
    (∀ cs m r, parseMember n cs = .ok m r → m.2.canonical) ∧
    (∀ cs ms r, parseMembers n cs = .ok ms r → canonicalProps ms) := by
  intro n
  induction n with
  | zero =>
    refine ⟨?_, ?_, ?_, ?_⟩ <;> intro cs v r h
    · simp [parseValue] at h
    · simp [parseElems] at h
    · simp [parseMember] at h
    · simp [parseMembers] at h
  | succ n ih =>
    obtain ⟨ihv, ihe, ihm, ihms⟩ := ih
    refine ⟨?_, ?_, ?_, ?_⟩
    · intro cs v r h
      cases cs with
      | nil => simp [parseValue] at h
      | cons c cs =>
        rw [parseValue] at h
        split at h
        · split at h
          · cases h; trivial
          · cases h
        split at h
        · split at h
          · cases h
          · split at h
            · cases h; trivial
            · obtain ⟨a, r1, h1, h2⟩ := bind_eq_ok h
              obtain ⟨vs, r2, h3, h4⟩ := bind_eq_ok h2
              cases h4
              exact ⟨ihv _ _ _ h1, ihe _ _ _ h3⟩
        split at h
        · split at h
          · cases h
          · split at h
            · cases h; exact ⟨⟨List.nodup_nil, List.Pairwise.nil⟩, trivial⟩
            · obtain ⟨m, r1, h1, h2⟩ := bind_eq_ok h
              obtain ⟨ms, r2, h3, h4⟩ := bind_eq_ok h2
              cases h4
              exact buildObject_canonical (m :: ms) ⟨ihm _ _ _ h1, ihms _ _ _ h3⟩
        split at h
        · split at h
          · cases h; trivial
          · cases h
        split at h
        · split at h
          · cases h; trivial
          · cases h
        split at h
        · split at h
          · cases h; trivial
          · cases h
        · split at h
          · cases h; trivial
          · cases h
    · intro cs vs r h
      rw [parseElems] at h
      split at h
      · cases h
      · split at h
        · cases h; trivial
        · split at h
          · obtain ⟨a, r1, h1, h2⟩ := bind_eq_ok h
            obtain ⟨vs, r2, h3, h4⟩ := bind_eq_ok h2
            cases h4
            exact ⟨ihv _ _ _ h1, ihe _ _ _ h3⟩
          · cases h
    · intro cs m r h
      cases cs with
      | nil => simp [parseMember] at h
      | cons c cs =>
        rw [parseMember] at h
        split at h
        · split at h
          · cases h
          · split at h
            · cases h
            · split at h
              · obtain ⟨a, r1, h1, h2⟩ := bind_eq_ok h
                cases h2
                exact ihv _ _ _ h1
              · cases h
        · cases h
    · intro cs ms r h
      rw [parseMembers] at h
      split at h
      · cases h
      · split at h
        · cases h; trivial
        · split at h
          · obtain ⟨a, r1, h1, h2⟩ := bind_eq_ok h
            obtain ⟨vs, r2, h3, h4⟩ := bind_eq_ok h2
            cases h4
            exact ⟨ihm _ _ _ h1, ihms _ _ _ h3⟩
          · cases h

theorem stringifyValue_head (fmt : List Char → List Char) (v : JSON) (h : v.numberFree = true) :
    ∃ c tl, stringifyValue fmt v = c :: tl ∧ isWs c = false ∧ c ≠ ']' := by
  cases v with
  | null => exact ⟨_, _, rfl, by decide, by decide⟩
  | bool b => cases b <;> exact ⟨_, _, rfl, by decide, by decide⟩
  | num lit => simp [JSON.numberFree] at h
  | str s => exact ⟨_, _, rfl, by decide, by decide⟩
  | arr xs =>
    cases xs with
    | nil => exact ⟨_, _, rfl, by decide, by decide⟩
    | cons x xs => exact ⟨_, _, by rw [stringifyValue], by decide, by decide⟩
  | obj ps =>
    cases ps with
    | nil => exact ⟨_, _, rfl, by decide, by decide⟩
    | cons p ps =>
      obtain ⟨k, v⟩ := p
      exact ⟨_, _, by rw [stringifyValue], by decide, by decide⟩

theorem skipWs_cons {c : Char} (tl : List Char) (h : isWs c = false) :
    skipWs (c :: tl) = c :: tl := by
  simp [skipWs, h]

theorem parseValue_str (n : Nat) (s : JSString) (rest : List Char) :
    parseValue (n + 1) (quote s ++ rest) = .ok (.str s) rest := by
  unfold quote
  rw [List.cons_append, List.append_assoc, parseValue]
  simp only [if_true]
  rw [List.singleton_append, parseString_quoteUnits]

theorem parseValue_arr_nil (n : Nat) (rest : List Char) :
    parseValue (n + 1) ('[' :: ']' :: rest) = .ok (.arr []) rest := by
  rw [parseValue]
  simp [skipWs, isWs]

theorem parseValue_arr_cons (n : Nat) (c1 : Char) (r1 : List Char)
    (hw : isWs c1 = false) (hc : c1 ≠ ']') :
    parseValue (n + 1) ('[' :: c1 :: r1) =
      (parseValue n (c1 :: r1)).bind fun v r2 =>
        (parseElems n r2).bind fun vs r3 => .ok (.arr (v :: vs)) r3 := by
  rw [parseValue]
  simp only [show ('[' = '"') = False from by decide, if_false, if_true, skipWs_cons _ hw, hc]

theorem parseValue_obj_nil (n : Nat) (rest : List Char) :
    parseValue (n + 1) ('{' :: '}' :: rest) = .ok (.obj []) rest := by
  rw [parseValue]
  simp [skipWs, isWs]

theorem parseValue_obj_cons (n : Nat) (r1 : List Char) :
    parseValue (n + 1) ('{' :: '"' :: r1) =
      (parseMember n ('"' :: r1)).bind fun m r2 =>
        (parseMembers n r2).bind fun ms r3 => .ok (buildObject (m :: ms)) r3 := by
  rw [parseValue]
  simp only [show ('{' = '"') = False from by decide, show ('{' = '[') = False from by decide,
    if_false, if_true, skipWs_cons _ (show isWs '"' = false from by decide),
    show ('"' = '}') = False from by decide]

theorem parseMember_quote (n : Nat) (k : JSString) (c : Char) (tl : List Char)
    (hw : isWs c = false) :
    parseMember (n + 1) (quote k ++ ':' :: c :: tl) =
      (parseValue n (c :: tl)).bind fun v r3 => .ok (k, v) r3 := by
  unfold quote
  rw [List.cons_append, List.append_assoc, parseMember]
  simp only [if_true]
  rw [List.singleton_append, parseString_quoteUnits]
  simp only [skipWs_cons _ (show isWs ':' = false from by decide), if_true, skipWs_cons _ hw]

theorem parseElems_close (n : Nat) (rest : List Char) :
    parseElems (n + 1) (']' :: rest) = .ok [] rest := by
  rw [parseElems]
  simp [skipWs, isWs]

theorem parseElems_comma (n : Nat) (c : Char) (tl : List Char) (hw : isWs c = false) :
    parseElems (n + 1) (',' :: c :: tl) =
      (parseValue n (c :: tl)).bind fun v r1 =>
        (parseElems n r1).bind fun vs r2 => .ok (v :: vs) r2 := by
  rw [parseElems]
  simp only [skipWs_cons _ (show isWs ',' = false from by decide), skipWs_cons _ hw,
    show (',' = ']') = False from by decide, if_false, if_true]

theorem parseMembers_close (n : Nat) (rest : List Char) :
    parseMembers (n + 1) ('}' :: rest) = .ok [] rest := by
  rw [parseMembers]
  simp [skipWs, isWs]

theorem parseMembers_comma (n : Nat) (tl : List Char) :
    parseMembers (n + 1) (',' :: '"' :: tl) =
      (parseMember n ('"' :: tl)).bind fun m r1 =>
        (parseMembers n r1).bind fun ms r2 => .ok (m :: ms) r2 := by
  rw [parseMembers]
  simp only [skipWs_cons _ (show isWs ',' = false from by decide),
    skipWs_cons _ (show isWs '"' = false from by decide),
    show (',' = '}') = False from by decide, if_false, if_true]

theorem parseValue_null (n : Nat) (rest : List Char) :
    parseValue (n + 1) ('n' :: 'u' :: 'l' :: 'l' :: rest) = .ok .null rest := by
  rw [parseValue]
  simp [dropPrefix]

theorem parseValue_true (n : Nat) (rest : List Char) :
    parseValue (n + 1) ('t' :: 'r' :: 'u' :: 'e' :: rest) = .ok (.bool true) rest := by
  rw [parseValue]
  simp [dropPrefix]

theorem parseValue_false (n : Nat) (rest : List Char) :
    parseValue (n + 1) ('f' :: 'a' :: 'l' :: 's' :: 'e' :: rest) = .ok (.bool false) rest := by
  rw [parseValue]
  simp [dropPrefix]

theorem parseMember_stringify (fmt : List Char → List Char) (n : Nat) (k : JSString) (v : JSON)
    (tl : List Char) (hnf : v.numberFree = true)
    (hv : parseValue n (stringifyValue fmt v ++ tl) = .ok v tl) :
    parseMember (n + 1) (quote k ++ ':' :: (stringifyValue fmt v ++ tl)) = .ok (k, v) tl := by
  obtain ⟨c, r, hc, hw, _⟩ := stringifyValue_head fmt v hnf
  rw [hc] at hv ⊢
  rw [List.cons_append] at hv ⊢
  rw [parseMember_quote n k c _ hw, hv]
  rfl

mutual

theorem parseValue_stringify (fmt : List Char → List Char) :
    ∀ (v : JSON), v.numberFree = true → v.canonical → ∀ (fuel : Nat) (rest : List Char),
      (stringifyValue fmt v).length < fuel →
      parseValue fuel (stringifyValue fmt v ++ rest) = .ok v rest
  | .null, _, _, fuel, rest, hf => by
    cases fuel with
    | zero => exact absurd hf (Nat.not_lt_zero _)
    | succ n => exact parseValue_null n rest
  | .bool true, _, _, fuel, rest, hf => by
    cases fuel with
    | zero => exact absurd hf (Nat.not_lt_zero _)
    | succ n => exact parseValue_true n rest
  | .bool false, _, _, fuel, rest, hf => by
    cases fuel with
    | zero => exact absurd hf (Nat.not_lt_zero _)
    | succ n => exact parseValue_false n rest
  | .num _, hnf, _, _, _, _ => by simp [JSON.numberFree] at hnf
  | .str s, _, _, fuel, rest, hf => by
    cases fuel with
    | zero => exact absurd hf (Nat.not_lt_zero _)
    | succ n => exact parseValue_str n s rest
  | .arr [], _, _, fuel, rest, hf => by
    cases fuel with
    | zero => exact absurd hf (Nat.not_lt_zero _)
    | succ n => exact parseValue_arr_nil n rest
  | .arr (x :: xs), hnf, hc, fuel, rest, hf => by
    cases fuel with
    | zero => exact absurd hf (Nat.not_lt_zero _)
    | succ n =>
      rw [JSON.numberFree, numberFreeList, Bool.and_eq_true] at hnf
      rw [JSON.canonical, canonicalList] at hc
      rw [stringifyValue, List.length_cons, List.length_append] at hf
      have hx := parseValue_stringify fmt x hnf.1 hc.1 n (stringifyElems fmt xs ++ rest)
        (by omega)
      have hxs := parseElems_stringify fmt xs hnf.2 hc.2 n rest (by omega)
      obtain ⟨c, r, hcr, hw, hne⟩ := stringifyValue_head fmt x hnf.1
      rw [stringifyValue, List.cons_append, List.append_assoc]
      rw [hcr] at hx ⊢
      rw [List.cons_append] at hx ⊢
      rw [parseValue_arr_cons n c _ hw hne, hx]
      simp only [PResult.bind, hxs]
  | .obj [], _, _, fuel, rest, hf => by
    cases fuel with
    | zero => exact absurd hf (Nat.not_lt_zero _)
    | succ n => exact parseValue_obj_nil n rest
  | .obj ((k, v) :: ps), hnf, hc, fuel, rest, hf => by
    cases fuel with
    | zero => exact absurd hf (Nat.not_lt_zero _)
    | succ n =>
      rw [JSON.numberFree, numberFreeProps, Bool.and_eq_true] at hnf
      have hck := hc.1
      rw [JSON.canonical, canonicalProps] at hc
      rw [stringifyValue, List.length_cons, List.length_append, List.length_cons,
        List.length_append] at hf
      cases n with
      | zero => omega
      | succ m =>
        have hv := parseValue_stringify fmt v hnf.1 hc.2.1 m (stringifyMembers fmt ps ++ rest)
          (by omega)
        have hps := parseMembers_stringify fmt ps hnf.2 hc.2.2 (m + 1) rest (by omega)
        have hm := parseMember_stringify fmt m k v (stringifyMembers fmt ps ++ rest) hnf.1 hv
        rw [stringifyValue]
        have e : '{' :: (quote k ++ ':' :: (stringifyValue fmt v ++ stringifyMembers fmt ps))
            ++ rest = '{' :: '"' :: (quoteUnits k ++ ['"'] ++
              ':' :: (stringifyValue fmt v ++ (stringifyMembers fmt ps ++ rest))) := by
          simp [quote]
        have e' : quote k ++ ':' :: (stringifyValue fmt v ++ (stringifyMembers fmt ps ++ rest))
            = '"' :: (quoteUnits k ++ ['"'] ++
              ':' :: (stringifyValue fmt v ++ (stringifyMembers fmt ps ++ rest))) := by
          simp [quote]
        rw [e, parseValue_obj_cons, ← e', hm]
        simp only [PResult.bind, hps]
        rw [buildObject_canon _ hck]

theorem parseElems_stringify (fmt : List Char → List Char) :
    ∀ (xs : List JSON), numberFreeList xs = true → canonicalList xs →
      ∀ (fuel : Nat) (rest : List Char), (stringifyElems fmt xs).length ≤ fuel →
      parseElems fuel (stringifyElems fmt xs ++ rest) = .ok xs rest
  | [], _, _, fuel, rest, hf => by
    cases fuel with
    | zero => simp [stringifyElems] at hf
    | succ n => exact parseElems_close n rest
  | x :: xs, hnf, hc, fuel, rest, hf => by
    cases fuel with
    | zero => simp [stringifyElems] at hf
    | succ n =>
      rw [numberFreeList, Bool.and_eq_true] at hnf
      rw [canonicalList] at hc
      rw [stringifyElems, List.length_cons, List.length_append] at hf
      have hl : 0 < (stringifyElems fmt xs).length := by
        cases xs <;> simp [stringifyElems]
      have hx := parseValue_stringify fmt x hnf.1 hc.1 n (stringifyElems fmt xs ++ rest)
        (by omega)
      have hxs := parseElems_stringify fmt xs hnf.2 hc.2 n rest (by omega)
      obtain ⟨c, r, hcr, hw, hne⟩ := stringifyValue_head fmt x hnf.1
      rw [stringifyElems, List.cons_append, List.append_assoc]
      rw [hcr] at hx ⊢
      rw [List.cons_append] at hx ⊢
      rw [parseElems_comma n c _ hw, hx]
      simp only [PResult.bind, hxs]

theorem parseMembers_stringify (fmt : List Char → List Char) :
    ∀ (ps : List (JSString × JSON)), numberFreeProps ps = true → canonicalProps ps →
      ∀ (fuel : Nat) (rest : List Char), (stringifyMembers fmt ps).length ≤ fuel →
      parseMembers fuel (stringifyMembers fmt ps ++ rest) = .ok ps rest
  | [], _, _, fuel, rest, hf => by
    cases fuel with
    | zero => simp [stringifyMembers] at hf
    | succ n => exact parseMembers_close n rest
  | (k, v) :: ps, hnf, hc, fuel, rest, hf => by
    cases fuel with
    | zero => simp [stringifyMembers] at hf
    | succ n =>
      rw [numberFreeProps, Bool.and_eq_true] at hnf
      rw [canonicalProps] at hc
      rw [stringifyMembers, List.length_cons, List.length_append, List.length_cons,
        List.length_append] at hf
      have hl : 0 < (stringifyMembers fmt ps).length := by
        cases ps with
        | nil => simp [stringifyMembers]
        | cons p ps => obtain ⟨k', v'⟩ := p; simp [stringifyMembers]
      cases n with
      | zero => omega
      | succ m =>
        have hv := parseValue_stringify fmt v hnf.1 hc.1 m (stringifyMembers fmt ps ++ rest)
          (by omega)
        have hps := parseMembers_stringify fmt ps hnf.2 hc.2 (m + 1) rest (by omega)
        have hm := parseMember_stringify fmt m k v (stringifyMembers fmt ps ++ rest) hnf.1 hv
        rw [stringifyMembers]
        have e : ',' :: (quote k ++ ':' :: (stringifyValue fmt v ++ stringifyMembers fmt ps))
            ++ rest = ',' :: '"' :: (quoteUnits k ++ ['"'] ++
              ':' :: (stringifyValue fmt v ++ (stringifyMembers fmt ps ++ rest))) := by
          simp [quote]
        have e' : quote k ++ ':' :: (stringifyValue fmt v ++ (stringifyMembers fmt ps ++ rest))
            = '"' :: (quoteUnits k ++ ['"'] ++
              ':' :: (stringifyValue fmt v ++ (stringifyMembers fmt ps ++ rest))) := by
          simp [quote]
        rw [e, parseMembers_comma, ← e', hm]
        simp only [PResult.bind, hps]
end

theorem parse_stringify (fmt : List Char → List Char) (v : JSON)
    (hnf : v.numberFree = true) (hc : v.canonical) :
    JSON.parse (JSON.stringify fmt v) = .ok v := by
  unfold JSON.parse JSON.stringify
  obtain ⟨c, r, hcr, hw, _⟩ := stringifyValue_head fmt v hnf
  have h := parseValue_stringify fmt v hnf hc ((stringifyValue fmt v).length + 1) []
    (Nat.lt_succ_self _)
  rw [List.append_nil] at h
  show (match parseValue ((stringifyValue fmt v).length + 1) (skipWs (stringifyValue fmt v)) with
    | .ok v rest => if skipWs rest = [] then Except.ok v else Except.error JSError.syntaxError
    | .syntaxError => Except.error JSError.syntaxError
    | .outOfFuel => Except.error JSError.syntaxError) = Except.ok v
  rw [hcr, skipWs_cons _ hw, ← hcr, h]
  rfl

theorem char_eq_of_toNat_eq {c d : Char} (h : c.toNat = d.toNat) : c = d := by
  rw [← Char.ofNat_toNat c, ← Char.ofNat_toNat d, h]

theorem mkUnit_val_of_lt {n : Nat} (h : n < 65536) : (mkUnit n).val = n :=
  Nat.mod_eq_of_lt h

theorem char_toNat_valid (c : Char) : c.toNat < 0xD800 ∨ (0xDFFF < c.toNat ∧ c.toNat < 0x110000) :=
  c.valid

theorem charUnits_append_inj (c d : Char) (a b : JSString)
    (h : charUnits c ++ a = charUnits d ++ b) : c = d ∧ a = b := by
  have hc := char_toNat_valid c
  have hd := char_toNat_valid d
  unfold charUnits at h
  by_cases h1 : c.toNat < 0x10000 <;> by_cases h2 : d.toNat < 0x10000
  · rw [if_pos h1, if_pos h2] at h
    simp only [List.singleton_append, List.cons.injEq] at h
    have hv := congrArg Fin.val h.1
    rw [mkUnit_val_of_lt h1, mkUnit_val_of_lt h2] at hv
    exact ⟨char_eq_of_toNat_eq hv, h.2⟩
  · rw [if_pos h1, if_neg h2] at h
    simp only [List.singleton_append, List.cons_append, List.cons.injEq] at h
    have hv := congrArg Fin.val h.1
    rw [mkUnit_val_of_lt h1, mkUnit_val_of_lt (by omega)] at hv
    omega
  · rw [if_neg h1, if_pos h2] at h
    simp only [List.singleton_append, List.cons_append, List.cons.injEq] at h
    have hv := congrArg Fin.val h.1
    rw [mkUnit_val_of_lt h2, mkUnit_val_of_lt (by omega)] at hv
    omega
  · rw [if_neg h1, if_neg h2] at h
    simp only [List.cons_append, List.nil_append, List.cons.injEq] at h
    have hv1 := congrArg Fin.val h.1
    have hv2 := congrArg Fin.val h.2.1
    rw [mkUnit_val_of_lt (by omega), mkUnit_val_of_lt (by omega)] at hv1 hv2
    exact ⟨char_eq_of_toNat_eq (by omega), h.2.2⟩

theorem utf16_injective : ∀ (cs ds : List Char), utf16 cs = utf16 ds → cs = ds
  | [], [], _ => rfl
  | [], d :: ds, h => by
    rw [utf16, utf16] at h
    unfold charUnits at h
    split at h <;> simp at h
  | c :: cs, [], h => by
    rw [utf16, utf16] at h
    unfold charUnits at h
    split at h <;> simp at h
  | c :: cs, d :: ds, h => by
    rw [utf16, utf16] at h
    obtain ⟨h1, h2⟩ := charUnits_append_inj c d _ _ h
    rw [h1, utf16_injective cs ds h2]

/-- Different texts are different runtime strings. -/
theorem jsString_injective (s t : String) (h : jsString s = jsString t) : s = t :=
  String.ext (utf16_injective _ _ h)

/-! ## The recursion budget of the parser -/

theorem skipWs_length (cs : List Char) : (skipWs cs).length ≤ cs.length := by
  induction cs with
  | nil => exact Nat.le_refl _
  | cons c cs ih =>
    unfold skipWs
    split
    · exact Nat.le_succ_of_le ih
    · exact Nat.le_refl _

theorem map_eq_some_pair {p : Option (JSString × List Char)}
    {f : JSString → JSString} {s : JSString} {r : List Char}
    (h : p.map (fun q => (f q.1, q.2)) = some (s, r)) : ∃ s', p = some (s', r) := by
  cases p with
  | none => simp at h
  | some q =>
    obtain ⟨s', r'⟩ := q
    simp only [Option.map_some', Option.some.injEq, Prod.mk.injEq] at h
    exact ⟨s', by rw [h.2]⟩

theorem parseString_length_aux : ∀ (n : Nat) (cs : List Char), cs.length ≤ n →
    ∀ (s : JSString) (r : List Char), parseString cs = some (s, r) → r.length < cs.length := by
  intro n
  induction n with
  | zero =>
    intro cs hn s r h
    have : cs = [] := List.length_eq_zero.1 (Nat.le_zero.1 hn)
    subst this
    simp [parseString] at h
  | succ n ih =>
    intro cs hn s r h
    cases cs with
    | nil => simp [parseString] at h
    | cons c cs =>
      rw [parseString.eq_def] at h
      simp only at h
      simp only [List.length_cons] at hn ⊢
      split at h
      · injection h with h
        injection h with h1 h2
        subst h2
        exact Nat.lt_succ_self _
      · split at h
        · split at h
          · cases h
          · rename_i e r1
            split at h
            · split at h
              · rename_i a b c' d r2
                split at h
                · obtain ⟨s', hs⟩ := map_eq_some_pair h
                  have := ih r2 (by simp only [List.length_cons] at hn; omega) s' r hs
                  simp only [List.length_cons]
                  omega
                · cases h
              · cases h
            · split at h
              · obtain ⟨s', hs⟩ := map_eq_some_pair h
                have := ih r1 (by simp only [List.length_cons] at hn; omega) s' r hs
                simp only [List.length_cons]
                omega
              · cases h
        · split at h
          · cases h
          · obtain ⟨s', hs⟩ := map_eq_some_pair h
            have := ih cs (by omega) s' r hs
            omega

theorem parseString_length (cs : List Char) (s : JSString) (r : List Char)
    (h : parseString cs = some (s, r)) : r.length < cs.length :=
  parseString_length_aux cs.length cs (Nat.le_refl _) s r h

theorem takeDigits_length (cs : List Char) : (takeDigits cs).2.length ≤ cs.length := by
  induction cs with
  | nil => exact Nat.le_refl _
  | cons c cs ih =>
    unfold takeDigits
    split
    · exact Nat.le_succ_of_le ih
    · exact Nat.le_refl _

theorem parseInt_length (cs lit r : List Char) (h : parseInt cs = some (lit, r)) :
    r.length < cs.length := by
  cases cs with
  | nil => simp [parseInt] at h
  | cons d cs =>
    rw [parseInt] at h
    split at h
    · injection h with h
      injection h with h1 h2
      subst h2
      exact Nat.lt_succ_self _
    · split at h
      · injection h with h
        injection h with h1 h2
        subst h2
        exact Nat.lt_succ_of_le (takeDigits_length cs)
      · cases h

theorem parseFrac_length (cs lit r : List Char) (h : parseFrac cs = some (lit, r)) :
    r.length ≤ cs.length := by
  cases cs with
  | nil =>
    simp only [parseFrac, Option.some.injEq, Prod.mk.injEq] at h
    rw [← h.2]
  | cons c cs =>
    rw [parseFrac] at h
    split at h
    · split at h
      · cases h
      · injection h with h
        injection h with h1 h2
        subst h2
        exact Nat.le_succ_of_le (takeDigits_length cs)
    · injection h with h
      injection h with h1 h2
      subst h2
      exact Nat.le_refl _

theorem parseExpDigits_length (pre cs lit r : List Char)
    (h : parseExpDigits pre cs = some (lit, r)) : r.length ≤ cs.length := by
  unfold parseExpDigits at h
  split at h
  · cases h
  · injection h with h
    injection h with h1 h2
    subst h2
    exact takeDigits_length cs

theorem parseExp_length (cs lit r : List Char) (h : parseExp cs = some (lit, r)) :
    r.length ≤ cs.length := by
  cases cs with
  | nil =>
    simp only [parseExp, Option.some.injEq, Prod.mk.injEq] at h
    rw [← h.2]
  | cons c cs =>
    rw [parseExp.eq_def] at h
    simp only at h
    split at h
    · cases cs with
      | nil => cases h
      | cons s r1 =>
        simp only at h
        split at h
        · have := parseExpDigits_length _ _ _ _ h
          simp only [List.length_cons]
          omega
        · have := parseExpDigits_length _ _ _ _ h
          simp only [List.length_cons] at this ⊢
          omega
    · injection h with h
      injection h with h1 h2
      subst h2
      exact Nat.le_refl _

theorem parseUnsigned_length (cs lit r : List Char) (h : parseUnsigned cs = some (lit, r)) :
    r.length < cs.length := by
  unfold parseUnsigned at h
  split at h
  · cases h
  · rename_i i r1 hi
    split at h
    · cases h
    · rename_i f r2 hf
      split at h
      · cases h
      · rename_i e r3 he
        injection h with h
        injection h with h1 h2
        subst h2
        have h1 := parseInt_length _ _ _ hi
        have h2 := parseFrac_length _ _ _ hf
        have h3 := parseExp_length _ _ _ he
        omega

theorem parseNumber_length (cs lit r : List Char) (h : parseNumber cs = some (lit, r)) :
    r.length < cs.length := by
  cases cs with
  | nil => simp [parseNumber] at h
  | cons c cs =>
    rw [parseNumber] at h
    split at h
    · cases hp : parseUnsigned cs with
      | none => rw [hp] at h; cases h
      | some p =>
        obtain ⟨l', r'⟩ := p
        rw [hp] at h
        simp only [Option.map_some', Option.some.injEq, Prod.mk.injEq] at h
        have := parseUnsigned_length _ _ _ hp
        rw [← h.2]
        simp only [List.length_cons]
        omega
    · exact parseUnsigned_length _ _ _ h

theorem dropPrefix_length : ∀ (p cs r : List Char), dropPrefix p cs = some r →
    r.length ≤ cs.length
  | [], cs, r, h => by
    simp only [dropPrefix, Option.some.injEq] at h
    rw [h]
  | _ :: _, [], r, h => by simp [dropPrefix] at h
  | p :: ps, c :: cs, r, h => by
    rw [dropPrefix] at h
    split at h
    · exact Nat.le_succ_of_le (dropPrefix_length ps cs r h)
    · cases h

theorem skipWs_eq_cons_length {cs r : List Char} {c : Char} (h : skipWs cs = c :: r) :
    r.length < cs.length := by
  have := skipWs_length cs
  rw [h] at this
  exact this

theorem parse_consumes : ∀ n : Nat,
    (∀ cs v r, parseValue n cs = .ok v r → r.length < cs.length) ∧
    (∀ cs vs r, parseElems n cs = .ok vs r → r.length < cs.length) ∧
    (∀ cs m r, parseMember n cs = .ok m r → r.length < cs.length) ∧
    (∀ cs ms r, parseMembers n cs = .ok ms r → r.length < cs.length) := by
  intro n
  induction n with
  | zero =>
    refine ⟨?_, ?_, ?_, ?_⟩ <;> intro cs v r h
    · simp [parseValue] at h
    · simp [parseElems] at h
    · simp [parseMember] at h
    · simp [parseMembers] at h
  | succ n ih =>
    obtain ⟨ihv, ihe, ihm, ihms⟩ := ih
    refine ⟨?_, ?_, ?_, ?_⟩
    · intro cs v r h
      cases cs with
      | nil => simp [parseValue] at h
      | cons c cs =>
        rw [parseValue] at h
        simp only [List.length_cons]
        split at h
        · split at h
          · rename_i hs
            cases h
            have := parseString_length _ _ _ hs
            omega
          · cases h
        split at h
        · split at h
          · cases h
          · rename_i c1 r1 hs
            have hl := skipWs_eq_cons_length hs
            split at h
            · cases h; omega
            · obtain ⟨a, r1', h1, h2⟩ := bind_eq_ok h
              obtain ⟨vs, r2, h3, h4⟩ := bind_eq_ok h2
              cases h4
              have := ihv _ _ _ h1
              have := ihe _ _ _ h3
              simp only [List.length_cons] at *
              omega
        split at h
        · split at h
          · cases h
          · rename_i c1 r1 hs
            have hl := skipWs_eq_cons_length hs
            split at h
            · cases h; omega
            · obtain ⟨m, r1', h1, h2⟩ := bind_eq_ok h
              obtain ⟨ms, r2, h3, h4⟩ := bind_eq_ok h2
              cases h4
              have := ihm _ _ _ h1
              have := ihms _ _ _ h3
              simp only [List.length_cons] at *
              omega
        split at h
        · split at h
          · rename_i hd
            cases h
            have := dropPrefix_length _ _ _ hd
            omega
          · cases h
        split at h
        · split at h
          · rename_i hd
            cases h
            have := dropPrefix_length _ _ _ hd
            omega
          · cases h
        split at h
        · split at h
          · rename_i hd
            cases h
            have := dropPrefix_length _ _ _ hd
            omega
          · cases h
        · split at h
          · rename_i hd
            cases h
            have := parseNumber_length _ _ _ hd
            simp only [List.length_cons] at this
            omega
          · cases h
    · intro cs vs r h
      rw [parseElems] at h
      split at h
      · cases h
      · rename_i c r0 hs
        have hl := skipWs_eq_cons_length hs
        split at h
        · cases h; omega
        · split at h
          · obtain ⟨a, r1, h1, h2⟩ := bind_eq_ok h
            obtain ⟨vs, r2, h3, h4⟩ := bind_eq_ok h2
            cases h4
            have := ihv _ _ _ h1
            have := ihe _ _ _ h3
            have := skipWs_length r0
            omega
          · cases h
    · intro cs m r h
      cases cs with
      | nil => simp [parseMember] at h
      | cons c cs =>
        rw [parseMember] at h
        simp only [List.length_cons]
        split at h
        · split at h
          · cases h
          · rename_i k r1 hs
            have := parseString_length _ _ _ hs
            split at h
            · cases h
            · rename_i c1 r2 hs2
              have hl := skipWs_eq_cons_length hs2
              split at h
              · obtain ⟨a, r3, h1, h2⟩ := bind_eq_ok h
                cases h2
                have := ihv _ _ _ h1
                have := skipWs_length r2
                omega
              · cases h
        · cases h
    · intro cs ms r h
      rw [parseMembers] at h
      split at h
      · cases h
      · rename_i c r0 hs
        have hl := skipWs_eq_cons_length hs
        split at h
        · cases h; omega
        · split at h
          · obtain ⟨a, r1, h1, h2⟩ := bind_eq_ok h
            obtain ⟨vs, r2, h3, h4⟩ := bind_eq_ok h2
            cases h4
            have := ihm _ _ _ h1
            have := ihms _ _ _ h3
            have := skipWs_length r0
            omega
          · cases h

theorem bind_ne_outOfFuel {α β : Type} {x : PResult α} {f : α → List Char → PResult β}
    (hx : x ≠ .outOfFuel) (hf : ∀ a r, x = .ok a r → f a r ≠ .outOfFuel) :
    x.bind f ≠ .outOfFuel := by
  cases x with
  | ok a r => exact hf a r rfl
  | syntaxError => simp [PResult.bind]
  | outOfFuel => exact absurd rfl hx

theorem parse_fuel : ∀ n : Nat,
    (∀ cs, cs.length < n → parseValue n cs ≠ .outOfFuel) ∧
    (∀ cs, cs.length < n → parseElems n cs ≠ .outOfFuel) ∧
    (∀ cs, cs.length < n → parseMember n cs ≠ .outOfFuel) ∧
    (∀ cs, cs.length < n → parseMembers n cs ≠ .outOfFuel) := by
  intro n
  induction n with
  | zero =>
    refine ⟨?_, ?_, ?_, ?_⟩ <;> intro cs h <;> exact absurd h (Nat.not_lt_zero _)
  | succ n ih =>
    obtain ⟨ihv, ihe, ihm, ihms⟩ := ih
    obtain ⟨cv, ce, cm, cms⟩ := parse_consumes n
    refine ⟨?_, ?_, ?_, ?_⟩
    · intro cs hn
      cases cs with
      | nil => simp [parseValue]
      | cons c cs =>
        rw [parseValue]
        simp only [List.length_cons] at hn
        split
        · split <;> simp
        split
        · split
          · simp
          · rename_i c1 r1 hs
            have hl := skipWs_eq_cons_length hs
            split
            · simp
            · apply bind_ne_outOfFuel
              · exact ihv _ (by simp only [List.length_cons]; omega)
              · intro a r ha
                have := cv _ _ _ ha
                simp only [List.length_cons] at this
                apply bind_ne_outOfFuel
                · exact ihe _ (by omega)
                · intro _ _ _; simp
        split
        · split
          · simp
          · rename_i c1 r1 hs
            have hl := skipWs_eq_cons_length hs
            split
            · simp
            · apply bind_ne_outOfFuel
              · exact ihm _ (by simp only [List.length_cons]; omega)
              · intro a r ha
                have := cm _ _ _ ha
                simp only [List.length_cons] at this
                apply bind_ne_outOfFuel
                · exact ihms _ (by omega)
                · intro _ _ _; simp
        split
        · split <;> simp
        split
        · split <;> simp
        split
        · split <;> simp
        · split <;> simp
    · intro cs hn
      rw [parseElems]
      split
      · simp
      · rename_i c r0 hs
        have hl := skipWs_eq_cons_length hs
        split
        · simp
        · split
          · have := skipWs_length r0
            apply bind_ne_outOfFuel
            · exact ihv _ (by omega)
            · intro a r ha
              have := cv _ _ _ ha
              apply bind_ne_outOfFuel
              · exact ihe _ (by omega)
              · intro _ _ _; simp
          · simp
    · intro cs hn
      cases cs with
      | nil => simp [parseMember]
      | cons c cs =>
        rw [parseMember]
        simp only [List.length_cons] at hn
        split
        · split
          · simp
          · rename_i k r1 hs
            have := parseString_length _ _ _ hs
            split
            · simp
            · rename_i c1 r2 hs2
              have hl := skipWs_eq_cons_length hs2
              split
              · have := skipWs_length r2
                apply bind_ne_outOfFuel
                · exact ihv _ (by omega)
                · intro _ _ _; simp
              · simp
        · simp
    · intro cs hn
      rw [parseMembers]
      split
      · simp
      · rename_i c r0 hs
        have hl := skipWs_eq_cons_length hs
        split
        · simp
        · split
          · have := skipWs_length r0
            apply bind_ne_outOfFuel
            · exact ihm _ (by omega)
            · intro a r ha
              have := cm _ _ _ ha
              apply bind_ne_outOfFuel
              · exact ihms _ (by omega)
              · intro _ _ _; simp
          · simp

/-- The recursion budget of `JSON.parse` is never exhausted. -/
theorem parse_budget (text : String) :
    parseValue (text.data.length + 1) (skipWs text.data) ≠ .outOfFuel :=
  (parse_fuel _).1 _ (Nat.lt_succ_of_le (skipWs_length _))

/-! ## The contract: claims -/

theorem stringify_length_pos_obj (fmt : List Char → List Char) (ps : List (JSString × JSON)) :
    0 < (JSON.stringify fmt (.obj ps)).length := by
  cases ps with
  | nil => exact Nat.succ_pos _
  | cons p ps =>
    obtain ⟨k, v⟩ := p
    show 0 < (stringifyValue fmt (.obj ((k, v) :: ps))).length
    rw [stringifyValue]
    exact Nat.succ_pos _

theorem stringify_length_pos_arr (fmt : List Char → List Char) (xs : List JSON) :
    0 < (JSON.stringify fmt (.arr xs)).length := by
  cases xs with
  | nil => exact Nat.succ_pos _
  | cons x xs =>
    show 0 < (stringifyValue fmt (.arr (x :: xs))).length
    rw [stringifyValue]
    exact Nat.succ_pos _

theorem asset_canonical (a : Asset) : (JSON.obj a.toObject).canonical := by
  have h1 : arrayIndex (jsString "LotID") = none := by decide
  have h2 : arrayIndex (jsString "PropagationMethod") = none := by decide
  have h3 : arrayIndex (jsString "PropagationDate") = none := by decide
  have h4 : arrayIndex (jsString "PropagationQuantity") = none := by decide
  refine ⟨⟨by simp only [Asset.toObject, List.map]; decide, ?_⟩, ?_⟩
  · simp [Asset.toObject, keyBefore, h1, h2, h3, h4]
  · simp [Asset.toObject, canonicalProps, JSON.canonical]

theorem asset_numberFree (a : Asset) : (JSON.obj a.toObject).numberFree = true := by
  simp [Asset.toObject, JSON.numberFree, numberFreeProps]

theorem parse_stringify_asset (fmt : List Char → List Char) (a : Asset) :
    JSON.parse (JSON.stringify fmt (.obj a.toObject)) = .ok (.obj a.toObject) :=
  parse_stringify fmt _ (asset_numberFree a) (asset_canonical a)

theorem ReadAsset_putState (s : Store) (k v : String) (h : 0 < v.length) :
    ReadAsset (s.putState k v) k = (.ok v, s.putState k v) := by
  unfold ReadAsset
  simp only [Store.getState_putState_same]
  rw [if_neg (by omega)]

/-- C1: on every world state, `CreateAsset(lotId, method, date, quantity)` with a
non-empty `lotId` followed by `ReadAsset(lotId)` succeeds and returns exactly the
text `CreateAsset` returned; that text parses to the object with `LotID`,
`PropagationMethod`, `PropagationDate`, `PropagationQuantity` equal to the four
arguments, in that order, and with no `Owner` property. -/
theorem create_then_read (fmt : List Char → List Char) (s : Store)
    (lotId method date quantity : String) (_h : lotId ≠ "") :
    ∃ record : String,
      (CreateAsset fmt s lotId method date quantity).1 = .ok record ∧
      ReadAsset (CreateAsset fmt s lotId method date quantity).2 lotId =
        (.ok record, (CreateAsset fmt s lotId method date quantity).2) ∧
      JSON.parse record = .ok (.obj
        [(jsString "LotID", .str (jsString lotId)),
         (jsString "PropagationMethod", .str (jsString method)),
         (jsString "PropagationDate", .str (jsString date)),
         (jsString "PropagationQuantity", .str (jsString quantity))]) ∧
      hasProp (jsString "Owner")
        [(jsString "LotID", .str (jsString lotId)),
         (jsString "PropagationMethod", .str (jsString method)),
         (jsString "PropagationDate", .str (jsString date)),
         (jsString "PropagationQuantity", .str (jsString quantity))] = false := by
  refine ⟨JSON.stringify fmt (.obj (Asset.toObject ⟨lotId, method, date, quantity⟩)),
    rfl, ?_, ?_, ?_⟩
  · exact ReadAsset_putState s lotId _ (stringify_length_pos_obj fmt _)
  · exact parse_stringify_asset fmt ⟨lotId, method, date, quantity⟩
  · simp only [hasProp, Bool.or_false, Bool.or_eq_false_iff, decide_eq_false_iff_not]
    refine ⟨?_, ?_, ?_, ?_⟩ <;> decide

theorem create_then_read_witness :
    "L7" ≠ "" ∧ ∃ record : String,
      (CreateAsset id Store.empty "L7" "Seed" "2021-03-05" "1 gram").1 = .ok record ∧
      ReadAsset (CreateAsset id Store.empty "L7" "Seed" "2021-03-05" "1 gram").2 "L7" =
        (.ok record, (CreateAsset id Store.empty "L7" "Seed" "2021-03-05" "1 gram").2) ∧
      JSON.parse record = .ok (.obj
        [(jsString "LotID", .str (jsString "L7")),
         (jsString "PropagationMethod", .str (jsString "Seed")),
         (jsString "PropagationDate", .str (jsString "2021-03-05")),
         (jsString "PropagationQuantity", .str (jsString "1 gram"))]) ∧
      hasProp (jsString "Owner")
        [(jsString "LotID", .str (jsString "L7")),
         (jsString "PropagationMethod", .str (jsString "Seed")),
         (jsString "PropagationDate", .str (jsString "2021-03-05")),
         (jsString "PropagationQuantity", .str (jsString "1 gram"))] = false :=
  ⟨by decide, create_then_read id Store.empty "L7" "Seed" "2021-03-05" "1 gram" (by decide)⟩

theorem AssetExists_fst (s : Store) (k : String) :
    (AssetExists s k).1 = .ok (decide ((s.getState k).length > 0)) := rfl

theorem AssetExists_putState (fmt : List Char → List Char) (s : Store) (k : String)
    (ps : List (JSString × JSON)) :
    (AssetExists (s.putState k (JSON.stringify fmt (.obj ps))) k).1 = .ok true := by
  rw [AssetExists_fst, Store.getState_putState_same]
  simp [stringify_length_pos_obj]

theorem getState_putState_other (s : Store) (k v k₀ : String) (h : k₀ ≠ k) :
    (s.putState k v).getState k₀ = s.getState k₀ := by
  simp [Store.getState, Store.find_putState_other s k v k₀ h]

/-- C2: when `AssetExists(lotId)` is false, `UpdateAsset` and `DeleteAsset` both
throw `Error("The asset <lotId> does not exist")` and leave the world state as
it was. -/
theorem update_delete_missing (fmt : List Char → List Char) (s : Store)
    (lotId method date quantity : String)
    (h : (AssetExists s lotId).1 = .ok false) :
    UpdateAsset fmt s lotId method date quantity =
        (.error (.error ("The asset " ++ lotId ++ " does not exist")), s) ∧
      DeleteAsset s lotId = (.error (.error ("The asset " ++ lotId ++ " does not exist")), s) := by
  rw [AssetExists_fst] at h
  have hb : decide ((s.getState lotId).length > 0) = false := by
    injection h
  constructor
  · simp only [UpdateAsset, AssetExists, hb]
    rfl
  · simp only [DeleteAsset, AssetExists, hb]
    rfl

theorem update_delete_missing_witness :
    (AssetExists Store.empty "009").1 = .ok false ∧
      UpdateAsset id Store.empty "009" "Seed" "2021-03-05" "1 gram" =
        (.error (.error ("The asset " ++ "009" ++ " does not exist")), Store.empty) ∧
      DeleteAsset Store.empty "009" =
        (.error (.error ("The asset " ++ "009" ++ " does not exist")), Store.empty) :=
  ⟨rfl, update_delete_missing id Store.empty "009" "Seed" "2021-03-05" "1 gram" rfl⟩

theorem InitLedger_snd (fmt : List Char → List Char) (s : Store) :
    (InitLedger fmt s).2 =
      ((((s.putState "001" (JSON.stringify fmt (.obj (setProp (Asset.toObject
          ⟨"001", "Seed", "2021-03-05", "1 gram"⟩) (jsString "docType") (.str (jsString "asset")))))
        ).putState "002" (JSON.stringify fmt (.obj (setProp (Asset.toObject
          ⟨"002", "Propagated Cuttings", "2025-04-05", "25 plants"⟩) (jsString "docType")
          (.str (jsString "asset")))))
        ).putState "003" (JSON.stringify fmt (.obj (setProp (Asset.toObject
          ⟨"003", "Seed", "2050-06-09", "2 grams"⟩) (jsString "docType") (.str (jsString "asset")))))
        ).putState "004" (JSON.stringify fmt (.obj (setProp (Asset.toObject
          ⟨"004", "Propagated Cuttings", "2100-01-10", "10 plants"⟩) (jsString "docType")
          (.str (jsString "asset")))))
        ).putState "005" (JSON.stringify fmt (.obj (setProp (Asset.toObject
          ⟨"005", "Seed", "2121-09-05", "1.5 grams"⟩) (jsString "docType")
          (.str (jsString "asset"))))) := rfl

theorem AssetExists_InitLedger (fmt : List Char → List Char) (s : Store) (lotId : String)
    (h : lotId ∈ ["001", "002", "003", "004", "005"]) :
    (AssetExists (InitLedger fmt s).2 lotId).1 = .ok true := by
  rw [InitLedger_snd]
  simp only [List.mem_cons, List.mem_singleton, List.not_mem_nil, or_false] at h
  rcases h with h | h | h | h | h <;> subst h
  · rw [AssetExists_fst, getState_putState_other _ _ _ _ (by decide),
      getState_putState_other _ _ _ _ (by decide), getState_putState_other _ _ _ _ (by decide),
      getState_putState_other _ _ _ _ (by decide), Store.getState_putState_same]
    simp [stringify_length_pos_obj]
  · rw [AssetExists_fst, getState_putState_other _ _ _ _ (by decide),
      getState_putState_other _ _ _ _ (by decide), getState_putState_other _ _ _ _ (by decide),
      Store.getState_putState_same]
    simp [stringify_length_pos_obj]
  · rw [AssetExists_fst, getState_putState_other _ _ _ _ (by decide),
      getState_putState_other _ _ _ _ (by decide), Store.getState_putState_same]
    simp [stringify_length_pos_obj]
  · rw [AssetExists_fst, getState_putState_other _ _ _ _ (by decide),
      Store.getState_putState_same]
    simp [stringify_length_pos_obj]
  · exact AssetExists_putState fmt _ _ _

theorem getState_deleteState_same (s : Store) (k : String) :
    (s.deleteState k).getState k = "" := by
  simp [Store.getState, Store.find_deleteState_same]

theorem DeleteAsset_ok (s : Store) (lotId : String) (h : (DeleteAsset s lotId).1 = .ok ()) :
    (DeleteAsset s lotId).2 = s.deleteState lotId := by
  cases hb : decide ((s.getState lotId).length > 0) with
  | false =>
    simp only [DeleteAsset, AssetExists, hb] at h
    cases h
  | true =>
    simp only [DeleteAsset, AssetExists, hb]
    rfl

/-- C5: `AssetExists(lotId)` is false on the empty world state, true right after
`CreateAsset(lotId, ...)`, true for each of `"001"`..`"005"` right after
`InitLedger`, and false right after a successful `DeleteAsset(lotId)`. -/
theorem exists_lifecycle :
    (∀ lotId : String, (AssetExists Store.empty lotId).1 = .ok false) ∧
    (∀ (fmt : List Char → List Char) (s : Store) (lotId method date quantity : String),
      (AssetExists (CreateAsset fmt s lotId method date quantity).2 lotId).1 = .ok true) ∧
    (∀ (fmt : List Char → List Char) (s : Store) (lotId : String),
      lotId ∈ ["001", "002", "003", "004", "005"] →
      (AssetExists (InitLedger fmt s).2 lotId).1 = .ok true) ∧
    (∀ (s : Store) (lotId : String), (DeleteAsset s lotId).1 = .ok () →
      (AssetExists (DeleteAsset s lotId).2 lotId).1 = .ok false) := by
  refine ⟨fun _ => rfl, ?_, AssetExists_InitLedger, ?_⟩
  · intro fmt s lotId method date quantity
    exact AssetExists_putState fmt s lotId _
  · intro s lotId h
    rw [DeleteAsset_ok s lotId h, AssetExists_fst, getState_deleteState_same]
    rfl

set_option maxRecDepth 8192 in
theorem exists_lifecycle_witness :
    (AssetExists (InitLedger id Store.empty).2 "003").1 = .ok true ∧
    (DeleteAsset (InitLedger id Store.empty).2 "003").1 = .ok () ∧
    (AssetExists (DeleteAsset (InitLedger id Store.empty).2 "003").2 "003").1 = .ok false :=
  ⟨exists_lifecycle.2.2.1 id Store.empty "003" (by simp), rfl,
   exists_lifecycle.2.2.2 (InitLedger id Store.empty).2 "003" rfl⟩

/-- C6: two `CreateAsset` calls for the same `lotId` both succeed and leave the
world state that the second call alone leaves; the second call's values win:
after the first call `lotId` holds the text of the first payload, after the second
it holds the text of the second payload, which `ReadAsset` returns and which
differs from the first whenever the payloads differ; no other key changes. -/
theorem create_twice (fmt : List Char → List Char) (s : Store)
    (lotId m₁ d₁ q₁ m₂ d₂ q₂ : String) :
    (∃ r₁, (CreateAsset fmt s lotId m₁ d₁ q₁).1 = .ok r₁) ∧
    (∃ r₂, (CreateAsset fmt (CreateAsset fmt s lotId m₁ d₁ q₁).2 lotId m₂ d₂ q₂).1 = .ok r₂) ∧
    (CreateAsset fmt (CreateAsset fmt s lotId m₁ d₁ q₁).2 lotId m₂ d₂ q₂).2 =
      (CreateAsset fmt s lotId m₂ d₂ q₂).2 ∧
    (∃ r₁ r₂ : String,
      (CreateAsset fmt s lotId m₁ d₁ q₁).1 = .ok r₁ ∧
      (CreateAsset fmt s lotId m₁ d₁ q₁).2.find lotId = some r₁ ∧
      JSON.parse r₁ = .ok (.obj
        [(jsString "LotID", .str (jsString lotId)),
         (jsString "PropagationMethod", .str (jsString m₁)),
         (jsString "PropagationDate", .str (jsString d₁)),
         (jsString "PropagationQuantity", .str (jsString q₁))]) ∧
      (CreateAsset fmt (CreateAsset fmt s lotId m₁ d₁ q₁).2 lotId m₂ d₂ q₂).1 = .ok r₂ ∧
      (CreateAsset fmt (CreateAsset fmt s lotId m₁ d₁ q₁).2 lotId m₂ d₂ q₂).2.find lotId =
        some r₂ ∧
      ReadAsset (CreateAsset fmt (CreateAsset fmt s lotId m₁ d₁ q₁).2 lotId m₂ d₂ q₂).2 lotId =
        (.ok r₂, (CreateAsset fmt (CreateAsset fmt s lotId m₁ d₁ q₁).2 lotId m₂ d₂ q₂).2) ∧
      JSON.parse r₂ = .ok (.obj
        [(jsString "LotID", .str (jsString lotId)),
         (jsString "PropagationMethod", .str (jsString m₂)),
         (jsString "PropagationDate", .str (jsString d₂)),
         (jsString "PropagationQuantity", .str (jsString q₂))]) ∧
      ((m₁, d₁, q₁) ≠ (m₂, d₂, q₂) → r₁ ≠ r₂)) ∧
    (∀ k, k ≠ lotId →
      (CreateAsset fmt (CreateAsset fmt s lotId m₁ d₁ q₁).2 lotId m₂ d₂ q₂).2.find k =
        s.find k) := by
  refine ⟨⟨_, rfl⟩, ⟨_, rfl⟩, Store.putState_putState s lotId _ _,
    ⟨JSON.stringify fmt (.obj (Asset.toObject ⟨lotId, m₁, d₁, q₁⟩)),
     JSON.stringify fmt (.obj (Asset.toObject ⟨lotId, m₂, d₂, q₂⟩)),
     rfl, Store.find_putState_same s lotId _, parse_stringify_asset fmt ⟨lotId, m₁, d₁, q₁⟩,
     rfl, Store.find_putState_same _ lotId _,
     ReadAsset_putState _ lotId _ (stringify_length_pos_obj fmt _),
     parse_stringify_asset fmt ⟨lotId, m₂, d₂, q₂⟩, ?_⟩, ?_⟩
  · intro hne heq
    apply hne
    have h1 := parse_stringify_asset fmt ⟨lotId, m₁, d₁, q₁⟩
    have h2 := parse_stringify_asset fmt ⟨lotId, m₂, d₂, q₂⟩
    rw [heq, h2] at h1
    simp only [Asset.toObject, Except.ok.injEq, JSON.obj.injEq, List.cons.injEq,
      Prod.mk.injEq, JSON.str.injEq, true_and, and_true] at h1
    obtain ⟨hm, hd, hq⟩ := h1
    rw [jsString_injective _ _ hm, jsString_injective _ _ hd, jsString_injective _ _ hq]
  · intro k hk
    show ((s.putState lotId _).putState lotId _).find k = s.find k
    rw [Store.find_putState_other _ _ _ _ hk, Store.find_putState_other _ _ _ _ hk]

theorem create_twice_witness :
    ("Seed", "2021-03-05", "1 gram") ≠ ("Cutting", "2022-01-01", "3 plants") ∧
    JSON.stringify id (.obj (Asset.toObject ⟨"L7", "Seed", "2021-03-05", "1 gram"⟩)) ≠
      JSON.stringify id (.obj (Asset.toObject ⟨"L7", "Cutting", "2022-01-01", "3 plants"⟩)) := by
  refine ⟨by decide, ?_⟩
  obtain ⟨r₁, r₂, h1, _, _, h2, _, _, _, hne⟩ :=
    (create_twice id Store.empty "L7" "Seed" "2021-03-05" "1 gram"
      "Cutting" "2022-01-01" "3 plants").2.2.2.1
  injection h1 with h1
  injection h2 with h2
  rw [h1, h2]
  exact hne (by decide)

/-- C9: `ReadAsset(lotId)` throws `Error("The asset <lotId> does not exist")`
exactly when the key is absent or its value is empty; otherwise it returns the
stored value unchanged; either way the world state is left as it was. -/
theorem read_asset (s : Store) (lotId : String) :
    ((ReadAsset s lotId).1 = .error (.error ("The asset " ++ lotId ++ " does not exist")) ↔
      (s.find lotId = none ∨ s.find lotId = some "")) ∧
    (∀ v, s.find lotId = some v → v ≠ "" → (ReadAsset s lotId).1 = .ok v) ∧
    (ReadAsset s lotId).2 = s := by
  refine ⟨?_, ?_, ?_⟩
  · rw [← getState_length_eq_zero]
    unfold ReadAsset
    by_cases h : (s.getState lotId).length = 0
    · simp [h, notExist]
    · simp [h]
  · intro v hv hne
    have hg : s.getState lotId = v := by simp [Store.getState, hv]
    unfold ReadAsset
    rw [hg, if_neg (fun h => hne ((string_length_eq_zero v).1 h))]
  · by_cases h : (s.getState lotId).length = 0 <;> simp [ReadAsset, h]

theorem read_asset_witness :
    (Store.empty.putState "010" "x").find "010" = some "x" ∧ "x" ≠ "" ∧
      (ReadAsset (Store.empty.putState "010" "x") "010").1 = .ok "x" :=
  ⟨by decide, by decide,
   (read_asset (Store.empty.putState "010" "x") "010").2.1 "x" (by decide) (by decide)⟩

/-- C10: `AssetExists(lotId)` always returns a boolean, never throws, leaves the
world state as it was, and returns `true` exactly when the key is present with a
non-empty value. -/
theorem asset_exists (s : Store) (lotId : String) :
    ((AssetExists s lotId).1 = .ok true ↔ ∃ v, s.find lotId = some v ∧ v ≠ "") ∧
    ((AssetExists s lotId).1 = .ok false ↔ ¬ ∃ v, s.find lotId = some v ∧ v ≠ "") ∧
    (∃ b, (AssetExists s lotId).1 = .ok b) ∧
    (AssetExists s lotId).2 = s := by
  have key : ((s.getState lotId).length > 0) ↔ ∃ v, s.find lotId = some v ∧ v ≠ "" := by
    have := getState_length_eq_zero s lotId
    constructor
    · intro h
      cases hf : s.find lotId with
      | none => exact absurd (this.2 (Or.inl hf)) (by omega)
      | some v =>
        refine ⟨v, rfl, ?_⟩
        intro hv
        subst hv
        exact absurd (this.2 (Or.inr hf)) (by omega)
    · rintro ⟨v, hv, hne⟩
      rcases Nat.eq_zero_or_pos (s.getState lotId).length with h0 | h0
      · rcases this.1 h0 with h | h
        · rw [hv] at h; cases h
        · rw [hv] at h; injection h with h; exact absurd h hne
      · exact h0
  refine ⟨?_, ?_, ⟨_, rfl⟩, rfl⟩
  · rw [AssetExists_fst, ← key]
    simp
  · rw [AssetExists_fst, ← key]
    simp

theorem getProp_eq_none {k : JSString} {ps : List (JSString × JSON)}
    (h : hasProp k ps = false) : getProp k ps = none := by
  induction ps with
  | nil => rfl
  | cons hd t ih =>
    obtain ⟨k', v'⟩ := hd
    simp only [hasProp, Bool.or_eq_false_iff, decide_eq_false_iff_not] at h
    simp [getProp, h.1, ih h.2]

theorem getProp_replaceProp_same (k : JSString) (v : JSON) (ps : List (JSString × JSON))
    (h : hasProp k ps = true) : getProp k (replaceProp k v ps) = some v := by
  induction ps with
  | nil => simp [hasProp] at h
  | cons hd t ih =>
    obtain ⟨k', v'⟩ := hd
    by_cases hk : k = k'
    · simp [replaceProp, getProp, hk]
    · simp only [hasProp, hk, decide_False, Bool.false_or] at h
      simp [replaceProp, getProp, hk, ih h]

theorem getProp_replaceProp_other (k k₀ : JSString) (v : JSON) (ps : List (JSString × JSON))
    (h : k₀ ≠ k) : getProp k₀ (replaceProp k v ps) = getProp k₀ ps := by
  induction ps with
  | nil => rfl
  | cons hd t ih =>
    obtain ⟨k', v'⟩ := hd
    by_cases hk : k = k'
    · subst hk
      simp [replaceProp, getProp, h]
    · simp [replaceProp, getProp, hk, ih]

theorem getProp_insertIndexProp_same (i : Nat) (k : JSString) (v : JSON)
    (ps : List (JSString × JSON)) (h : hasProp k ps = false) :
    getProp k (insertIndexProp i k v ps) = some v := by
  induction ps with
  | nil => simp [insertIndexProp, getProp]
  | cons hd t ih =>
    obtain ⟨k', v'⟩ := hd
    simp only [hasProp, Bool.or_eq_false_iff, decide_eq_false_iff_not] at h
    unfold insertIndexProp
    split
    · split
      · simp [getProp]
      · simp [getProp, h.1, ih h.2]
    · simp [getProp]

theorem getProp_insertIndexProp_other (i : Nat) (k k₀ : JSString) (v : JSON)
    (ps : List (JSString × JSON)) (h : k₀ ≠ k) :
    getProp k₀ (insertIndexProp i k v ps) = getProp k₀ ps := by
  induction ps with
  | nil => simp [insertIndexProp, getProp, h]
  | cons hd t ih =>
    obtain ⟨k', v'⟩ := hd
    unfold insertIndexProp
    split
    · split
      · simp [getProp, h]
      · simp [getProp, ih]
    · simp [getProp, h]

theorem getProp_append_same (k : JSString) (v : JSON) (ps : List (JSString × JSON))
    (h : hasProp k ps = false) : getProp k (ps ++ [(k, v)]) = some v := by
  induction ps with
  | nil => simp [getProp]
  | cons hd t ih =>
    obtain ⟨k', v'⟩ := hd
    simp only [hasProp, Bool.or_eq_false_iff, decide_eq_false_iff_not] at h
    simp [getProp, h.1, ih h.2]

theorem getProp_append_other (k k₀ : JSString) (v : JSON) (ps : List (JSString × JSON))
    (h : k₀ ≠ k) : getProp k₀ (ps ++ [(k, v)]) = getProp k₀ ps := by
  induction ps with
  | nil => simp [getProp, h]
  | cons hd t ih =>
    obtain ⟨k', v'⟩ := hd
    simp [getProp, ih]

theorem getProp_setProp_same (ps : List (JSString × JSON)) (k : JSString) (v : JSON) :
    getProp k (setProp ps k v) = some v := by
  unfold setProp
  split
  · rename_i h
    exact getProp_replaceProp_same k v ps h
  · rename_i h
    have h' : hasProp k ps = false := by simpa using h
    split
    · exact getProp_insertIndexProp_same _ k v ps h'
    · exact getProp_append_same k v ps h'

theorem getProp_setProp_other (ps : List (JSString × JSON)) (k k₀ : JSString) (v : JSON)
    (h : k₀ ≠ k) : getProp k₀ (setProp ps k v) = getProp k₀ ps := by
  unfold setProp
  split
  · exact getProp_replaceProp_other k k₀ v ps h
  · split
    · exact getProp_insertIndexProp_other _ k k₀ v ps h
    · exact getProp_append_other k k₀ v ps h

theorem parse_ok_canonical (text : String) (v : JSON) (h : JSON.parse text = .ok v) :
    v.canonical := by
  unfold JSON.parse at h
  split at h
  · rename_i v' rest hp
    split at h
    · cases h
      exact (parse_canonical _).1 _ _ _ hp
    · cases h
  · cases h
  · cases h

theorem parse_empty : JSON.parse "" = .error .syntaxError := rfl

theorem ReadAsset_of_parse (s : Store) (lotId : String) (v : JSON)
    (h : JSON.parse (s.getState lotId) = .ok v) :
    ReadAsset s lotId = (.ok (s.getState lotId), s) := by
  unfold ReadAsset
  have hne : ¬ (s.getState lotId).length = 0 := by
    intro h0
    rw [(string_length_eq_zero _).1 h0, parse_empty] at h
    cases h
  simp only [hne, if_false]

theorem TransferAsset_obj (fmt : List Char → List Char) (s : Store) (lotId newOwner : String)
    (ps : List (JSString × JSON)) (h : JSON.parse (s.getState lotId) = .ok (.obj ps)) :
    TransferAsset fmt s lotId newOwner =
      (.ok (), s.putState lotId (JSON.stringify fmt
        (.obj (setProp ps (jsString "Owner") (.str (jsString newOwner)))))) := by
  unfold TransferAsset
  rw [ReadAsset_of_parse s lotId _ h]
  simp only [h, assignProp]

/-- C3: when the value stored under `lotId` parses to an object `ps` holding no
number, `TransferAsset(lotId, newOwner)` succeeds, and `ReadAsset(lotId)` then
returns a text that parses to `ps` with `Owner` set to `newOwner`: the `Owner`
property is `newOwner` and every other key has the value it had (or is absent as
it was). -/
theorem transfer_sets_owner (fmt : List Char → List Char) (s : Store) (lotId newOwner : String)
    (ps : List (JSString × JSON))
    (hrec : JSON.parse (s.getState lotId) = .ok (.obj ps))
    (hnf : numberFreeProps ps = true) :
    (TransferAsset fmt s lotId newOwner).1 = .ok () ∧
    ∃ (text : String) (ps' : List (JSString × JSON)),
      (ReadAsset (TransferAsset fmt s lotId newOwner).2 lotId).1 = .ok text ∧
      JSON.parse text = .ok (.obj ps') ∧
      ps' = setProp ps (jsString "Owner") (.str (jsString newOwner)) ∧
      getProp (jsString "Owner") ps' = some (.str (jsString newOwner)) ∧
      ∀ k, k ≠ jsString "Owner" → getProp k ps' = getProp k ps := by
  have hc := parse_ok_canonical _ _ hrec
  rw [TransferAsset_obj fmt s lotId newOwner ps hrec]
  refine ⟨rfl, JSON.stringify fmt
      (.obj (setProp ps (jsString "Owner") (.str (jsString newOwner)))),
    setProp ps (jsString "Owner") (.str (jsString newOwner)), ?_, ?_, rfl,
    getProp_setProp_same _ _ _, fun k hk => getProp_setProp_other _ _ _ _ hk⟩
  · rw [ReadAsset_putState _ _ _ (stringify_length_pos_obj fmt _)]
  · apply parse_stringify
    · exact setProp_numberFreeProps ps _ _ hnf rfl
    · exact ⟨setProp_canonKeys ps _ _ hc.1, setProp_canonicalProps ps _ _ hc.2 trivial⟩

set_option maxRecDepth 8192 in
theorem transfer_sets_owner_witness :
    JSON.parse ((CreateAsset id Store.empty "L7" "Seed" "2021-03-05" "1 gram").2.getState "L7") =
      .ok (.obj (Asset.toObject ⟨"L7", "Seed", "2021-03-05", "1 gram"⟩)) ∧
    numberFreeProps (Asset.toObject ⟨"L7", "Seed", "2021-03-05", "1 gram"⟩) = true ∧
    ((TransferAsset id (CreateAsset id Store.empty "L7" "Seed" "2021-03-05" "1 gram").2
        "L7" "Ada").1 = .ok () ∧
    ∃ (text : String) (ps' : List (JSString × JSON)),
      (ReadAsset (TransferAsset id (CreateAsset id Store.empty "L7" "Seed" "2021-03-05"
        "1 gram").2 "L7" "Ada").2 "L7").1 = .ok text ∧
      JSON.parse text = .ok (.obj ps') ∧
      ps' = setProp (Asset.toObject ⟨"L7", "Seed", "2021-03-05", "1 gram"⟩)
        (jsString "Owner") (.str (jsString "Ada")) ∧
      getProp (jsString "Owner") ps' = some (.str (jsString "Ada")) ∧
      ∀ k, k ≠ jsString "Owner" →
        getProp k ps' = getProp k (Asset.toObject ⟨"L7", "Seed", "2021-03-05", "1 gram"⟩)) :=
  ⟨rfl, rfl, transfer_sets_owner id _ "L7" "Ada" _ rfl rfl⟩

theorem UpdateAsset_ok (fmt : List Char → List Char) (s : Store)
    (lotId method date quantity : String)
    (h : (UpdateAsset fmt s lotId method date quantity).1 = .ok ()) :
    (UpdateAsset fmt s lotId method date quantity).2 =
      s.putState lotId (JSON.stringify fmt
        (.obj (Asset.toObject ⟨lotId, method, date, quantity⟩))) := by
  cases hb : decide ((s.getState lotId).length > 0) with
  | false =>
    simp only [UpdateAsset, AssetExists, hb] at h
    cases h
  | true =>
    simp only [UpdateAsset, AssetExists, hb]
    rfl

/-- C4: a successful `UpdateAsset(lotId, method, date, quantity)` leaves under
`lotId` a text that parses to the object with exactly `LotID`,
`PropagationMethod`, `PropagationDate`, `PropagationQuantity` equal to the
arguments and no `Owner` property, whatever record (with or without an `Owner`)
was stored before. -/
theorem update_clears_owner (fmt : List Char → List Char) (s : Store)
    (lotId method date quantity : String)
    (h : (UpdateAsset fmt s lotId method date quantity).1 = .ok ()) :
    ∃ text : String,
      (ReadAsset (UpdateAsset fmt s lotId method date quantity).2 lotId).1 = .ok text ∧
      JSON.parse text = .ok (.obj
        [(jsString "LotID", .str (jsString lotId)),
         (jsString "PropagationMethod", .str (jsString method)),
         (jsString "PropagationDate", .str (jsString date)),
         (jsString "PropagationQuantity", .str (jsString quantity))]) ∧
      hasProp (jsString "Owner")
        [(jsString "LotID", .str (jsString lotId)),
         (jsString "PropagationMethod", .str (jsString method)),
         (jsString "PropagationDate", .str (jsString date)),
         (jsString "PropagationQuantity", .str (jsString quantity))] = false := by
  rw [UpdateAsset_ok fmt s lotId method date quantity h]
  refine ⟨JSON.stringify fmt (.obj (Asset.toObject ⟨lotId, method, date, quantity⟩)), ?_,
    parse_stringify_asset fmt ⟨lotId, method, date, quantity⟩, ?_⟩
  · rw [ReadAsset_putState _ _ _ (stringify_length_pos_obj fmt _)]
  · simp only [hasProp, Bool.or_false, Bool.or_eq_false_iff, decide_eq_false_iff_not]
    refine ⟨?_, ?_, ?_, ?_⟩ <;> decide

set_option maxRecDepth 8192 in
theorem update_clears_owner_witness :
    (UpdateAsset id (TransferAsset id (CreateAsset id Store.empty "L7" "Seed" "2021-03-05"
        "1 gram").2 "L7" "Ada").2 "L7" "Cutting" "2022-01-01" "3 plants").1 = .ok () ∧
    ∃ text : String,
      (ReadAsset (UpdateAsset id (TransferAsset id (CreateAsset id Store.empty "L7" "Seed"
        "2021-03-05" "1 gram").2 "L7" "Ada").2 "L7" "Cutting" "2022-01-01" "3 plants").2
        "L7").1 = .ok text ∧
      JSON.parse text = .ok (.obj
        [(jsString "LotID", .str (jsString "L7")),
         (jsString "PropagationMethod", .str (jsString "Cutting")),
         (jsString "PropagationDate", .str (jsString "2022-01-01")),
         (jsString "PropagationQuantity", .str (jsString "3 plants"))]) ∧
      hasProp (jsString "Owner")
        [(jsString "LotID", .str (jsString "L7")),
         (jsString "PropagationMethod", .str (jsString "Cutting")),
         (jsString "PropagationDate", .str (jsString "2022-01-01")),
         (jsString "PropagationQuantity", .str (jsString "3 plants"))] = false :=
  ⟨rfl, update_clears_owner id _ "L7" "Cutting" "2022-01-01" "3 plants" rfl⟩

mutual
theorem stringifyValue_fmt (f g : List Char → List Char) :
    ∀ v : JSON, v.numberFree = true → stringifyValue f v = stringifyValue g v
  | .null, _ => rfl
  | .bool true, _ => rfl
  | .bool false, _ => rfl
  | .num _, h => by simp [JSON.numberFree] at h
  | .str _, _ => rfl
  | .arr [], _ => rfl
  | .arr (x :: xs), h => by
    rw [JSON.numberFree, numberFreeList, Bool.and_eq_true] at h
    rw [stringifyValue, stringifyValue, stringifyValue_fmt f g x h.1,
      stringifyElems_fmt f g xs h.2]
  | .obj [], _ => rfl
  | .obj ((k, v) :: ps), h => by
    rw [JSON.numberFree, numberFreeProps, Bool.and_eq_true] at h
    rw [stringifyValue, stringifyValue, stringifyValue_fmt f g v h.1,
      stringifyMembers_fmt f g ps h.2]
theorem stringifyElems_fmt (f g : List Char → List Char) :
    ∀ xs : List JSON, numberFreeList xs = true → stringifyElems f xs = stringifyElems g xs
  | [], _ => rfl
  | x :: xs, h => by
    rw [numberFreeList, Bool.and_eq_true] at h
    rw [stringifyElems, stringifyElems, stringifyValue_fmt f g x h.1,
      stringifyElems_fmt f g xs h.2]
theorem stringifyMembers_fmt (f g : List Char → List Char) :
    ∀ ps : List (JSString × JSON), numberFreeProps ps = true →
      stringifyMembers f ps = stringifyMembers g ps
  | [], _ => rfl
  | (k, v) :: ps, h => by
    rw [numberFreeProps, Bool.and_eq_true] at h
    rw [stringifyMembers, stringifyMembers, stringifyValue_fmt f g v h.1,
      stringifyMembers_fmt f g ps h.2]
end

theorem stringify_fmt (f g : List Char → List Char) (v : JSON) (h : v.numberFree = true) :
    JSON.stringify f v = JSON.stringify g v := by
  unfold JSON.stringify
  rw [stringifyValue_fmt f g v h]

set_option maxRecDepth 100000 in
theorem seed_results (fmt : List Char → List Char) :
    collectResults (InitLedger fmt Store.empty).2.getStateByRange [] =
      [.obj [(jsString "Key", .str (jsString "001")),
             (jsString "Record", .obj
               [(jsString "LotID", .str (jsString "001")),
                (jsString "PropagationMethod", .str (jsString "Seed")),
                (jsString "PropagationDate", .str (jsString "2021-03-05")),
                (jsString "PropagationQuantity", .str (jsString "1 gram")),
                (jsString "docType", .str (jsString "asset"))])],
       .obj [(jsString "Key", .str (jsString "002")),
             (jsString "Record", .obj
               [(jsString "LotID", .str (jsString "002")),
                (jsString "PropagationMethod", .str (jsString "Propagated Cuttings")),
                (jsString "PropagationDate", .str (jsString "2025-04-05")),
                (jsString "PropagationQuantity", .str (jsString "25 plants")),
                (jsString "docType", .str (jsString "asset"))])],
       .obj [(jsString "Key", .str (jsString "003")),
             (jsString "Record", .obj
               [(jsString "LotID", .str (jsString "003")),
                (jsString "PropagationMethod", .str (jsString "Seed")),
                (jsString "PropagationDate", .str (jsString "2050-06-09")),
                (jsString "PropagationQuantity", .str (jsString "2 grams")),
                (jsString "docType", .str (jsString "asset"))])],
       .obj [(jsString "Key", .str (jsString "004")),
             (jsString "Record", .obj
               [(jsString "LotID", .str (jsString "004")),
                (jsString "PropagationMethod", .str (jsString "Propagated Cuttings")),
                (jsString "PropagationDate", .str (jsString "2100-01-10")),
                (jsString "PropagationQuantity", .str (jsString "10 plants")),
                (jsString "docType", .str (jsString "asset"))])],
       .obj [(jsString "Key", .str (jsString "005")),
             (jsString "Record", .obj
               [(jsString "LotID", .str (jsString "005")),
                (jsString "PropagationMethod", .str (jsString "Seed")),
                (jsString "PropagationDate", .str (jsString "2121-09-05")),
                (jsString "PropagationQuantity", .str (jsString "1.5 grams")),
                (jsString "docType", .str (jsString "asset"))])]] :=
  rfl

theorem collectResults_eq (l : List Entry) (acc : List JSON) :
    collectResults l acc = acc ++ l.map (fun e =>
      JSON.obj [(jsString "Key", .str (jsString e.1)), (jsString "Record", recordOf e.2)]) := by
  induction l generalizing acc with
  | nil => simp [collectResults]
  | cons hd t ih =>
    obtain ⟨k, v⟩ := hd
    rw [collectResults, ih]
    simp

theorem mem_of_findEntry {k v : String} {l : List Entry} (h : findEntry k l = some v) :
    (k, v) ∈ l := by
  induction l with
  | nil => simp [findEntry] at h
  | cons hd t ih =>
    obtain ⟨k', v'⟩ := hd
    unfold findEntry at h
    split at h
    · rename_i hk
      injection h with h
      rw [hk, h]
      exact List.mem_cons_self _ _
    · exact List.mem_cons_of_mem _ (ih h)

theorem findEntry_of_mem {k v : String} {l : List Entry} (ha : Ascending l) (h : (k, v) ∈ l) :
    findEntry k l = some v := by
  induction l with
  | nil => simp at h
  | cons hd t ih =>
    obtain ⟨k', v'⟩ := hd
    have hhd := (List.pairwise_cons.1 ha).1
    have ht := (List.pairwise_cons.1 ha).2
    rcases List.mem_cons.1 h with h | h
    · injection h with h1 h2
      simp [findEntry, h1, h2]
    · have hlt : keyLt k' k := hhd (k, v) h
      have hne : ¬ k = k' := fun e => keyLt_irrefl k (by rw [e] at hlt ⊢; exact hlt)
      simp only [findEntry, hne, if_false]
      exact ih ht h

theorem GetAllAssets_fst (fmt : List Char → List Char) (stack : CallStack) (s : Store) :
    (GetAllAssets fmt stack s).1 =
      JSON.stringifyOn fmt stack (.arr (collectResults s.getStateByRange [])) := by
  unfold GetAllAssets
  cases JSON.stringifyOn fmt stack (.arr (collectResults s.getStateByRange [])) <;> rfl

theorem GetAllAssets_snd (fmt : List Char → List Char) (stack : CallStack) (s : Store) :
    (GetAllAssets fmt stack s).2 = s := by
  unfold GetAllAssets
  cases JSON.stringifyOn fmt stack (.arr (collectResults s.getStateByRange [])) <;> rfl

theorem stringifyOn_of_le (fmt : List Char → List Char) (stack : CallStack) (v : JSON)
    (h : v.depth ≤ stack.depth) : JSON.stringifyOn fmt stack v = .ok (JSON.stringify fmt v) := by
  unfold JSON.stringifyOn
  rw [if_pos h]

theorem stringifyOn_of_lt (fmt : List Char → List Char) (stack : CallStack) (v : JSON)
    (h : stack.depth < v.depth) : JSON.stringifyOn fmt stack v = .error .rangeError := by
  unfold JSON.stringifyOn
  rw [if_neg (Nat.not_le.2 h)]

/-- The object literals of the contract never exhaust the call stack. -/
theorem stringifyOn_asset (fmt : List Char → List Char) (stack : CallStack) (a : Asset) :
    JSON.stringifyOn fmt stack (.obj a.toObject) = .ok (JSON.stringify fmt (.obj a.toObject)) := by
  apply stringifyOn_of_le
  have : (JSON.obj a.toObject).depth = 1 := by
    simp [Asset.toObject, JSON.depth, depthProps]
  have := stack.roomy
  omega

theorem depthList_le_iff (xs : List JSON) (d : Nat) :
    depthList xs ≤ d ↔ ∀ x ∈ xs, x.depth ≤ d := by
  induction xs with
  | nil => simp [depthList]
  | cons x xs ih => simp [depthList, ih]

theorem depth_entry (k : JSString) (r : JSON) :
    (JSON.obj [(jsString "Key", .str k), (jsString "Record", r)]).depth = r.depth + 1 := by
  simp [JSON.depth, depthProps]

theorem depth_nest (n : Nat) : (nest n).depth = n + 1 := by
  induction n with
  | zero => simp [nest, JSON.depth, depthList]
  | succ n ih => simp [nest, JSON.depth, depthList, ih]

theorem numberFree_nest (n : Nat) : (nest n).numberFree = true := by
  induction n with
  | zero => simp [nest, JSON.numberFree, numberFreeList]
  | succ n ih => simp [nest, JSON.numberFree, numberFreeList, ih]

theorem canonical_nest (n : Nat) : (nest n).canonical := by
  induction n with
  | zero => simp [nest, JSON.canonical, canonicalList]
  | succ n ih => simp [nest, JSON.canonical, canonicalList, ih]

theorem recordOf_nest (fmt : List Char → List Char) (n : Nat) :
    recordOf (JSON.stringify fmt (nest n)) = nest n := by
  unfold recordOf
  rw [parse_stringify fmt (nest n) (numberFree_nest n) (canonical_nest n)]

theorem GetAllAssets_deep (fmt : List Char → List Char) (stack : CallStack) :
    (GetAllAssets fmt stack
      (Store.empty.putState "k" (JSON.stringify fmt (nest stack.depth)))).1 =
        .error .rangeError := by
  rw [GetAllAssets_fst]
  apply stringifyOn_of_lt
  have h : collectResults (Store.empty.putState "k"
      (JSON.stringify fmt (nest stack.depth))).getStateByRange [] =
      [.obj [(jsString "Key", .str (jsString "k")),
             (jsString "Record", recordOf (JSON.stringify fmt (nest stack.depth)))]] := rfl
  rw [h, recordOf_nest]
  simp only [JSON.depth, depthList, depthProps, depth_nest]
  omega

theorem GetAllAssets_of_shallow (fmt : List Char → List Char) (stack : CallStack) (s : Store)
    (h : ∀ e ∈ s.getStateByRange, (recordOf e.2).depth + 2 ≤ stack.depth) :
    (GetAllAssets fmt stack s).1 = .ok (JSON.stringify fmt (.arr (s.getStateByRange.map fun e =>
      JSON.obj [(jsString "Key", .str (jsString e.1)), (jsString "Record", recordOf e.2)]))) := by
  rw [GetAllAssets_fst, collectResults_eq, List.nil_append]
  apply stringifyOn_of_le
  have hr := stack.roomy
  rw [JSON.depth]
  have : depthList (s.getStateByRange.map fun e =>
      JSON.obj [(jsString "Key", .str (jsString e.1)), (jsString "Record", recordOf e.2)])
      ≤ stack.depth - 1 := by
    rw [depthList_le_iff]
    intro x hx
    obtain ⟨e, he, hxe⟩ := List.mem_map.1 hx
    rw [← hxe, depth_entry]
    have := h e he
    omega
  omega

set_option maxRecDepth 100000 in
/-- C7: from the empty world state, `InitLedger` then `GetAllAssets` yields five
entries with keys `"001"`..`"005"` in ascending order, each `Record` being the
seeded literal with its `docType` tag, and returns their JSON text. -/
theorem seed_then_list (fmt : List Char → List Char) (stack : CallStack) :
    collectResults (InitLedger fmt Store.empty).2.getStateByRange [] =
      [.obj [(jsString "Key", .str (jsString "001")),
             (jsString "Record", .obj
               [(jsString "LotID", .str (jsString "001")),
                (jsString "PropagationMethod", .str (jsString "Seed")),
                (jsString "PropagationDate", .str (jsString "2021-03-05")),
                (jsString "PropagationQuantity", .str (jsString "1 gram")),
                (jsString "docType", .str (jsString "asset"))])],
       .obj [(jsString "Key", .str (jsString "002")),
             (jsString "Record", .obj
               [(jsString "LotID", .str (jsString "002")),
                (jsString "PropagationMethod", .str (jsString "Propagated Cuttings")),
                (jsString "PropagationDate", .str (jsString "2025-04-05")),
                (jsString "PropagationQuantity", .str (jsString "25 plants")),
                (jsString "docType", .str (jsString "asset"))])],
       .obj [(jsString "Key", .str (jsString "003")),
             (jsString "Record", .obj
               [(jsString "LotID", .str (jsString "003")),
                (jsString "PropagationMethod", .str (jsString "Seed")),
                (jsString "PropagationDate", .str (jsString "2050-06-09")),
                (jsString "PropagationQuantity", .str (jsString "2 grams")),
                (jsString "docType", .str (jsString "asset"))])],
       .obj [(jsString "Key", .str (jsString "004")),
             (jsString "Record", .obj
               [(jsString "LotID", .str (jsString "004")),
                (jsString "PropagationMethod", .str (jsString "Propagated Cuttings")),
                (jsString "PropagationDate", .str (jsString "2100-01-10")),
                (jsString "PropagationQuantity", .str (jsString "10 plants")),
                (jsString "docType", .str (jsString "asset"))])],
       .obj [(jsString "Key", .str (jsString "005")),
             (jsString "Record", .obj
               [(jsString "LotID", .str (jsString "005")),
                (jsString "PropagationMethod", .str (jsString "Seed")),
                (jsString "PropagationDate", .str (jsString "2121-09-05")),
                (jsString "PropagationQuantity", .str (jsString "1.5 grams")),
                (jsString "docType", .str (jsString "asset"))])]] ∧
    (GetAllAssets fmt stack (InitLedger fmt Store.empty).2).1 =
      .ok (JSON.stringify fmt
        (.arr (collectResults (InitLedger fmt Store.empty).2.getStateByRange []))) ∧
    (GetAllAssets fmt stack (InitLedger fmt Store.empty).2).1 =
      .ok ("[\x7b\"Key\":\"001\",\"Record\":\x7b\"LotID\":\"001\",\"PropagationMethod\":\"Seed\"," ++
        "\"PropagationDate\":\"2021-03-05\",\"PropagationQuantity\":\"1 gram\",\"docType\":\"asset\"\x7d\x7d" ++
        ",\x7b\"Key\":\"002\",\"Record\":\x7b\"LotID\":\"002\",\"PropagationMethod\":\"Propagated Cuttings\"," ++
        "\"PropagationDate\":\"2025-04-05\",\"PropagationQuantity\":\"25 plants\",\"docType\":\"asset\"\x7d\x7d" ++
        ",\x7b\"Key\":\"003\",\"Record\":\x7b\"LotID\":\"003\",\"PropagationMethod\":\"Seed\"," ++
        "\"PropagationDate\":\"2050-06-09\",\"PropagationQuantity\":\"2 grams\",\"docType\":\"asset\"\x7d\x7d" ++
        ",\x7b\"Key\":\"004\",\"Record\":\x7b\"LotID\":\"004\",\"PropagationMethod\":\"Propagated Cuttings\"," ++
        "\"PropagationDate\":\"2100-01-10\",\"PropagationQuantity\":\"10 plants\",\"docType\":\"asset\"\x7d\x7d" ++
        ",\x7b\"Key\":\"005\",\"Record\":\x7b\"LotID\":\"005\",\"PropagationMethod\":\"Seed\"," ++
        "\"PropagationDate\":\"2121-09-05\",\"PropagationQuantity\":\"1.5 grams\",\"docType\":\"asset\"\x7d\x7d]") ∧
    ((InitLedger fmt Store.empty).2.getStateByRange).map Prod.fst =
      ["001", "002", "003", "004", "005"] :=
  by
  have key : (GetAllAssets fmt stack (InitLedger fmt Store.empty).2).1 =
      .ok (JSON.stringify fmt
        (.arr (collectResults (InitLedger fmt Store.empty).2.getStateByRange []))) := by
    rw [GetAllAssets_fst]
    apply stringifyOn_of_le
    rw [seed_results fmt]
    have hr := stack.roomy
    simp only [JSON.depth, depthList, depthProps]
    omega
  refine ⟨seed_results fmt, key, ?_, rfl⟩
  rw [key, seed_results fmt]
  refine (congrArg Except.ok (stringify_fmt fmt id _ ?_)).trans (congrArg Except.ok ?_)
  · rfl
  · decide

/-- C8 (amended): `GetAllAssets` leaves the world state as it was and fails in one
way only, with the `RangeError` of `JSON.stringify` when the listing nests deeper
than the call stack holds, which a stored text of enough nested arrays brings
about on every call stack; otherwise, and so whenever every `Record` nests at
least two levels less deep than the call stack holds, it returns the JSON text of
one `{Key, Record}` object per stored key, in ascending key order; `Record` is the
value `JSON.parse` returns for the stored text whenever that text is valid JSON,
and the raw text only when `JSON.parse` throws; the empty world state gives
`[]`. -/
theorem list_all (fmt : List Char → List Char) (stack : CallStack) (s : Store) :
    (GetAllAssets fmt stack s).1 =
      (if (JSON.arr (s.getStateByRange.map fun e =>
          JSON.obj [(jsString "Key", .str (jsString e.1)),
                    (jsString "Record", recordOf e.2)])).depth ≤ stack.depth
       then .ok (JSON.stringify fmt (.arr (s.getStateByRange.map fun e =>
          JSON.obj [(jsString "Key", .str (jsString e.1)), (jsString "Record", recordOf e.2)])))
       else .error .rangeError) ∧
    (GetAllAssets fmt stack s).2 = s ∧
    (∀ k v, (k, v) ∈ s.getStateByRange ↔ s.find k = some v) ∧
    (s.getStateByRange.map Prod.fst).Pairwise keyLt ∧
    (∀ v record, JSON.parse v = .ok record → recordOf v = record) ∧
    (∀ v e, JSON.parse v = .error e → recordOf v = .str (jsString v)) ∧
    (GetAllAssets fmt stack Store.empty).1 = .ok "[]" ∧
    ((∀ e ∈ s.getStateByRange, (recordOf e.2).depth + 2 ≤ stack.depth) →
      (GetAllAssets fmt stack s).1 =
        .ok (JSON.stringify fmt (.arr (s.getStateByRange.map fun e =>
          JSON.obj [(jsString "Key", .str (jsString e.1)),
                    (jsString "Record", recordOf e.2)])))) ∧
    (GetAllAssets fmt stack
      (Store.empty.putState "k" (JSON.stringify fmt (nest stack.depth)))).1 =
        .error .rangeError := by
  refine ⟨?_, GetAllAssets_snd fmt stack s, ?_, ?_, ?_, ?_, ?_, GetAllAssets_of_shallow fmt stack s,
    GetAllAssets_deep fmt stack⟩
  · rw [GetAllAssets_fst, collectResults_eq, List.nil_append]
    rfl
  · intro k v
    exact ⟨findEntry_of_mem s.ascending, mem_of_findEntry⟩
  · exact List.pairwise_map.2 s.ascending
  · intro v record h
    simp only [recordOf, h]
  · intro v e h
    simp only [recordOf, h]
  · rw [GetAllAssets_fst]
    have hr := stack.roomy
    have : JSON.stringifyOn fmt stack (.arr (collectResults Store.empty.getStateByRange [])) =
        .ok (JSON.stringify fmt (.arr [])) :=
      stringifyOn_of_le fmt stack _ (by
        show (JSON.arr []).depth ≤ stack.depth
        simp only [JSON.depth, depthList]
        omega)
    rw [this]
    rfl

set_option maxRecDepth 8192 in
theorem list_all_witness :
    JSON.parse "not json" = .error .syntaxError ∧
      recordOf "not json" = .str (jsString "not json") ∧
    (∀ e ∈ (Store.empty.putState "k" "not json").getStateByRange,
      (recordOf e.2).depth + 2 ≤ CallStack.least.depth) ∧
    (GetAllAssets id CallStack.least (Store.empty.putState "k" "not json")).1 =
      .ok "[\x7b\"Key\":\"k\",\"Record\":\"not json\"\x7d]" :=
  ⟨rfl, (list_all id CallStack.least Store.empty).2.2.2.2.2.1 "not json" .syntaxError rfl,
   by decide,
   ((list_all id CallStack.least (Store.empty.putState "k" "not json")).2.2.2.2.2.2.2.1
      (by decide)).trans (congrArg Except.ok (by decide))⟩

set_option maxRecDepth 8192 in
theorem list_all_raw_counterexample :
    collectResults (Store.empty.putState "k" "true").getStateByRange [] =
        [.obj [(jsString "Key", .str (jsString "k")), (jsString "Record", .bool true)]] ∧
      (GetAllAssets id CallStack.least (Store.empty.putState "k" "true")).1 =
        .ok "[\x7b\"Key\":\"k\",\"Record\":true\x7d]" ∧
      specRecordOf "true" = .str (jsString "true") ∧
      recordOf "true" ≠ specRecordOf "true" ∧
      (∀ stack : CallStack,
        (GetAllAssets id stack
          (Store.empty.putState "k" (JSON.stringify id (nest stack.depth)))).1 =
            .error .rangeError) :=
  ⟨rfl, rfl, rfl, (by
    intro h
    have h1 : recordOf "true" = .bool true := rfl
    have h2 : specRecordOf "true" = .str (jsString "true") := rfl
    rw [h1, h2] at h
    cases h), GetAllAssets_deep id⟩

/-! ## Writes, sequences of transactions: claims -/

theorem OnLedger.putState_accept (l : Ledger) (k v : String) :
    OnLedger.putState accept l k v = (.ok (), ⟨l.state.putState k v, l.issued ++ [.put k v]⟩) :=
  rfl

theorem OnLedger.deleteState_accept (l : Ledger) (k : String) :
    OnLedger.deleteState accept l k =
      (.ok (), ⟨l.state.deleteState k, l.issued ++ [.delete k]⟩) :=
  rfl

theorem ReadAsset_missing (s : Store) (lotId : String)
    (h : (AssetExists s lotId).1 = .ok false) :
    ReadAsset s lotId = (.error (notExist lotId), s) := by
  rw [AssetExists_fst] at h
  have hb : decide ((s.getState lotId).length > 0) = false := by injection h
  have h0 : (s.getState lotId).length = 0 := by
    simp only [gt_iff_lt, decide_eq_false_iff_not, Nat.not_lt, Nat.le_zero_eq] at hb
    exact hb
  simp only [ReadAsset, h0, if_true]

/-- C11: when `AssetExists(lotId)` is false (key absent or value empty),
`ReadAsset` throws `Error("The asset <lotId> does not exist")`, `TransferAsset`
throws that same error and leaves the world state as it was, and it issues no
write to the stub, however the ledger would have answered one. -/
theorem transfer_missing (answer : Answer) (fmt : List Char → List Char) (l : Ledger)
    (lotId newOwner : String) (h : (AssetExists l.state lotId).1 = .ok false) :
    (ReadAsset l.state lotId).1 = .error (.error ("The asset " ++ lotId ++ " does not exist")) ∧
    TransferAsset fmt l.state lotId newOwner =
      (.error (.error ("The asset " ++ lotId ++ " does not exist")), l.state) ∧
    OnLedger.TransferAsset answer fmt l lotId newOwner =
      (.error (.error ("The asset " ++ lotId ++ " does not exist")), l) := by
  have hr := ReadAsset_missing l.state lotId h
  refine ⟨?_, ?_, ?_⟩
  · rw [hr]; rfl
  · simp only [TransferAsset, hr]; rfl
  · simp only [OnLedger.TransferAsset, hr]; rfl

theorem transfer_missing_witness :
    (AssetExists Store.empty "009").1 = .ok false ∧
    (ReadAsset Store.empty "009").1 =
      .error (.error ("The asset " ++ "009" ++ " does not exist")) ∧
    TransferAsset id Store.empty "009" "Ada" =
      (.error (.error ("The asset " ++ "009" ++ " does not exist")), Store.empty) ∧
    OnLedger.TransferAsset accept id ⟨Store.empty, []⟩ "009" "Ada" =
      (.error (.error ("The asset " ++ "009" ++ " does not exist")), ⟨Store.empty, []⟩) :=
  ⟨rfl, transfer_missing accept id ⟨Store.empty, []⟩ "009" "Ada" rfl⟩

theorem findEntry_eq_none_of_lt {k : String} {l : List Entry}
    (h : ∀ e ∈ l, keyLt k e.1) : findEntry k l = none := by
  induction l with
  | nil => rfl
  | cons hd t ih =>
    obtain ⟨k', v'⟩ := hd
    have hlt : keyLt k k' := h (k', v') (List.mem_cons_self _ _)
    have hne : ¬ k = k' := fun e => keyLt_irrefl k (by rw [← e] at hlt; exact hlt)
    simp only [findEntry, hne, if_false]
    exact ih (fun e he => h e (List.mem_cons_of_mem _ he))

theorem entries_eq_of_findEntry : ∀ (l₁ l₂ : List Entry), Ascending l₁ → Ascending l₂ →
    (∀ k, findEntry k l₁ = findEntry k l₂) → l₁ = l₂
  | [], [], _, _, _ => rfl
  | [], (k, v) :: t, _, _, h => by
    have := h k
    simp [findEntry] at this
  | (k, v) :: t, [], _, _, h => by
    have := h k
    simp [findEntry] at this
  | (k₁, v₁) :: t₁, (k₂, v₂) :: t₂, h₁, h₂, h => by
    have hd₁ := (List.pairwise_cons.1 h₁).1
    have hd₂ := (List.pairwise_cons.1 h₂).1
    have ht₁ := (List.pairwise_cons.1 h₁).2
    have ht₂ := (List.pairwise_cons.1 h₂).2
    have hk : k₁ = k₂ := by
      by_contra hne
      have e₁ : findEntry k₁ ((k₂, v₂) :: t₂) = some v₁ := by
        rw [← h k₁]; simp [findEntry]
      have e₂ : findEntry k₂ ((k₁, v₁) :: t₁) = some v₂ := by
        rw [h k₂]; simp [findEntry]
      have m₁ := mem_of_findEntry e₁
      have m₂ := mem_of_findEntry e₂
      rcases List.mem_cons.1 m₁ with m₁ | m₁
      · injection m₁ with a b; exact hne a
      rcases List.mem_cons.1 m₂ with m₂ | m₂
      · injection m₂ with a b; exact hne a.symm
      exact keyLt_irrefl k₁ (keyLt_trans (hd₁ _ m₂) (hd₂ _ m₁))
    subst hk
    have hv : v₁ = v₂ := by
      have := h k₁
      simp only [findEntry, if_true, Option.some.injEq] at this
      exact this
    subst hv
    have ht : t₁ = t₂ := by
      apply entries_eq_of_findEntry t₁ t₂ ht₁ ht₂
      intro k
      by_cases hk : k = k₁
      · subst hk
        rw [findEntry_eq_none_of_lt hd₁, findEntry_eq_none_of_lt hd₂]
      · have := h k
        simp only [findEntry, hk, if_false] at this
        exact this
    rw [ht]

theorem Store.ext_find {a b : Store} (h : ∀ k, a.find k = b.find k) : a = b :=
  Store.ext (entries_eq_of_findEntry _ _ a.ascending b.ascending h)

theorem Store.find_putState (s : Store) (k v k₀ : String) :
    (s.putState k v).find k₀ = if k₀ = k then some v else s.find k₀ := by
  by_cases h : k₀ = k
  · subst h
    rw [if_pos rfl, Store.find_putState_same]
  · rw [if_neg h, Store.find_putState_other s k v k₀ h]

theorem Store.find_deleteState (s : Store) (k k₀ : String) :
    (s.deleteState k).find k₀ = if k₀ = k then none else s.find k₀ := by
  by_cases h : k₀ = k
  · subst h
    rw [if_pos rfl, Store.find_deleteState_same]
  · rw [if_neg h, Store.find_deleteState_other s k k₀ h]

theorem Store.putState_comm (s : Store) (k₁ v₁ k₂ v₂ : String) (h : k₁ ≠ k₂) :
    (s.putState k₁ v₁).putState k₂ v₂ = (s.putState k₂ v₂).putState k₁ v₁ := by
  apply Store.ext_find
  intro k
  simp only [Store.find_putState]
  by_cases h1 : k = k₁
  · subst h1
    simp [h]
  · by_cases h2 : k = k₂
    · rw [if_pos h2, if_neg h1, if_pos h2]
    · rw [if_neg h2, if_neg h1, if_neg h1, if_neg h2]

theorem Store.putState_absorb (s : Store) (k v : String) (h : s.find k = some v) :
    s.putState k v = s := by
  apply Store.ext_find
  intro k₀
  rw [Store.find_putState]
  by_cases h1 : k₀ = k
  · subst h1; rw [if_pos rfl, h]
  · rw [if_neg h1]

theorem InitLedger_twice (fmt : List Char → List Char) (s : Store) :
    (InitLedger fmt (InitLedger fmt s).2).2 = (InitLedger fmt s).2 := by
  apply Store.ext_find
  intro k
  simp only [InitLedger_snd, Store.find_putState]
  split_ifs <;> rfl

theorem OnLedger.putState_issued (answer : Answer) (l : Ledger) (k v : String) :
    (OnLedger.putState answer l k v).2.issued = l.issued ++ [.put k v] := by
  unfold OnLedger.putState
  split <;> rfl

theorem OnLedger.putState_rejected (answer : Answer) (l : Ledger) (k v : String) (e : JSError)
    (h : answer l.state (.put k v) = some e) :
    OnLedger.putState answer l k v = (.error e, ⟨l.state, l.issued ++ [.put k v]⟩) := by
  unfold OnLedger.putState
  rw [h]

theorem OnLedger.initLoop_accept (fmt : List Char → List Char) (as : List Asset) (l : Ledger) :
    OnLedger.initLoop accept fmt as l =
      (.ok (), ⟨as.foldl (initAsset fmt) l.state,
        l.issued ++ as.map (fun a => Write.put a.LotID (OnLedger.seedText fmt a))⟩) := by
  induction as generalizing l with
  | nil => simp [OnLedger.initLoop]
  | cons a rest ih =>
    rw [OnLedger.initLoop, OnLedger.putState_accept]
    simp only [ih, List.foldl_cons, List.map_cons, List.append_assoc, List.singleton_append]
    rfl

theorem OnLedger.InitLedger_accept (fmt : List Char → List Char) (l : Ledger) :
    OnLedger.InitLedger accept fmt l =
      (.ok (), ⟨(AssetTransfer.InitLedger fmt l.state).2,
        l.issued ++ seedAssets.map (fun a => Write.put a.LotID (OnLedger.seedText fmt a))⟩) :=
  OnLedger.initLoop_accept fmt seedAssets l

theorem OnLedger.CreateAsset_accept (fmt : List Char → List Char) (l : Ledger)
    (lotId m d q : String) :
    (OnLedger.CreateAsset accept fmt l lotId m d q).1 =
        (AssetTransfer.CreateAsset fmt l.state lotId m d q).1 ∧
      (OnLedger.CreateAsset accept fmt l lotId m d q).2.state =
        (AssetTransfer.CreateAsset fmt l.state lotId m d q).2 :=
  ⟨rfl, rfl⟩

theorem OnLedger.UpdateAsset_accept (fmt : List Char → List Char) (l : Ledger)
    (lotId m d q : String) :
    (OnLedger.UpdateAsset accept fmt l lotId m d q).1 =
        (AssetTransfer.UpdateAsset fmt l.state lotId m d q).1 ∧
      (OnLedger.UpdateAsset accept fmt l lotId m d q).2.state =
        (AssetTransfer.UpdateAsset fmt l.state lotId m d q).2 := by
  cases hb : decide ((l.state.getState lotId).length > 0) <;>
    simp [OnLedger.UpdateAsset, AssetTransfer.UpdateAsset, AssetExists, hb,
      OnLedger.putState_accept]

theorem OnLedger.DeleteAsset_accept (l : Ledger) (lotId : String) :
    (OnLedger.DeleteAsset accept l lotId).1 = (AssetTransfer.DeleteAsset l.state lotId).1 ∧
      (OnLedger.DeleteAsset accept l lotId).2.state =
        (AssetTransfer.DeleteAsset l.state lotId).2 := by
  cases hb : decide ((l.state.getState lotId).length > 0) <;>
    simp [OnLedger.DeleteAsset, AssetTransfer.DeleteAsset, AssetExists, hb,
      OnLedger.deleteState_accept]

theorem OnLedger.TransferAsset_accept (fmt : List Char → List Char) (l : Ledger)
    (lotId newOwner : String) :
    (OnLedger.TransferAsset accept fmt l lotId newOwner).1 =
        (AssetTransfer.TransferAsset fmt l.state lotId newOwner).1 ∧
      (OnLedger.TransferAsset accept fmt l lotId newOwner).2.state =
        (AssetTransfer.TransferAsset fmt l.state lotId newOwner).2 := by
  unfold OnLedger.TransferAsset AssetTransfer.TransferAsset
  by_cases h0 : (l.state.getState lotId).length = 0
  · simp [ReadAsset, h0]
  · simp only [ReadAsset, h0, if_false]
    cases hp : JSON.parse (l.state.getState lotId) with
    | error e => exact ⟨rfl, rfl⟩
    | ok v =>
      cases ha : assignProp v (jsString "Owner") (JSON.str (jsString newOwner)) with
      | error e => simp [ha]
      | ok v' => simp [ha, OnLedger.putState_accept]

theorem replaceProp_same {k : JSString} {v : JSON} {ps : List (JSString × JSON)}
    (h : getProp k ps = some v) : replaceProp k v ps = ps := by
  induction ps with
  | nil => rfl
  | cons hd t ih =>
    obtain ⟨k', v'⟩ := hd
    by_cases hk : k = k'
    · subst hk
      simp only [getProp, if_true, Option.some.injEq] at h
      simp [replaceProp, h]
    · simp only [getProp, hk, if_false] at h
      simp [replaceProp, hk, ih h]

theorem hasProp_of_getProp {k : JSString} {v : JSON} {ps : List (JSString × JSON)}
    (h : getProp k ps = some v) : hasProp k ps = true := by
  cases hh : hasProp k ps with
  | true => rfl
  | false => rw [getProp_eq_none hh] at h; cases h

theorem setProp_of_getProp {k : JSString} {v : JSON} {ps : List (JSString × JSON)}
    (h : getProp k ps = some v) : setProp ps k v = ps := by
  unfold setProp
  rw [hasProp_of_getProp h, if_pos rfl, replaceProp_same h]

theorem setProp_setProp (ps : List (JSString × JSON)) (k : JSString) (v : JSON) :
    setProp (setProp ps k v) k v = setProp ps k v :=
  setProp_of_getProp (getProp_setProp_same ps k v)

theorem AssetExists_of_read_putState (fmt : List Char → List Char) (s : Store) (k : String)
    (ps : List (JSString × JSON)) :
    decide (((s.putState k (JSON.stringify fmt (.obj ps))).getState k).length > 0) = true := by
  rw [Store.getState_putState_same]
  simp [stringify_length_pos_obj]

theorem AssetExists_bool (s : Store) (k : String) :
    (AssetExists s k).1 = .ok true ∨ (AssetExists s k).1 = .ok false := by
  rw [AssetExists_fst]
  cases decide ((s.getState k).length > 0)
  · exact Or.inr rfl
  · exact Or.inl rfl

theorem UpdateAsset_cases (fmt : List Char → List Char) (s : Store)
    (lotId method date quantity : String) :
    ((AssetExists s lotId).1 = .ok false ∧
      UpdateAsset fmt s lotId method date quantity = (.error (notExist lotId), s)) ∨
    ((AssetExists s lotId).1 = .ok true ∧
      UpdateAsset fmt s lotId method date quantity =
        (.ok (), s.putState lotId
          (JSON.stringify fmt (.obj (Asset.toObject ⟨lotId, method, date, quantity⟩))))) := by
  cases hb : decide ((s.getState lotId).length > 0) with
  | false =>
    left
    refine ⟨by rw [AssetExists_fst, hb], ?_⟩
    simp only [UpdateAsset, AssetExists, hb]
    rfl
  | true =>
    right
    refine ⟨by rw [AssetExists_fst, hb], ?_⟩
    simp only [UpdateAsset, AssetExists, hb]
    rfl

theorem DeleteAsset_cases (s : Store) (lotId : String) :
    ((AssetExists s lotId).1 = .ok false ∧
      DeleteAsset s lotId = (.error (notExist lotId), s)) ∨
    ((AssetExists s lotId).1 = .ok true ∧
      DeleteAsset s lotId = (.ok (), s.deleteState lotId)) := by
  cases hb : decide ((s.getState lotId).length > 0) with
  | false =>
    left
    refine ⟨by rw [AssetExists_fst, hb], ?_⟩
    simp only [DeleteAsset, AssetExists, hb]
    rfl
  | true =>
    right
    refine ⟨by rw [AssetExists_fst, hb], ?_⟩
    simp only [DeleteAsset, AssetExists, hb]
    rfl

theorem TransferAsset_cases (fmt : List Char → List Char) (s : Store)
    (lotId newOwner : String) :
    (∃ e, TransferAsset fmt s lotId newOwner = (.error e, s)) ∨
    (∃ v v', (AssetExists s lotId).1 = .ok true ∧
      JSON.parse (s.getState lotId) = .ok v ∧
      assignProp v (jsString "Owner") (.str (jsString newOwner)) = .ok v' ∧
      TransferAsset fmt s lotId newOwner =
        (.ok (), s.putState lotId (JSON.stringify fmt v'))) := by
  unfold TransferAsset
  by_cases h0 : (s.getState lotId).length = 0
  · left
    exact ⟨notExist lotId, by simp [ReadAsset, h0]⟩
  · simp only [ReadAsset, h0, if_false]
    cases hp : JSON.parse (s.getState lotId) with
    | error e => exact Or.inl ⟨e, rfl⟩
    | ok v =>
      cases ha : assignProp v (jsString "Owner") (JSON.str (jsString newOwner)) with
      | error e => exact Or.inl ⟨e, by simp only [ha]⟩
      | ok v' =>
        right
        refine ⟨v, v', ?_, rfl, ha, by simp only [ha]⟩
        rw [AssetExists_fst]
        have : decide ((s.getState lotId).length > 0) = true := by
          simp only [gt_iff_lt, decide_eq_true_eq]
          omega
        rw [this]

theorem assignProp_ok_length (fmt : List Char → List Char) {v v' : JSON} {k : JSString}
    {x : JSON} (h : assignProp v k x = .ok v') : 0 < (JSON.stringify fmt v').length := by
  cases v with
  | obj ps =>
    simp only [assignProp, Except.ok.injEq] at h
    rw [← h]
    exact stringify_length_pos_obj fmt _
  | arr xs =>
    simp only [assignProp, Except.ok.injEq] at h
    rw [← h]
    exact stringify_length_pos_arr fmt _
  | null => simp [assignProp] at h
  | bool b => simp [assignProp] at h
  | num n => simp [assignProp] at h
  | str t => simp [assignProp] at h

theorem AssetExists_putState_pos (s : Store) (k v k₀ : String) (h : 0 < v.length) :
    (AssetExists (s.putState k v) k₀).1 =
      if k₀ = k then .ok true else (AssetExists s k₀).1 := by
  by_cases hk : k₀ = k
  · subst hk
    rw [if_pos rfl, AssetExists_fst, Store.getState_putState_same]
    simp [h]
  · rw [if_neg hk, AssetExists_fst, AssetExists_fst, getState_putState_other _ _ _ _ hk]

theorem getState_deleteState_other (s : Store) (k k₀ : String) (h : k₀ ≠ k) :
    (s.deleteState k).getState k₀ = s.getState k₀ := by
  simp [Store.getState, Store.find_deleteState_other s k k₀ h]

theorem AssetExists_deleteState (s : Store) (k k₀ : String) :
    (AssetExists (s.deleteState k) k₀).1 =
      if k₀ = k then .ok false else (AssetExists s k₀).1 := by
  by_cases hk : k₀ = k
  · subst hk
    rw [if_pos rfl, AssetExists_fst, getState_deleteState_same]
    rfl
  · rw [if_neg hk, AssetExists_fst, AssetExists_fst, getState_deleteState_other _ _ _ hk]

theorem AssetExists_CreateAsset (fmt : List Char → List Char) (s : Store)
    (lotId m d q k : String) :
    (AssetExists (CreateAsset fmt s lotId m d q).2 k).1 =
      if k = lotId then .ok true else (AssetExists s k).1 :=
  AssetExists_putState_pos s lotId _ k (stringify_length_pos_obj fmt _)

theorem AssetExists_UpdateAsset (fmt : List Char → List Char) (s : Store)
    (lotId m d q k : String) :
    (AssetExists (UpdateAsset fmt s lotId m d q).2 k).1 = (AssetExists s k).1 := by
  rcases UpdateAsset_cases fmt s lotId m d q with ⟨_, h⟩ | ⟨hx, h⟩
  · rw [h]
  · rw [h]
    show (AssetExists (s.putState lotId _) k).1 = _
    rw [AssetExists_putState_pos _ _ _ _ (stringify_length_pos_obj fmt _)]
    by_cases hk : k = lotId
    · rw [if_pos hk, hk, hx]
    · rw [if_neg hk]

theorem AssetExists_TransferAsset (fmt : List Char → List Char) (s : Store)
    (lotId newOwner k : String) :
    (AssetExists (TransferAsset fmt s lotId newOwner).2 k).1 = (AssetExists s k).1 := by
  rcases TransferAsset_cases fmt s lotId newOwner with ⟨e, h⟩ | ⟨v, v', hx, _, ha, h⟩
  · rw [h]
  · rw [h]
    show (AssetExists (s.putState lotId _) k).1 = _
    rw [AssetExists_putState_pos _ _ _ _ (assignProp_ok_length fmt ha)]
    by_cases hk : k = lotId
    · rw [if_pos hk, hk, hx]
    · rw [if_neg hk]

theorem AssetExists_DeleteAsset (s : Store) (lotId k : String) :
    (AssetExists (DeleteAsset s lotId).2 k).1 =
      if k = lotId then .ok false else (AssetExists s k).1 := by
  rcases DeleteAsset_cases s lotId with ⟨hx, h⟩ | ⟨_, h⟩
  · rw [h]
    by_cases hk : k = lotId
    · rw [if_pos hk, hk, hx]
    · rw [if_neg hk]
  · rw [h]
    exact AssetExists_deleteState s lotId k

theorem AssetExists_InitLedger_other (fmt : List Char → List Char) (s : Store) (k : String)
    (h : k ∉ ["001", "002", "003", "004", "005"]) :
    (AssetExists (InitLedger fmt s).2 k).1 = (AssetExists s k).1 := by
  simp only [List.mem_cons, List.mem_singleton, List.not_mem_nil, or_false, not_or] at h
  obtain ⟨h1, h2, h3, h4, h5⟩ := h
  rw [InitLedger_snd, AssetExists_fst, AssetExists_fst, getState_putState_other _ _ _ _ h5,
    getState_putState_other _ _ _ _ h4, getState_putState_other _ _ _ _ h3,
    getState_putState_other _ _ _ _ h2, getState_putState_other _ _ _ _ h1]

theorem find_InitLedger_other (fmt : List Char → List Char) (s : Store) (k : String)
    (h : k ∉ ["001", "002", "003", "004", "005"]) :
    (InitLedger fmt s).2.find k = s.find k := by
  simp only [List.mem_cons, List.mem_singleton, List.not_mem_nil, or_false, not_or] at h
  obtain ⟨h1, h2, h3, h4, h5⟩ := h
  rw [InitLedger_snd, Store.find_putState_other _ _ _ _ h5,
    Store.find_putState_other _ _ _ _ h4, Store.find_putState_other _ _ _ _ h3,
    Store.find_putState_other _ _ _ _ h2, Store.find_putState_other _ _ _ _ h1]

/-- C17: `UpdateAsset` and `TransferAsset` leave `AssetExists` of every key as it
was; an invocation that takes a key from absent to present is `CreateAsset` of
that key or `InitLedger` (for one of `"001"`..`"005"`); an invocation that takes
a key from present to absent is a successful `DeleteAsset` of that key, after
which `ReadAsset` of it throws `Error("The asset <key> does not exist")`. -/
theorem record_state_machine (fmt : List Char → List Char) (s : Store) :
    (∀ lotId method date quantity k : String,
      (UpdateAsset fmt s lotId method date quantity).1 = .ok () →
      (AssetExists (UpdateAsset fmt s lotId method date quantity).2 k).1 =
        (AssetExists s k).1) ∧
    (∀ lotId newOwner k : String,
      (TransferAsset fmt s lotId newOwner).1 = .ok () →
      (AssetExists (TransferAsset fmt s lotId newOwner).2 k).1 = (AssetExists s k).1) ∧
    (∀ (op : Op) (k : String),
      (AssetExists s k).1 = .ok false → (AssetExists (op.run fmt s) k).1 = .ok true →
      (∃ method date quantity, op = .CreateAsset k method date quantity) ∨
        (op = .InitLedger ∧ k ∈ ["001", "002", "003", "004", "005"])) ∧
    (∀ (op : Op) (k : String),
      (AssetExists s k).1 = .ok true → (AssetExists (op.run fmt s) k).1 = .ok false →
      op = .DeleteAsset k ∧ (DeleteAsset s k).1 = .ok () ∧
        (ReadAsset (op.run fmt s) k).1 =
          .error (.error ("The asset " ++ k ++ " does not exist"))) := by
  refine ⟨?_, ?_, ?_, ?_⟩
  · intro lotId method date quantity k _
    exact AssetExists_UpdateAsset fmt s lotId method date quantity k
  · intro lotId newOwner k _
    exact AssetExists_TransferAsset fmt s lotId newOwner k
  · intro op k h0 h1
    cases op with
    | InitLedger =>
      right
      refine ⟨rfl, ?_⟩
      by_contra hk
      have := AssetExists_InitLedger_other fmt s k hk
      simp only [Op.run] at h1
      rw [this, h0] at h1
      cases h1
    | CreateAsset lotId m d q =>
      left
      simp only [Op.run] at h1
      rw [AssetExists_CreateAsset] at h1
      by_cases hk : k = lotId
      · exact ⟨m, d, q, by rw [hk]⟩
      · rw [if_neg hk, h0] at h1
        cases h1
    | UpdateAsset lotId m d q =>
      simp only [Op.run] at h1
      rw [AssetExists_UpdateAsset, h0] at h1
      cases h1
    | DeleteAsset lotId =>
      simp only [Op.run] at h1
      rw [AssetExists_DeleteAsset] at h1
      by_cases hk : k = lotId
      · rw [if_pos hk] at h1; cases h1
      · rw [if_neg hk, h0] at h1; cases h1
    | TransferAsset lotId o =>
      simp only [Op.run] at h1
      rw [AssetExists_TransferAsset, h0] at h1
      cases h1
  · intro op k h1 h0
    cases op with
    | InitLedger =>
      exfalso
      simp only [Op.run] at h0
      by_cases hk : k ∈ ["001", "002", "003", "004", "005"]
      · rw [AssetExists_InitLedger fmt s k hk] at h0
        cases h0
      · rw [AssetExists_InitLedger_other fmt s k hk, h1] at h0
        cases h0
    | CreateAsset lotId m d q =>
      exfalso
      simp only [Op.run] at h0
      rw [AssetExists_CreateAsset] at h0
      by_cases hk : k = lotId
      · rw [if_pos hk] at h0; cases h0
      · rw [if_neg hk, h1] at h0; cases h0
    | UpdateAsset lotId m d q =>
      exfalso
      simp only [Op.run] at h0
      rw [AssetExists_UpdateAsset, h1] at h0
      cases h0
    | DeleteAsset lotId =>
      simp only [Op.run] at h0 ⊢
      by_cases hk : k = lotId
      · subst hk
        rcases DeleteAsset_cases s k with ⟨hx, _⟩ | ⟨_, h⟩
        · rw [h1] at hx; cases hx
        · refine ⟨rfl, by rw [h], ?_⟩
          rw [ReadAsset_missing _ _ h0]
          rfl
      · rw [AssetExists_DeleteAsset, if_neg hk, h1] at h0
        cases h0
    | TransferAsset lotId o =>
      exfalso
      simp only [Op.run] at h0
      rw [AssetExists_TransferAsset, h1] at h0
      cases h0

/-- C12 (what the code does): when the ledger rejects the put of `CreateAsset`,
`CreateAsset` still resolves with the serialised asset, the put having been
issued and the world state left as it was; `UpdateAsset`, which returns the
promise of the same put, throws the rejection. -/
theorem create_ignores_rejected_put (answer : Answer) (fmt : List Char → List Char)
    (l : Ledger) (lotId method date quantity : String) (e : JSError)
    (h : answer l.state (.put lotId
      (JSON.stringify fmt (.obj (Asset.toObject ⟨lotId, method, date, quantity⟩)))) = some e) :
    OnLedger.CreateAsset answer fmt l lotId method date quantity =
      (.ok (JSON.stringify fmt (.obj (Asset.toObject ⟨lotId, method, date, quantity⟩))),
       ⟨l.state, l.issued ++ [.put lotId
          (JSON.stringify fmt (.obj (Asset.toObject ⟨lotId, method, date, quantity⟩)))]⟩) ∧
    ((AssetExists l.state lotId).1 = .ok true →
      (OnLedger.UpdateAsset answer fmt l lotId method date quantity).1 = .error e) := by
  constructor
  · unfold OnLedger.CreateAsset
    simp only [OnLedger.putState_rejected answer l lotId _ e h]
  · intro hx
    rw [AssetExists_fst] at hx
    have hb : decide ((l.state.getState lotId).length > 0) = true := by injection hx
    simp only [OnLedger.UpdateAsset, AssetExists, hb, Bool.not_true, Bool.false_eq_true,
      if_false, OnLedger.putState_rejected answer l lotId _ e h]

set_option maxRecDepth 8192 in
theorem create_ignores_rejected_put_witness :
    reject (.error "ledger unavailable") Store.empty (.put "L7"
      (JSON.stringify id (.obj (Asset.toObject ⟨"L7", "Seed", "2021-03-05", "1 gram"⟩)))) =
        some (.error "ledger unavailable") ∧
    (OnLedger.CreateAsset (reject (.error "ledger unavailable")) id ⟨Store.empty, []⟩
        "L7" "Seed" "2021-03-05" "1 gram").1 =
      .ok ("\x7b\"LotID\":\"L7\",\"PropagationMethod\":\"Seed\"," ++
        "\"PropagationDate\":\"2021-03-05\",\"PropagationQuantity\":\"1 gram\"\x7d") ∧
    (OnLedger.CreateAsset (reject (.error "ledger unavailable")) id ⟨Store.empty, []⟩
        "L7" "Seed" "2021-03-05" "1 gram").2.state = Store.empty ∧
    (OnLedger.InitLedger (reject (.error "ledger unavailable")) id ⟨Store.empty, []⟩).1 =
      .error (.error "ledger unavailable") :=
  ⟨rfl,
   congrArg Prod.fst (create_ignores_rejected_put (reject (.error "ledger unavailable")) id
      ⟨Store.empty, []⟩ "L7" "Seed" "2021-03-05" "1 gram" (.error "ledger unavailable") rfl).1,
   rfl, rfl⟩

set_option maxRecDepth 8192 in
/-- C13 (what the code does): the text `CreateAsset` returns and stores and the
text `UpdateAsset` stores hold the four fields and no `docType`, while the text
`InitLedger` stores for a seeded lot ends with `"docType":"asset"`; for any
asset literal the serialised object parses back to an object without a `docType`
property. -/
theorem create_update_write_no_docType :
    (CreateAsset id Store.empty "L7" "Seed" "2021-03-05" "1 gram").1 =
      .ok ("\x7b\"LotID\":\"L7\",\"PropagationMethod\":\"Seed\"," ++
        "\"PropagationDate\":\"2021-03-05\",\"PropagationQuantity\":\"1 gram\"\x7d") ∧
    (CreateAsset id Store.empty "L7" "Seed" "2021-03-05" "1 gram").2.find "L7" =
      some ("\x7b\"LotID\":\"L7\",\"PropagationMethod\":\"Seed\"," ++
        "\"PropagationDate\":\"2021-03-05\",\"PropagationQuantity\":\"1 gram\"\x7d") ∧
    (UpdateAsset id (CreateAsset id Store.empty "L7" "Seed" "2021-03-05" "1 gram").2
        "L7" "Cutting" "2022-01-01" "3 plants").2.find "L7" =
      some ("\x7b\"LotID\":\"L7\",\"PropagationMethod\":\"Cutting\"," ++
        "\"PropagationDate\":\"2022-01-01\",\"PropagationQuantity\":\"3 plants\"\x7d") ∧
    (InitLedger id Store.empty).2.find "001" =
      some ("\x7b\"LotID\":\"001\",\"PropagationMethod\":\"Seed\"," ++
        "\"PropagationDate\":\"2021-03-05\",\"PropagationQuantity\":\"1 gram\"," ++
        "\"docType\":\"asset\"\x7d") ∧
    (∀ (fmt : List Char → List Char) (a : Asset),
      hasProp (jsString "docType") a.toObject = false ∧
      JSON.parse (JSON.stringify fmt (.obj a.toObject)) = .ok (.obj a.toObject)) := by
  refine ⟨rfl, by decide, by decide, by decide, fun fmt a => ⟨?_, parse_stringify_asset fmt a⟩⟩
  simp only [Asset.toObject, hasProp, Bool.or_false, Bool.or_eq_false_iff,
    decide_eq_false_iff_not]
  refine ⟨?_, ?_, ?_, ?_⟩ <;> decide

/-- C15: `InitLedger` succeeds on every world state, a second run succeeds too
and leaves the world state of the first run, and against a ledger that commits
every write it issues exactly five puts, under `"001"`..`"005"` in that order,
one per seeded record. -/
theorem init_idempotent (fmt : List Char → List Char) (s : Store) :
    (InitLedger fmt s).1 = .ok () ∧
    (InitLedger fmt (InitLedger fmt s).2).1 = .ok () ∧
    (InitLedger fmt (InitLedger fmt s).2).2 = (InitLedger fmt s).2 ∧
    (∀ issued : List Write, OnLedger.InitLedger accept fmt ⟨s, issued⟩ =
      (.ok (), ⟨(InitLedger fmt s).2,
        issued ++ [.put "001" (OnLedger.seedText fmt ⟨"001", "Seed", "2021-03-05", "1 gram"⟩),
          .put "002" (OnLedger.seedText fmt
            ⟨"002", "Propagated Cuttings", "2025-04-05", "25 plants"⟩),
          .put "003" (OnLedger.seedText fmt ⟨"003", "Seed", "2050-06-09", "2 grams"⟩),
          .put "004" (OnLedger.seedText fmt
            ⟨"004", "Propagated Cuttings", "2100-01-10", "10 plants"⟩),
          .put "005" (OnLedger.seedText fmt ⟨"005", "Seed", "2121-09-05", "1.5 grams"⟩)]⟩)) :=
  ⟨rfl, rfl, InitLedger_twice fmt s, fun issued => OnLedger.InitLedger_accept fmt ⟨s, issued⟩⟩

theorem goodEntry_asset (fmt : List Char → List Char) (a : Asset) :
    GoodEntry a.LotID (JSON.stringify fmt (.obj a.toObject)) :=
  ⟨a.toObject, parse_stringify_asset fmt a, asset_numberFree a, by simp [Asset.toObject, getProp]⟩

theorem goodEntry_setProp (fmt : List Char → List Char) (k v : String)
    (ps : List (JSString × JSON)) (key : JSString) (x : JSString)
    (hp : JSON.parse v = .ok (.obj ps)) (hnf : numberFreeProps ps = true)
    (hl : getProp (jsString "LotID") ps = some (.str (jsString k)))
    (hkey : jsString "LotID" ≠ key) :
    GoodEntry k (JSON.stringify fmt (.obj (setProp ps key (.str x)))) := by
  have hc := parse_ok_canonical _ _ hp
  refine ⟨setProp ps key (.str x), ?_, setProp_numberFreeProps ps _ _ hnf rfl, ?_⟩
  · apply parse_stringify
    · exact setProp_numberFreeProps ps _ _ hnf rfl
    · exact ⟨setProp_canonKeys ps _ _ hc.1, setProp_canonicalProps ps _ _ hc.2 trivial⟩
  · rw [getProp_setProp_other ps key _ _ hkey, hl]

theorem goodEntry_seed (fmt : List Char → List Char) (a : Asset) :
    GoodEntry a.LotID (OnLedger.seedText fmt a) := by
  obtain ⟨ps, hp, hnf, hl⟩ := goodEntry_asset fmt a
  have hps : ps = a.toObject := by
    rw [parse_stringify_asset] at hp
    injection hp with hp
    injection hp with hp
    exact hp.symm
  subst hps
  exact goodEntry_setProp fmt a.LotID _ a.toObject (jsString "docType") (jsString "asset")
    hp hnf hl (by decide)

theorem goodEntry_ne_empty {k v : String} (h : GoodEntry k v) : v ≠ "" := by
  obtain ⟨ps, hp, _, _⟩ := h
  intro hv
  rw [hv, parse_empty] at hp
  cases hp

theorem keyed_empty : KeyedByLotID Store.empty := by
  intro k v h
  cases h

theorem keyed_putState {s : Store} {k v : String} (hs : KeyedByLotID s) (h : GoodEntry k v) :
    KeyedByLotID (s.putState k v) := by
  intro k₀ v₀ hf
  rw [Store.find_putState] at hf
  by_cases hk : k₀ = k
  · rw [if_pos hk] at hf
    injection hf with hf
    rw [hk, ← hf]
    exact h
  · rw [if_neg hk] at hf
    exact hs k₀ v₀ hf

theorem keyed_deleteState {s : Store} (k : String) (hs : KeyedByLotID s) :
    KeyedByLotID (s.deleteState k) := by
  intro k₀ v₀ hf
  rw [Store.find_deleteState] at hf
  by_cases hk : k₀ = k
  · rw [if_pos hk] at hf; cases hf
  · rw [if_neg hk] at hf
    exact hs k₀ v₀ hf

theorem find_of_exists {s : Store} {k : String} (h : (AssetExists s k).1 = .ok true) :
    s.find k = some (s.getState k) := by
  rw [AssetExists_fst] at h
  have hb : decide ((s.getState k).length > 0) = true := by injection h
  simp only [gt_iff_lt, decide_eq_true_eq] at hb
  unfold Store.getState at hb ⊢
  cases hf : s.find k with
  | none => rw [hf] at hb; exact absurd hb (by decide)
  | some v => rfl

theorem keyed_initAssets (fmt : List Char → List Char) (as : List Asset) (s : Store)
    (hs : KeyedByLotID s) : KeyedByLotID (as.foldl (initAsset fmt) s) := by
  induction as generalizing s with
  | nil => exact hs
  | cons a rest ih =>
    rw [List.foldl_cons]
    exact ih _ (keyed_putState hs (goodEntry_seed fmt a))

theorem goodEntry_transfer (fmt : List Char → List Char) (s : Store) (lotId newOwner : String)
    (v v' : JSON) (hg : GoodEntry lotId (s.getState lotId))
    (hp : JSON.parse (s.getState lotId) = .ok v)
    (ha : assignProp v (jsString "Owner") (.str (jsString newOwner)) = .ok v') :
    GoodEntry lotId (JSON.stringify fmt v') := by
  obtain ⟨ps, hps, hnf, hl⟩ := hg
  rw [hps] at hp
  injection hp with hp
  subst hp
  simp only [assignProp, Except.ok.injEq] at ha
  subst ha
  exact goodEntry_setProp fmt lotId _ ps _ _ hps hnf hl (by decide)

theorem keyed_run (fmt : List Char → List Char) (s : Store) (op : Op)
    (hs : KeyedByLotID s) : KeyedByLotID (op.run fmt s) := by
  cases op with
  | InitLedger => exact keyed_initAssets fmt seedAssets s hs
  | CreateAsset lotId m d q =>
    exact keyed_putState hs (goodEntry_asset fmt ⟨lotId, m, d, q⟩)
  | UpdateAsset lotId m d q =>
    simp only [Op.run]
    rcases UpdateAsset_cases fmt s lotId m d q with ⟨_, h⟩ | ⟨_, h⟩
    · rw [h]; exact hs
    · rw [h]; exact keyed_putState hs (goodEntry_asset fmt ⟨lotId, m, d, q⟩)
  | DeleteAsset lotId =>
    simp only [Op.run]
    rcases DeleteAsset_cases s lotId with ⟨_, h⟩ | ⟨_, h⟩
    · rw [h]; exact hs
    · rw [h]; exact keyed_deleteState lotId hs
  | TransferAsset lotId o =>
    simp only [Op.run]
    rcases TransferAsset_cases fmt s lotId o with ⟨e, h⟩ | ⟨v, v', hx, hp, ha, h⟩
    · rw [h]; exact hs
    · rw [h]
      exact keyed_putState hs
        (goodEntry_transfer fmt s lotId o v v' (hs _ _ (find_of_exists hx)) hp ha)

theorem keyed_of_reachable (fmt : List Char → List Char) (s : Store)
    (h : Reachable fmt s) : KeyedByLotID s := by
  induction h with
  | empty => exact keyed_empty
  | step s op _ ih => exact keyed_run fmt s op ih

/-- C14: if `UpdateAsset(lotId, m, d, q)` succeeds, running it again succeeds and
leaves the same world state; if the value under `lotId` parses to an object
holding no number, `TransferAsset(lotId, o)` succeeds, and running it again
succeeds and leaves the same world state (so the same stored text); every
existing key of a world state reachable through the service is such a value. -/
theorem update_transfer_idempotent (fmt : List Char → List Char) (s : Store) (lotId : String) :
    (∀ method date quantity : String,
      (UpdateAsset fmt s lotId method date quantity).1 = .ok () →
      UpdateAsset fmt (UpdateAsset fmt s lotId method date quantity).2 lotId method date quantity
        = (.ok (), (UpdateAsset fmt s lotId method date quantity).2)) ∧
    (∀ (newOwner : String) (ps : List (JSString × JSON)),
      JSON.parse (s.getState lotId) = .ok (.obj ps) → numberFreeProps ps = true →
      (TransferAsset fmt s lotId newOwner).1 = .ok () ∧
      TransferAsset fmt (TransferAsset fmt s lotId newOwner).2 lotId newOwner
        = (.ok (), (TransferAsset fmt s lotId newOwner).2)) ∧
    (Reachable fmt s → (AssetExists s lotId).1 = .ok true →
      ∃ ps, JSON.parse (s.getState lotId) = .ok (.obj ps) ∧ numberFreeProps ps = true) := by
  refine ⟨?_, ?_, ?_⟩
  · intro method date quantity h
    rw [UpdateAsset_ok fmt s lotId method date quantity h]
    simp only [UpdateAsset, AssetExists, AssetExists_of_read_putState]
    simp only [Bool.not_true, Bool.false_eq_true, if_false, Store.putState_putState]
  · intro newOwner ps hrec hnf
    have hc := parse_ok_canonical _ _ hrec
    rw [TransferAsset_obj fmt s lotId newOwner ps hrec]
    refine ⟨rfl, ?_⟩
    have hp : JSON.parse ((s.putState lotId (JSON.stringify fmt
        (.obj (setProp ps (jsString "Owner") (.str (jsString newOwner)))))).getState lotId) =
        .ok (.obj (setProp ps (jsString "Owner") (.str (jsString newOwner)))) := by
      rw [Store.getState_putState_same]
      apply parse_stringify
      · exact setProp_numberFreeProps ps _ _ hnf rfl
      · exact ⟨setProp_canonKeys ps _ _ hc.1, setProp_canonicalProps ps _ _ hc.2 trivial⟩
    rw [TransferAsset_obj fmt _ lotId newOwner _ hp, setProp_setProp, Store.putState_putState]
  · intro hr hx
    obtain ⟨ps, hp, hnf, _⟩ := keyed_of_reachable fmt s hr _ _ (find_of_exists hx)
    exact ⟨ps, hp, hnf⟩

set_option maxRecDepth 8192 in
theorem update_transfer_idempotent_witness :
    (UpdateAsset id (CreateAsset id Store.empty "L7" "Seed" "2021-03-05" "1 gram").2
        "L7" "Cutting" "2022-01-01" "3 plants").1 = .ok () ∧
    UpdateAsset id (UpdateAsset id (CreateAsset id Store.empty "L7" "Seed" "2021-03-05"
        "1 gram").2 "L7" "Cutting" "2022-01-01" "3 plants").2 "L7" "Cutting" "2022-01-01"
        "3 plants" =
      (.ok (), (UpdateAsset id (CreateAsset id Store.empty "L7" "Seed" "2021-03-05"
        "1 gram").2 "L7" "Cutting" "2022-01-01" "3 plants").2) ∧
    JSON.parse ((CreateAsset id Store.empty "L7" "Seed" "2021-03-05" "1 gram").2.getState "L7") =
      .ok (.obj (Asset.toObject ⟨"L7", "Seed", "2021-03-05", "1 gram"⟩)) ∧
    TransferAsset id (TransferAsset id (CreateAsset id Store.empty "L7" "Seed" "2021-03-05"
        "1 gram").2 "L7" "Ada").2 "L7" "Ada" =
      (.ok (), (TransferAsset id (CreateAsset id Store.empty "L7" "Seed" "2021-03-05"
        "1 gram").2 "L7" "Ada").2) :=
  ⟨rfl,
   (update_transfer_idempotent id (CreateAsset id Store.empty "L7" "Seed" "2021-03-05"
      "1 gram").2 "L7").1 "Cutting" "2022-01-01" "3 plants" rfl,
   rfl,
   ((update_transfer_idempotent id (CreateAsset id Store.empty "L7" "Seed" "2021-03-05"
      "1 gram").2 "L7").2.1 "Ada" _ rfl rfl).2⟩

/-- C18: in every world state reachable from the empty one by `InitLedger`,
`CreateAsset`, `UpdateAsset`, `TransferAsset` and `DeleteAsset` invocations, every
stored value is non-empty and parses to an object whose `LotID` is its key; so
every `Record` of `GetAllAssets` is the parsed object, never the raw text, and
`TransferAsset` of an existing key succeeds. -/
theorem reachable_invariant (fmt : List Char → List Char) (s : Store)
    (h : Reachable fmt s) :
    (∀ k v, s.find k = some v →
      v ≠ "" ∧ ∃ ps, JSON.parse v = .ok (.obj ps) ∧
        getProp (jsString "LotID") ps = some (.str (jsString k))) ∧
    (∀ k v, (k, v) ∈ s.getStateByRange →
      ∃ ps, JSON.parse v = .ok (.obj ps) ∧ recordOf v = .obj ps) ∧
    (∀ k newOwner, (AssetExists s k).1 = .ok true →
      (TransferAsset fmt s k newOwner).1 = .ok ()) := by
  have hk := keyed_of_reachable fmt s h
  refine ⟨?_, ?_, ?_⟩
  · intro k v hf
    have hg := hk k v hf
    refine ⟨goodEntry_ne_empty hg, ?_⟩
    obtain ⟨ps, hp, _, hl⟩ := hg
    exact ⟨ps, hp, hl⟩
  · intro k v hm
    obtain ⟨ps, hp, _, _⟩ := hk k v (findEntry_of_mem s.ascending hm)
    exact ⟨ps, hp, by simp only [recordOf, hp]⟩
  · intro k newOwner hx
    obtain ⟨ps, hp, _, _⟩ := hk k _ (find_of_exists hx)
    rw [TransferAsset_obj fmt s k newOwner ps hp]

set_option maxRecDepth 8192 in
theorem reachable_invariant_witness :
    Reachable id ((Op.TransferAsset "002" "Ada").run id (Op.InitLedger.run id Store.empty)) ∧
    (AssetExists ((Op.TransferAsset "002" "Ada").run id (Op.InitLedger.run id Store.empty))
      "002").1 = .ok true ∧
    (TransferAsset id ((Op.TransferAsset "002" "Ada").run id (Op.InitLedger.run id Store.empty))
      "002" "Bob").1 = .ok () :=
  ⟨Reachable.step _ _ (Reachable.step _ _ Reachable.empty), rfl,
   (reachable_invariant id _ (Reachable.step _ _ (Reachable.step _ _ Reachable.empty))).2.2
     "002" "Bob" rfl⟩

theorem OnLedger.deleteState_issued (answer : Answer) (l : Ledger) (k : String) :
    (OnLedger.deleteState answer l k).2.issued = l.issued ++ [.delete k] := by
  unfold OnLedger.deleteState
  split <;> rfl

theorem OnLedger.initLoop_issued (answer : Answer) (fmt : List Char → List Char)
    (as : List Asset) (l : Ledger) :
    ∃ ws, (OnLedger.initLoop answer fmt as l).2.issued = l.issued ++ ws ∧
      ∀ w ∈ ws, ∃ a ∈ as, w = .put a.LotID (OnLedger.seedText fmt a) := by
  induction as generalizing l with
  | nil => exact ⟨[], by simp [OnLedger.initLoop], by simp⟩
  | cons a rest ih =>
    rw [OnLedger.initLoop]
    have hi := OnLedger.putState_issued answer l a.LotID (OnLedger.seedText fmt a)
    cases hp : OnLedger.putState answer l a.LotID (OnLedger.seedText fmt a) with
    | mk r l1 =>
      rw [hp] at hi
      cases r with
      | error e =>
        refine ⟨[.put a.LotID (OnLedger.seedText fmt a)], hi, ?_⟩
        intro w hw
        exact ⟨a, List.mem_cons_self _ _, List.mem_singleton.1 hw⟩
      | ok u =>
        obtain ⟨ws, h1, h2⟩ := ih l1
        refine ⟨.put a.LotID (OnLedger.seedText fmt a) :: ws, ?_, ?_⟩
        · simp only at hi ⊢
          rw [h1, hi, List.append_assoc, List.singleton_append]
        · intro w hw
          rcases List.mem_cons.1 hw with hw | hw
          · exact ⟨a, List.mem_cons_self _ _, hw⟩
          · obtain ⟨b, hb, hw⟩ := h2 w hw
            exact ⟨b, List.mem_cons_of_mem _ hb, hw⟩

theorem OnLedger.UpdateAsset_issued (answer : Answer) (fmt : List Char → List Char)
    (l : Ledger) (lotId m d q : String) :
    (OnLedger.UpdateAsset answer fmt l lotId m d q).2.issued = l.issued ∨
    (OnLedger.UpdateAsset answer fmt l lotId m d q).2.issued = l.issued ++
      [.put lotId (JSON.stringify fmt (.obj (Asset.toObject ⟨lotId, m, d, q⟩)))] := by
  cases hb : decide ((l.state.getState lotId).length > 0) with
  | false =>
    left
    simp only [OnLedger.UpdateAsset, AssetExists, hb]
    rfl
  | true =>
    right
    simp only [OnLedger.UpdateAsset, AssetExists, hb]
    exact OnLedger.putState_issued answer l lotId _

theorem OnLedger.DeleteAsset_issued (answer : Answer) (l : Ledger) (lotId : String) :
    (OnLedger.DeleteAsset answer l lotId).2.issued = l.issued ∨
    (OnLedger.DeleteAsset answer l lotId).2.issued = l.issued ++ [.delete lotId] := by
  cases hb : decide ((l.state.getState lotId).length > 0) with
  | false =>
    left
    simp only [OnLedger.DeleteAsset, AssetExists, hb]
    rfl
  | true =>
    right
    simp only [OnLedger.DeleteAsset, AssetExists, hb]
    exact OnLedger.deleteState_issued answer l lotId

theorem OnLedger.TransferAsset_issued (answer : Answer) (fmt : List Char → List Char)
    (l : Ledger) (lotId newOwner : String) :
    (OnLedger.TransferAsset answer fmt l lotId newOwner).2.issued = l.issued ∨
    ∃ v v', (AssetExists l.state lotId).1 = .ok true ∧
      JSON.parse (l.state.getState lotId) = .ok v ∧
      assignProp v (jsString "Owner") (.str (jsString newOwner)) = .ok v' ∧
      (OnLedger.TransferAsset answer fmt l lotId newOwner).2.issued =
        l.issued ++ [.put lotId (JSON.stringify fmt v')] := by
  unfold OnLedger.TransferAsset
  by_cases h0 : (l.state.getState lotId).length = 0
  · left
    simp [ReadAsset, h0]
  · simp only [ReadAsset, h0, if_false]
    cases hp : JSON.parse (l.state.getState lotId) with
    | error e => exact Or.inl rfl
    | ok v =>
      cases ha : assignProp v (jsString "Owner") (JSON.str (jsString newOwner)) with
      | error e => exact Or.inl (by simp only [ha])
      | ok v' =>
        right
        refine ⟨v, v', ?_, rfl, ha, ?_⟩
        · rw [AssetExists_fst]
          have : decide ((l.state.getState lotId).length > 0) = true := by
            simp only [gt_iff_lt, decide_eq_true_eq]
            omega
          rw [this]
        · simp only [ha]
          exact OnLedger.putState_issued answer l lotId _

/-- C16 (amended): `CreateAsset`, `UpdateAsset`, `TransferAsset` and `DeleteAsset`
called with `lotId` leave every other key as it was, and `InitLedger` leaves every
key outside `"001"`..`"005"` as it was; every write they issue goes to that key
(one of the five for `InitLedger`); the records `CreateAsset`, `UpdateAsset` and
`InitLedger` put have their key as `LotID`; `TransferAsset` puts back the object
it read with `Owner` set, so with the `LotID` it had: the record it puts has its
key as `LotID` whenever the record it read had, which holds for every key of a
world state reachable through the service. -/
theorem own_key_only (fmt : List Char → List Char) :
    (∀ (s : Store) (lotId method date quantity k : String), k ≠ lotId →
      (CreateAsset fmt s lotId method date quantity).2.find k = s.find k ∧
      (UpdateAsset fmt s lotId method date quantity).2.find k = s.find k) ∧
    (∀ (s : Store) (lotId newOwner k : String), k ≠ lotId →
      (TransferAsset fmt s lotId newOwner).2.find k = s.find k ∧
      (DeleteAsset s lotId).2.find k = s.find k) ∧
    (∀ (s : Store) (k : String), k ∉ ["001", "002", "003", "004", "005"] →
      (InitLedger fmt s).2.find k = s.find k) ∧
    (∀ (answer : Answer) (l : Ledger) (lotId method date quantity : String),
      (∃ ws, (OnLedger.CreateAsset answer fmt l lotId method date quantity).2.issued =
          l.issued ++ ws ∧ ∀ w ∈ ws, w.key = lotId ∧ w.ownKey) ∧
      (∃ ws, (OnLedger.UpdateAsset answer fmt l lotId method date quantity).2.issued =
          l.issued ++ ws ∧ ∀ w ∈ ws, w.key = lotId ∧ w.ownKey)) ∧
    (∀ (answer : Answer) (l : Ledger),
      ∃ ws, (OnLedger.InitLedger answer fmt l).2.issued = l.issued ++ ws ∧
        ∀ w ∈ ws, w.key ∈ ["001", "002", "003", "004", "005"] ∧ w.ownKey) ∧
    (∀ (answer : Answer) (l : Ledger) (lotId : String),
      ∃ ws, (OnLedger.DeleteAsset answer l lotId).2.issued = l.issued ++ ws ∧
        ∀ w ∈ ws, w = .delete lotId) ∧
    (∀ (answer : Answer) (l : Ledger) (lotId newOwner : String),
      ∃ ws, (OnLedger.TransferAsset answer fmt l lotId newOwner).2.issued = l.issued ++ ws ∧
        ∀ w ∈ ws, w.key = lotId ∧ (KeyedByLotID l.state → w.ownKey) ∧
          (GoodEntry lotId (l.state.getState lotId) → w.ownKey) ∧
          (∀ ps, JSON.parse (l.state.getState lotId) = .ok (.obj ps) →
            w = .put lotId (JSON.stringify fmt
              (.obj (setProp ps (jsString "Owner") (.str (jsString newOwner))))) ∧
            getProp (jsString "LotID")
              (setProp ps (jsString "Owner") (.str (jsString newOwner))) =
                getProp (jsString "LotID") ps ∧
            (numberFreeProps ps = true →
              JSON.parse (JSON.stringify fmt
                (.obj (setProp ps (jsString "Owner") (.str (jsString newOwner))))) =
                .ok (.obj (setProp ps (jsString "Owner") (.str (jsString newOwner))))))) ∧
    (∀ (s : Store) (lotId newOwner : String) (ps : List (JSString × JSON)),
      (TransferAsset fmt s lotId newOwner).1 = .ok () →
      JSON.parse (s.getState lotId) = .ok (.obj ps) →
      (TransferAsset fmt s lotId newOwner).2.find lotId =
        some (JSON.stringify fmt
          (.obj (setProp ps (jsString "Owner") (.str (jsString newOwner)))))) ∧
    (∀ s : Store, Reachable fmt s → KeyedByLotID s) := by
  refine ⟨?_, ?_, find_InitLedger_other fmt, ?_, ?_, ?_, ?_, ?_, keyed_of_reachable fmt⟩
  · intro s lotId method date quantity k hk
    refine ⟨Store.find_putState_other s lotId _ k hk, ?_⟩
    rcases UpdateAsset_cases fmt s lotId method date quantity with ⟨_, h⟩ | ⟨_, h⟩
    · rw [h]
    · rw [h]; exact Store.find_putState_other s lotId _ k hk
  · intro s lotId newOwner k hk
    constructor
    · rcases TransferAsset_cases fmt s lotId newOwner with ⟨e, h⟩ | ⟨v, v', _, _, _, h⟩
      · rw [h]
      · rw [h]; exact Store.find_putState_other s lotId _ k hk
    · rcases DeleteAsset_cases s lotId with ⟨_, h⟩ | ⟨_, h⟩
      · rw [h]
      · rw [h]; exact Store.find_deleteState_other s lotId k hk
  · intro answer l lotId method date quantity
    constructor
    · refine ⟨[.put lotId (JSON.stringify fmt (.obj (Asset.toObject
        ⟨lotId, method, date, quantity⟩)))], OnLedger.putState_issued answer l lotId _, ?_⟩
      intro w hw
      rw [List.mem_singleton.1 hw]
      exact ⟨rfl, goodEntry_asset fmt ⟨lotId, method, date, quantity⟩⟩
    · rcases OnLedger.UpdateAsset_issued answer fmt l lotId method date quantity with h | h
      · exact ⟨[], by rw [h, List.append_nil], by simp⟩
      · refine ⟨_, h, ?_⟩
        intro w hw
        rw [List.mem_singleton.1 hw]
        exact ⟨rfl, goodEntry_asset fmt ⟨lotId, method, date, quantity⟩⟩
  · intro answer l
    obtain ⟨ws, h1, h2⟩ := OnLedger.initLoop_issued answer fmt seedAssets l
    refine ⟨ws, h1, ?_⟩
    intro w hw
    obtain ⟨a, ha, hwa⟩ := h2 w hw
    rw [hwa]
    refine ⟨?_, goodEntry_seed fmt a⟩
    simp only [seedAssets, List.mem_cons, List.mem_singleton, List.not_mem_nil, or_false] at ha
    rcases ha with ha | ha | ha | ha | ha <;> subst ha <;> simp [Write.key]
  · intro answer l lotId
    rcases OnLedger.DeleteAsset_issued answer l lotId with h | h
    · exact ⟨[], by rw [h, List.append_nil], by simp⟩
    · exact ⟨_, h, fun w hw => List.mem_singleton.1 hw⟩
  · intro answer l lotId newOwner
    rcases OnLedger.TransferAsset_issued answer fmt l lotId newOwner with
      h | ⟨v, v', hx, hp, ha, h⟩
    · exact ⟨[], by rw [h, List.append_nil], by simp⟩
    · refine ⟨_, h, ?_⟩
      intro w hw
      rw [List.mem_singleton.1 hw]
      refine ⟨rfl, fun hk => ?_, fun hg => ?_, fun ps hps => ?_⟩
      · exact goodEntry_transfer fmt l.state lotId newOwner v v'
          (hk _ _ (find_of_exists hx)) hp ha
      · exact goodEntry_transfer fmt l.state lotId newOwner v v' hg hp ha
      · rw [hps] at hp
        injection hp with hp
        subst hp
        simp only [assignProp, Except.ok.injEq] at ha
        subst ha
        refine ⟨rfl, getProp_setProp_other ps _ _ _ (by decide), fun hnf => ?_⟩
        have hc := parse_ok_canonical _ _ hps
        apply parse_stringify
        · exact setProp_numberFreeProps ps _ _ hnf rfl
        · exact ⟨setProp_canonKeys ps _ _ hc.1, setProp_canonicalProps ps _ _ hc.2 trivial⟩
  · intro s lotId newOwner ps _ hps
    rw [TransferAsset_obj fmt s lotId newOwner ps hps]
    exact Store.find_putState_same s lotId _

set_option maxRecDepth 8192 in
theorem own_key_only_counterexample :
    TransferAsset id (Store.empty.putState "a" "\x7b\"LotID\":\"b\"\x7d") "a" "o" =
      (.ok (), Store.empty.putState "a" "\x7b\"LotID\":\"b\",\"Owner\":\"o\"\x7d") ∧
    (OnLedger.TransferAsset accept id ⟨Store.empty.putState "a" "\x7b\"LotID\":\"b\"\x7d", []⟩
        "a" "o").2.issued = [.put "a" "\x7b\"LotID\":\"b\",\"Owner\":\"o\"\x7d"] ∧
    JSON.parse "\x7b\"LotID\":\"b\",\"Owner\":\"o\"\x7d" =
      .ok (.obj [(jsString "LotID", .str (jsString "b")),
                 (jsString "Owner", .str (jsString "o"))]) ∧
    ¬ (Write.put "a" "\x7b\"LotID\":\"b\",\"Owner\":\"o\"\x7d").ownKey := by
  refine ⟨?_, by decide, rfl, ?_⟩
  · have hp : JSON.parse ((Store.empty.putState "a" "\x7b\"LotID\":\"b\"\x7d").getState "a") =
        .ok (.obj [(jsString "LotID", .str (jsString "b"))]) := rfl
    rw [TransferAsset_obj id _ "a" "o" _ hp]
    refine congrArg (Prod.mk (Except.ok ())) (Store.ext ?_)
    decide
  · rintro ⟨ps, hp, _, hl⟩
    have h : JSON.parse "\x7b\"LotID\":\"b\",\"Owner\":\"o\"\x7d" =
      .ok (.obj [(jsString "LotID", .str (jsString "b")),
                 (jsString "Owner", .str (jsString "o"))]) := rfl
    rw [h] at hp
    injection hp with hp
    injection hp with hp
    subst hp
    simp only [getProp, if_true, Option.some.injEq, JSON.str.injEq] at hl
    exact absurd hl (by decide)

set_option maxRecDepth 8192 in
theorem own_key_only_witness :
    "002" ≠ "001" ∧
    (CreateAsset id (InitLedger id Store.empty).2 "001" "Seed" "2021-03-05" "1 gram").2.find "002"
      = (InitLedger id Store.empty).2.find "002" ∧
    GoodEntry "a"
      (((Store.empty.putState "a" "\x7b\"LotID\":\"a\"\x7d").putState "z" "junk").getState "a") ∧
    ¬ KeyedByLotID ((Store.empty.putState "a" "\x7b\"LotID\":\"a\"\x7d").putState "z" "junk") ∧
    (Write.put "a" "\x7b\"LotID\":\"a\",\"Owner\":\"o\"\x7d").ownKey := by
  have hg : GoodEntry "a"
      (((Store.empty.putState "a" "\x7b\"LotID\":\"a\"\x7d").putState "z" "junk").getState "a") :=
    ⟨[(jsString "LotID", .str (jsString "a"))], rfl, rfl, rfl⟩
  refine ⟨by decide, ((own_key_only id).1 (InitLedger id Store.empty).2 "001" "Seed"
    "2021-03-05" "1 gram" "002" (by decide)).1, hg, ?_, ?_⟩
  · intro hk
    obtain ⟨ps, hp, _⟩ := hk "z" "junk" (by decide)
    have h : JSON.parse "junk" = .error .syntaxError := rfl
    rw [h] at hp
    exact absurd hp (by simp)
  · obtain ⟨ws, hws, h⟩ := (own_key_only id).2.2.2.2.2.2.1 accept
      ⟨(Store.empty.putState "a" "\x7b\"LotID\":\"a\"\x7d").putState "z" "junk", []⟩ "a" "o"
    have hi : (OnLedger.TransferAsset accept id
        ⟨(Store.empty.putState "a" "\x7b\"LotID\":\"a\"\x7d").putState "z" "junk", []⟩
        "a" "o").2.issued = [.put "a" "\x7b\"LotID\":\"a\",\"Owner\":\"o\"\x7d"] := by decide
    rw [hi] at hws
    exact (h _ (by rw [← List.nil_append ws, ← hws]; exact List.mem_singleton.mpr rfl)).2.2.1 hg

set_option maxRecDepth 8192 in
theorem record_state_machine_witness :
    (AssetExists (InitLedger id Store.empty).2 "003").1 = .ok true ∧
    (AssetExists ((Op.DeleteAsset "003").run id (InitLedger id Store.empty).2) "003").1 =
      .ok false ∧
    (Op.DeleteAsset "003" = .DeleteAsset "003" ∧
      (DeleteAsset (InitLedger id Store.empty).2 "003").1 = .ok () ∧
      (ReadAsset ((Op.DeleteAsset "003").run id (InitLedger id Store.empty).2) "003").1 =
        .error (.error ("The asset " ++ "003" ++ " does not exist"))) :=
  ⟨rfl, rfl,
   (record_state_machine id (InitLedger id Store.empty).2).2.2.2 (.DeleteAsset "003") "003"
     rfl rfl⟩

end AssetTransfer
